import Mathlib

/-!
# pairec: SSD reranker and PAI A/B adapter

Shallow embedding of `sort/ssd_sort.go` and `abtest/pai/paiabtest.go`.

Numbers: Go `float64` values are modelled by an exact ordered field `α`
(`ℚ` for evaluation, `ℝ` for statements about square roots); `math.Sqrt`
is the explicit argument `sqrt`.  NaN and ±Inf are not values of the
model: the one place where the code produces them from finite inputs and
guards against them (a projection with a zero denominator) is modelled
by an explicit test on the denominator.  Go `int` knobs are `Int`,
lengths and `ctx.Size` are `Nat` (the controller replaces a size `≤ 0`
by `Default_Size`).
-/

namespace Pairec

/-! ## Data model -/

/-- The fields of `module.Item` that the reranker reads or writes. -/
structure Item (α : Type) where
  Id : String
  RetrieveId : String
  Score : α
  Embedding : List α
  AlgoScores : List (String × α)
deriving DecidableEq

/-- The fields of an item that no step of the reranker writes. -/
def Item.core {α : Type} (it : Item α) : String × String × α := (it.Id, it.RetrieveId, it.Score)

/-- `Item.AddAlgoScore`: set one diagnostic score. -/
def Item.AddAlgoScore {α : Type} (it : Item α) (name : String) (v : α) : Item α :=
  { it with AlgoScores := (it.AlgoScores.filter (fun kv => kv.1 != name)) ++ [(name, v)] }

/-- The experiment parameters the reranker looks up, each `none` when the
bundle has no usable value under that key, so that the typed accessor
returns its default.  For `ssd_filter_retrieve_ids` the value is the
list found under the key, a non-string element being `none`. -/
structure ExperimentParams (α : Type) where
  ssd_gamma : Option α
  ssd_window_size : Option Int
  ssd_candidate_count : Option Int
  ssd_min_score_percent : Option α
  ssd_norm_quality_score : Option Int
  ssd_filter_retrieve_ids : Option (List (Option String))

/-- `params.GetFloat(key, default)` / `params.GetInt(key, default)`. -/
def getParam {β : Type} (v : Option β) (dflt : β) : β := v.getD dflt

/-- The part of `context.RecommendContext` used by the reranker. -/
structure RecommendContext (α : Type) where
  Size : Nat
  params : ExperimentParams α

/-- Everything outside the process that one `Sort` call observes. -/
structure World (α : Type) where
  /-- whether `abtest.GetExperimentClient()` is non-nil -/
  hasClient : Bool
  /-- `client.GetSceneParams(scene).GetString(suffixParam, "")` -/
  sceneSuffix : String
  /-- `db.Query` on a table for a list of keys: an error, or the rows that
  scan, each with its key and the numbers parsed from the embedding text -/
  query : String → List String → Except String (List (String × List α))
  /-- the `rand.NormFloat64()` draws made for a key, by position -/
  randNorm : String → Nat → α
  /-- result of `condition.filterParam.EvaluateByDomain` for this user -/
  conditionEval : Except String Bool

/-- The receiver `SSDSort`: configuration and the two mutable fields
`embCache` and `lastTableSuffixParam`. -/
structure SSDSort (α : Type) where
  tableName : String
  suffixParam : String
  gamma : α
  useSSDStar : Bool
  embCache : List (String × List α)
  lastTableSuffixParam : String
  normalizeEmb : Bool
  windowSize : Int
  abortRunCnt : Int
  candidateCnt : Int
  minScorePercent : α
  embMissThreshold : α
  filterRetrieveIds : List String
  ensurePosSimilarity : Bool
  hasCondition : Bool

/-! ## Library functions (gonum `floats`, `mat`, `stat`; `utils`) -/

section Numeric
variable {α : Type} [LinearOrderedField α]

/-- Largest finite `float64`, `math.MaxFloat64`. -/
def maxFloat64 : α := 2 ^ 1024 - 2 ^ 971

/-- Sum of the products of the paired entries. -/
def dotSum (a b : List α) : α := (List.zipWith (fun x y => x * y) a b).sum

/-- `floats.Dot`: panics (here `none`) when the lengths differ. -/
def floatsDot (a b : List α) : Option α :=
  if a.length = b.length then some (dotSum a b) else none

/-- `floats.Norm(v, 2)`. -/
def floatsNorm (sqrt : α → α) (v : List α) : α := sqrt (dotSum v v)

/-- `floats.Scale(c, v)`. -/
def floatsScale (c : α) (v : List α) : List α := v.map (fun x => c * x)

/-- `floats.Add(dst, s)`: panics (here `none`) when the lengths differ. -/
def floatsAdd (dst s : List α) : Option (List α) :=
  if dst.length = s.length then some (List.zipWith (fun x y => x + y) dst s) else none

/-- `floats.Sub(dst, s)`: panics (here `none`) when the lengths differ. -/
def floatsSub (dst s : List α) : Option (List α) :=
  if dst.length = s.length then some (List.zipWith (fun x y => x - y) dst s) else none

/-- `mat.NewVecDense(dim, data)` with non-nil data: panics (here `none`)
when `dim` is zero or is not the length of `data`. -/
def newVecDense (dim : Nat) (data : List α) : Option (List α) :=
  if dim = 0 then none else if data.length = dim then some data else none

/-- The scan of `floats.MaxIdx` once a first value has been taken: `max` is
the largest value so far, `ind` its position, `i` the position of the head
of the rest; a value replaces `max` only when it is strictly larger. -/
def maxIdxFrom (max : α) (ind i : Nat) : List α → Nat
  | [] => ind
  | v :: rest => if v > max then maxIdxFrom v i (i + 1) rest
                 else maxIdxFrom max ind (i + 1) rest

/-- `floats.MaxIdx`: index of the first maximum (0 on the empty list, where
gonum panics; the callers pass a non-empty list). -/
def floatsMaxIdx : List α → Nat
  | [] => 0
  | v :: rest => maxIdxFrom v 0 1 rest

/-- `stat.PopMeanVariance(x, nil)`, unweighted. -/
def popMeanVariance (x : List α) : α × α :=
  let n : α := (x.length : α)
  let mean := x.sum / n
  (mean, (x.map (fun v => (v - mean) * (v - mean))).sum / n)

/-- `stat.StdScore`. -/
def stdScore (x mean std : α) : α := (x - mean) / std

end Numeric

/-- Run a loop body that may panic over a list: `none` as soon as one call
panics, else the results in order. -/
def mapOpt {β γ : Type} (f : β → Option γ) : List β → Option (List γ)
  | [] => some []
  | x :: rest =>
    match f x with
    | none => none
    | some y => (mapOpt f rest).map fun ys => y :: ys

/-- Modelled from the spec: `utils.CycleQueue` is not under `src/`; the spec
describes a FIFO holding at most `cap` entries (the last `w` picks). -/
structure CycleQueue (β : Type) where
  cap : Nat
  data : List β

/-- Modelled from the spec: `utils.NewCycleQueue`, an empty FIFO of the
given capacity. -/
def NewCycleQueue (β : Type) (cap : Int) : CycleQueue β := ⟨cap.toNat, []⟩

/-- Modelled from the spec: `CycleQueue.Push` appends at the rear and
reports `false`, leaving the queue alone, when it is full. -/
def CycleQueue.Push {β : Type} (q : CycleQueue β) (x : β) : Bool × CycleQueue β :=
  if q.data.length < q.cap then (true, { q with data := q.data ++ [x] }) else (false, q)

/-- Modelled from the spec: `CycleQueue.Pop` removes the oldest entry;
`none` on an empty queue (a nil interface in Go). -/
def CycleQueue.Pop {β : Type} (q : CycleQueue β) : Option β × CycleQueue β :=
  match q.data with
  | [] => (none, q)
  | x :: rest => (some x, { q with data := rest })

/-! ## `SSDSort.SSDWithSlidingWindow` -/

section SSD
variable {α : Type} [LinearOrderedField α]

/-- The variables carried round the loop `for t < T`; `emb` is
`items[j].Embedding` for each position `j` (the working embeddings, which
the loop updates in place). -/
structure SSDLoop (α : Type) where
  t : Nat
  idx : Nat
  emb : List (List α)
  selected : List Nat
  indices : List Nat
  volume : α
  B : CycleQueue Nat
  P : CycleQueue (List α)

/-- Body of the restore loop for one position `j`: skipped when `j` is
selected, else `floats.Add(items[j].Embedding, projections[j] * embI)`. -/
def restoreOne (selected : List Nat) (projections embI : List α) (j : Nat) (e : List α) :
    Option (List α) :=
  if j ∈ selected then some e
  else floatsAdd e (floatsScale (projections.getD j 0) embI)

/-- The restore block run when `t > windowSize`: pop the oldest pick and its
projections, add the projections back to every unselected embedding. -/
def restoreWindow (dim : Nat) (st : SSDLoop α) : Option (SSDLoop α) :=
  match st.B.Pop, st.P.Pop with
  | (some i, B1), (some projections, P1) =>
    (newVecDense dim (st.emb.getD i [])).bind fun embI =>
      (mapOpt (fun je => restoreOne st.selected projections embI je.1 je.2) st.emb.enum).map
        fun emb1 => { st with emb := emb1, B := B1, P := P1 }
  | _, _ => none

/-- Body of the projection loop for one position `j`: skipped (projection 0)
when `j` is selected; else the coefficient of `e` on `embIdx`, replaced by 1
when the division yields NaN or ±Inf (a zero denominator), and `e` minus
that multiple of `embIdx`. -/
def projectOne (selected : List Nat) (embIdx : List α) (j : Nat) (e : List α) :
    Option (α × List α) :=
  if j ∈ selected then some (0, e)
  else
    (floatsDot e embIdx).bind fun num =>
      let den := dotSum embIdx embIdx
      let p := if den = 0 then 1 else num / den
      (floatsSub e (floatsScale p embIdx)).map fun e1 => (p, e1)

/-- The quality of position `i` with relevance `r`. -/
def qualityOf (sqrt : α → α) (selected : List Nat) (volume : α) (i : Nat) (r : α)
    (e : List α) : α :=
  if i ∈ selected then -maxFloat64 else r + volume * floatsNorm sqrt e

/-- One iteration of the loop `for t < T`. -/
def ssdStep (sqrt : α → α) (useSSDStar : Bool) (relevanceScore : List α) (dim : Nat)
    (windowSize : Int) (st : SSDLoop α) : Option (SSDLoop α) :=
  (if (st.t : Int) > windowSize then restoreWindow dim st else some st).bind fun st1 =>
    let B2 := (st1.B.Push st1.idx).2
    (newVecDense dim (st1.emb.getD st1.idx [])).bind fun embI =>
      (mapOpt (fun je => projectOne st1.selected embI je.1 je.2) st1.emb.enum).map fun pe =>
        let projections := pe.map Prod.fst
        let emb2 := pe.map Prod.snd
        let P2 := (st1.P.Push projections).2
        let qualities := (relevanceScore.enum.map fun ir =>
          qualityOf sqrt st1.selected st1.volume ir.1 ir.2 (emb2.getD ir.1 []))
        let idx2 := floatsMaxIdx qualities
        { t := st1.t + 1
          idx := idx2
          emb := emb2
          selected := idx2 :: st1.selected
          indices := st1.indices ++ [idx2]
          volume := if useSSDStar then st1.volume
                    else st1.volume * floatsNorm sqrt (emb2.getD idx2 [])
          B := B2
          P := P2 }

/-- The loop `for t < T`, which runs `T - t` times. -/
def ssdLoop (sqrt : α → α) (useSSDStar : Bool) (relevanceScore : List α) (dim : Nat)
    (windowSize : Int) : Nat → SSDLoop α → Option (SSDLoop α)
  | 0, st => some st
  | n + 1, st =>
    (ssdStep sqrt useSSDStar relevanceScore dim windowSize st).bind
      (ssdLoop sqrt useSSDStar relevanceScore dim windowSize n)

/-- The relevance scores after `ssd_norm_quality_score`, or `none` when the
guard on degenerate scores fires and the function returns its input. -/
def normRelevance (sqrt : α → α) (doNorm : Int) (relevanceScore : List α) : Option (List α) :=
  if doNorm = 1 then
    let mv := popMeanVariance relevanceScore
    if mv.1 = 0 ∨ mv.2 = 0 then none
    else some (relevanceScore.map fun x => stdScore x mv.1 (sqrt mv.2))
  else if doNorm = 2 then
    let maxScore := relevanceScore.getD 0 0
    let minScore := relevanceScore.getD (relevanceScore.length - 1) 0
    let scoreSpan := maxScore - minScore
    if scoreSpan = 0 then none
    else some (relevanceScore.map fun x =>
      ((x - minScore) / scoreSpan) * (1 - 1 / 1000000) + 1 / 1000000)
  else some relevanceScore

/-- The state before the first iteration: the first pick is the position of
the largest relevance score. -/
def ssdInit (sqrt : α → α) (useSSDStar : Bool) (gamma : α) (windowSize : Int)
    (items : List (Item α)) (relevanceScore : List α) : SSDLoop α :=
  let idx := floatsMaxIdx relevanceScore
  let emb := items.map Item.Embedding
  { t := 1
    idx := idx
    emb := emb
    selected := [idx]
    indices := [idx]
    volume := if useSSDStar then gamma else gamma * floatsNorm sqrt (emb.getD idx [])
    B := NewCycleQueue Nat windowSize
    P := NewCycleQueue (List α) windowSize }

/-- The items as they stand when the function is left: the working
embeddings written in place, and the quality score annotated when the
scores were normalised. -/
def ssdItems (doNorm : Int) (items : List (Item α)) (relevanceScore : List α)
    (emb : List (List α)) : List (Item α) :=
  items.enum.map fun ji =>
    let it := { ji.2 with Embedding := emb.getD ji.1 ji.2.Embedding }
    if doNorm = 1 ∨ doNorm = 2 then
      it.AddAlgoScore "ssd_quality_score" (relevanceScore.getD ji.1 0)
    else it

/-- The outcome of `SSDWithSlidingWindow`: the returned list and the items
as the call leaves them.  A panic is recovered by the deferred function and
the call then returns nil; the items are then given as they stood before
the loop (the updates of the iterations before the panic are left out). -/
def ssdRun (sqrt : α → α) (s : SSDSort α) (ctx : RecommendContext α)
    (items : List (Item α)) : List (Item α) × List (Item α) :=
  let gamma := getParam ctx.params.ssd_gamma s.gamma
  let windowSize0 := getParam ctx.params.ssd_window_size s.windowSize
  let windowSize := if windowSize0 ≤ 1 then 5 else windowSize0
  let N := items.length
  let doNorm := getParam ctx.params.ssd_norm_quality_score 0
  match normRelevance sqrt doNorm (items.map Item.Score) with
  | none => (items, items)
  | some relevanceScore =>
    let st0 := ssdInit sqrt s.useSSDStar gamma windowSize items relevanceScore
    let T := min N ctx.Size
    let dim := (st0.emb.getD st0.idx []).length
    match ssdLoop sqrt s.useSSDStar relevanceScore dim windowSize (T - 1) st0 with
    | none => ([], ssdItems doNorm items relevanceScore st0.emb)
    | some st =>
      let final := ssdItems doNorm items relevanceScore st.emb
      (st.indices.filterMap fun index => final.get? index, final)

/-- `SSDSort.SSDWithSlidingWindow`: the returned list. -/
def SSDWithSlidingWindow (sqrt : α → α) (s : SSDSort α) (ctx : RecommendContext α)
    (items : List (Item α)) : List (Item α) :=
  (ssdRun sqrt s ctx items).1

end SSD

/-! ## `SSDSort.loadEmbeddingCache` -/

section Load
variable {α : Type} [LinearOrderedField α]

/-- `embCache.Put`: the entry of the key is replaced. -/
def cachePut (cache : List (String × List α)) (key : String) (v : List α) :
    List (String × List α) :=
  (key, v) :: cache.filter (fun kv => kv.1 != key)

/-- Assignment `itemMap[id] = item`, the item being named by its position. -/
def itemMapPut (m : List (String × Nat)) (key : String) (pos : Nat) : List (String × Nat) :=
  (key, pos) :: m.filter (fun kv => kv.1 != key)

/-- Assignment `item.Embedding = v` to the item at a position. -/
def setEmbedding : List (Item α) → Nat → List α → List (Item α)
  | [], _, _ => []
  | it :: rest, 0, v => { it with Embedding := v } :: rest
  | it :: rest, pos + 1, v => it :: setEmbedding rest pos v

/-- Variables of the loop over the items that reads the cache. -/
structure CacheScan (α : Type) where
  absentItemIds : List String
  embedSize : Nat
  itemMap : List (String × Nat)
  items : List (Item α)

/-- The loop `for _, item := range items` of `loadEmbeddingCache`, over the
items paired with their positions; the first component is the error of an
early return. -/
def scanCache (cache : List (String × List α)) (acc : CacheScan α) :
    List (Nat × Item α) → Option String × CacheScan α
  | [] => (none, acc)
  | (j, item) :: rest =>
    match cache.lookup item.Id with
    | none =>
      scanCache cache
        { acc with absentItemIds := acc.absentItemIds ++ [item.Id]
                   itemMap := itemMapPut acc.itemMap item.Id j } rest
    | some embI =>
      let acc1 := { acc with items := setEmbedding acc.items j embI }
      if acc.embedSize = 0 then scanCache cache { acc1 with embedSize := embI.length } rest
      else if acc.embedSize ≠ embI.length then (some "item embedding size do not match", acc1)
      else scanCache cache acc1 rest

/-- Variables of the loop over the rows of the query. -/
structure RowScan (α : Type) where
  embedSize : Nat
  embCache : List (String × List α)
  items : List (Item α)
  rowNum : Nat

/-- The vector built from the parsed elements of one row.  Scaling by
`1/normV` uses the division of the field, so a row of norm zero stays zero
(Go yields NaN entries there). -/
def rowVector (sqrt : α → α) (s : SSDSort α) (elements : List α) : List α :=
  let vector := if s.normalizeEmb then floatsScale (1 / floatsNorm sqrt elements) elements
                else elements
  if s.ensurePosSimilarity then vector ++ [1] else vector

/-- The loop `for rows.Next()` of `loadEmbeddingCache`. -/
def scanRows (sqrt : α → α) (s : SSDSort α) (itemMap : List (String × Nat))
    (acc : RowScan α) : List (String × List α) → Option String × RowScan α
  | [] => (none, acc)
  | (itemID, elements) :: rest =>
    let vector := rowVector sqrt s elements
    if acc.embedSize ≠ 0 ∧ acc.embedSize ≠ vector.length then
      (some "item embedding size do not match", acc)
    else
      let acc1 := { acc with embedSize := if acc.embedSize = 0 then vector.length
                                          else acc.embedSize
                             embCache := cachePut acc.embCache itemID vector }
      match itemMap.lookup itemID with
      | some j =>
        scanRows sqrt s itemMap
          { acc1 with items := setEmbedding acc1.items j vector
                      rowNum := acc1.rowNum + 1 } rest
      | none => (some "item id is not in map", acc1)

/-- The embedding drawn for an item the table does not hold: `embedSize`
standard-normal draws, scaled to norm one. -/
def randomEmbedding (sqrt : α → α) (w : World α) (key : String) (embedSize : Nat) : List α :=
  let v := (List.range embedSize).map (w.randNorm key)
  floatsScale (1 / floatsNorm sqrt v) v

/-- The loop `for id, item := range itemMap` that fills the missing
embeddings. -/
def fillMissing (sqrt : α → α) (w : World α) (embedSize : Nat) :
    List (String × Nat) → List (Item α) → List (Item α)
  | [], items => items
  | (key, j) :: rest, items =>
    let items1 :=
      match items.get? j with
      | some item =>
        if item.Embedding.length = 0 then
          setEmbedding items j (randomEmbedding sqrt w key embedSize)
        else items
      | none => items
    fillMissing sqrt w embedSize rest items1

/-- The table suffix read at the start of `loadEmbeddingCache`. -/
def tableSuffixOf (s : SSDSort α) (w : World α) : String :=
  if s.suffixParam ≠ "" ∧ w.hasClient = true then w.sceneSuffix else ""

/-- `SSDSort.loadEmbeddingCache`: the returned error (`none` for nil), the
items with the embeddings assigned so far, and the receiver with its cache
and last suffix updated. -/
def loadEmbeddingCache (sqrt : α → α) (s : SSDSort α) (w : World α)
    (items : List (Item α)) : Option String × List (Item α) × SSDSort α :=
  let tableSuffix := tableSuffixOf s w
  let s1 := if tableSuffix ≠ s.lastTableSuffixParam then
              { s with embCache := [], lastTableSuffixParam := tableSuffix }
            else s
  match scanCache s1.embCache ⟨[], 0, [], items⟩ items.enum with
  | (some err, c) => (some err, c.items, s1)
  | (none, c) =>
    if c.absentItemIds.length > 0 then
      match w.query (s1.tableName ++ tableSuffix) c.absentItemIds with
      | .error err => (some err, c.items, s1)
      | .ok rows =>
        match scanRows sqrt s1 c.itemMap ⟨c.embedSize, s1.embCache, c.items, 0⟩ rows with
        | (some err, r) => (some err, r.items, { s1 with embCache := r.embCache })
        | (none, r) =>
          let s2 := { s1 with embCache := r.embCache }
          let lenAbsentItems : Int := (c.absentItemIds.length : Int) - (r.rowNum : Int)
          if ((lenAbsentItems : α) / (items.length : α)) > s1.embMissThreshold then
            (some "the number of items missing embedding is above threshold", r.items, s2)
          else if lenAbsentItems > 0 then
            if r.embedSize = 0 then (some "no embedding detected", r.items, s2)
            else (none, fillMissing sqrt w r.embedSize c.itemMap r.items, s2)
          else (none, r.items, s2)
    else (none, c.items, s1)

end Load

/-! ## `SSDSort.doSort` and `SSDSort.Sort` -/

section SortCall
variable {α : Type} [LinearOrderedField α]

/-- Modelled from the spec: `ItemScoreSlice` is not under `src/`; the spec
says the items are sorted by score descending
(`gosort.Sort(gosort.Reverse(ItemScoreSlice(items)))`). -/
def sortByScoreDesc (items : List (Item α)) : List (Item α) :=
  items.insertionSort (fun a b => a.Score ≥ b.Score)

/-- The test `percent < minScorePercent` with `percent := score / maxScore`
in `float64`: for `maxScore = 0` the quotient is NaN (test false) when the
score is 0 and `-Inf` (test true) when the score is negative. -/
def percentBelow (score maxScore minScorePercent : α) : Bool :=
  if maxScore = 0 then decide (score < 0) else decide (score / maxScore < minScorePercent)

/-- How many leading items the loop `for ; idx < len(items); idx++` passes
before it breaks. -/
def minScoreRun (maxScore minScorePercent : α) : List (Item α) → Nat
  | [] => 0
  | it :: rest =>
    if percentBelow it.Score maxScore minScorePercent then 0
    else minScoreRun maxScore minScorePercent rest + 1

/-- The truncation of the sorted candidates by `ssd_candidate_count` and
`ssd_min_score_percent`. -/
def truncateCandidates (size : Nat) (candidateCnt : Int) (minScorePercent : α)
    (items : List (Item α)) : List (Item α) :=
  if (candidateCnt > 0 ∨ minScorePercent > 0) ∧ items.length > size then
    let items1 :=
      if candidateCnt > 0 then
        let cnt := max (size : Int) candidateCnt
        if cnt < (items.length : Int) then items.take cnt.toNat else items
      else items
    if minScorePercent > 0 ∧ items1.length > size then
      let maxScore := (items1.map Item.Score).getD 0 0
      let idx := size + minScoreRun maxScore minScorePercent (items1.drop size)
      items1.take idx
    else items1
  else items

/-- The cache after the in-place updates of `SSDWithSlidingWindow`: an entry
whose vector was assigned to an item by the load shares its storage with
that item's embedding, so it holds what the item holds at the end. -/
def aliasWriteBack (cache : List (String × List α)) (loaded final : List (Item α)) :
    List (String × List α) :=
  cache.map fun kv =>
    match (loaded.zip final).find? (fun p => p.1.Id == kv.1 && decide (p.1.Embedding = kv.2)) with
    | some p => (kv.1, p.2.Embedding)
    | none => kv

/-- `SSDSort.doSort`: the returned list and the receiver afterwards. -/
def doSort (sqrt : α → α) (s : SSDSort α) (w : World α) (ctx : RecommendContext α)
    (items : List (Item α)) : List (Item α) × SSDSort α :=
  if items.length = 0 then (items, s)
  else
    let items1 := sortByScoreDesc items
    let gamma := getParam ctx.params.ssd_gamma s.gamma
    if gamma = 0 then (items1, s)
    else
      let candidateCnt := getParam ctx.params.ssd_candidate_count s.candidateCnt
      let minScorePercent := getParam ctx.params.ssd_min_score_percent s.minScorePercent
      let items2 := truncateCandidates ctx.Size candidateCnt minScorePercent items1
      if s.tableName.length > 0 then
        match loadEmbeddingCache sqrt s w items2 with
        | (some _, items3, s1) => (items3, s1)
        | (none, items3, s1) =>
          let r := ssdRun sqrt s1 ctx items3
          (r.1, { s1 with embCache := aliasWriteBack s1.embCache items3 r.2 })
      else (items2, s)

/-- The value of `sortData.Data`: a slice of items, or anything else. -/
inductive SortDataValue (α : Type) where
  | items (l : List (Item α))
  | other

/-- The fields of `SortData` used by `Sort`. -/
structure SortData (α : Type) where
  Data : SortDataValue α
  Context : RecommendContext α

/-- The strings found under `ssd_filter_retrieve_ids`. -/
def paramFilterRetrieveIds (names : Option (List (Option String))) : List String :=
  match names with
  | none => []
  | some values => values.filterMap id

/-- The filter list `Sort` works with: the one of the parameters unless it
is empty, else the configured one. -/
def resolveFilterRetrieveIds (s : SSDSort α) (ctx : RecommendContext α) : List String :=
  let fromParams := paramFilterRetrieveIds ctx.params.ssd_filter_retrieve_ids
  if fromParams.length = 0 then s.filterRetrieveIds else fromParams

/-- Whether the configured condition makes `Sort` skip the reranking: a
condition exists, evaluates without error, and yields false. -/
def conditionSkips (s : SSDSort α) (w : World α) : Bool :=
  s.hasCondition &&
    (match w.conditionEval with
     | .ok flag => !flag
     | .error _ => false)

/-- The method `Sort` of `SSDSort`: the returned error (`none` for nil), `sortData` and the
receiver afterwards. -/
def SSDSort_Sort (sqrt : α → α) (s : SSDSort α) (w : World α) (sortData : SortData α) :
    Option String × SortData α × SSDSort α :=
  match sortData.Data with
  | .other => (some "sort data type error", sortData, s)
  | .items candidates =>
    if candidates.length = 0 then (none, sortData, s)
    else
      let ctx := sortData.Context
      if conditionSkips s w then
        (none, { sortData with Data := .items (sortByScoreDesc candidates) }, s)
      else if s.abortRunCnt > 0 ∧ (candidates.length : Int) ≤ s.abortRunCnt then
        (none, { sortData with Data := .items (sortByScoreDesc candidates) }, s)
      else
        let filterRetrieveIds := resolveFilterRetrieveIds s ctx
        if filterRetrieveIds.length > 0 then
          let backup := candidates.filter fun item => decide (item.RetrieveId ∈ filterRetrieveIds)
          let selected := candidates.filter fun item => !decide (item.RetrieveId ∈ filterRetrieveIds)
          let r := doSort sqrt s w ctx selected
          (none, { sortData with Data := .items (r.1 ++ backup) }, r.2)
        else
          let r := doSort sqrt s w ctx candidates
          (none, { sortData with Data := .items r.1 }, r.2)

/-- The list that `Sort` leaves in `sortData.Data` (empty when the data is
not a slice of items). -/
def sortOutput (sqrt : α → α) (s : SSDSort α) (w : World α) (sortData : SortData α) :
    List (Item α) :=
  match (SSDSort_Sort sqrt s w sortData).2.1.Data with
  | .items l => l
  | .other => []

end SortCall

/-! ## `abtest/pai`: the PAI A/B adapter -/

namespace Pai

/-- `common.CrowdTargetType_Filter` of the config SDK. -/
def CrowdTargetType_Filter : String := "Filter"

/-- `common.CrowdTargetType_Random` of the config SDK. -/
def CrowdTargetType_Random : String := "Random"

/-- `common.CrowdTargetType_ALL` of the config SDK. -/
def CrowdTargetType_ALL : String := "ALL"

/-- The fields of `paiabtestmodel.ExperimentVersion` read by the adapter. -/
structure PaiExperimentVersion where
  ExpVersionId : Int
  ExpVersionName : String
  ExpVersionInfo : String
  ExpVersionType : Int
  ExperimentFlow : Int
  Buckets : String
  DebugUsers : String
  ExpVersionConfig : String
deriving DecidableEq

/-- The fields of `paiabtestmodel.Experiment` read by the adapter;
`experimentVersions` is what `ExperimentVersions()` returns, a nil pointer
being `none`. -/
structure PaiExperiment where
  ExpId : Int
  ExpName : String
  ExpInfo : String
  DebugUsers : String
  Owner : String
  Filter : String
  Buckets : String
  Status : Int
  experimentVersions : List (Option PaiExperimentVersion)
deriving DecidableEq

/-- The fields of `paiabtestmodel.Layer` read by the adapter. -/
structure PaiLayer where
  ExpLayerId : Int
  LayerName : String
  LayerInfo : String
  experiments : List (Option PaiExperiment)
deriving DecidableEq

/-- The fields of `paiabtestmodel.Domain` read by the adapter; `addr` stands
for the address of the object, which the adapter compares. -/
structure PaiDomain where
  addr : Nat
  ExpDomainId : Int
  ExpDomainName : String
  ExpDomainInfo : String
  DebugUsers : String
  Buckets : String
  BucketType : Int
  Filter : String
  layers : List (Option PaiLayer)
deriving DecidableEq

/-- The fields of `paiabtestmodel.Project` read by the adapter. -/
structure PaiProject where
  ExpProjectId : Int
  ProjectName : String
  ProjectInfo : String
  defaultDomain : Option PaiDomain
  domains : List (Option PaiDomain)
deriving DecidableEq

/-- The public fields of `pairecmodel.Experiment` (`Typ` is the field
`Type`). -/
structure Experiment where
  ExperimentId : Int
  ExpGroupId : Int
  LayerId : Int
  ExpRoomId : Int
  SceneId : Int
  ExperimentName : String
  ExperimentInfo : String
  Typ : Nat
  ExperimentFlow : Nat
  ExperimentBuckets : String
  DebugUsers : String
  ExperimentConfig : String
  Status : Int
deriving DecidableEq

/-- The public fields of `pairecmodel.ExperimentGroup`. -/
structure ExperimentGroup where
  ExpGroupId : Int
  LayerId : Int
  ExpRoomId : Int
  SceneId : Int
  ExpGroupName : String
  ExpGroupInfo : String
  DebugUsers : String
  Owner : String
  Filter : String
  ReserveBuckets : String
  HoldingBuckets : String
  Status : Int
  CrowdTargetType : String
  Experiments : List Experiment
deriving DecidableEq

/-- The public fields of `pairecmodel.Layer`. -/
structure Layer where
  LayerId : Int
  ExpRoomId : Int
  SceneId : Int
  LayerName : String
  LayerInfo : String
  ExperimentGroups : List ExperimentGroup
deriving DecidableEq

/-- The public fields of `pairecmodel.ExperimentRoom` (`Typ` is the field
`Type`). -/
structure ExperimentRoom where
  ExpRoomId : Int
  SceneId : Int
  ExpRoomName : String
  ExpRoomInfo : String
  DebugUsers : String
  BucketCount : Int
  ExpRoomBuckets : String
  BucketType : Nat
  Filter : String
  Environment : Int
  Typ : Int
  Status : Int
  Layers : List Layer
deriving DecidableEq

/-- The public fields of `pairecmodel.Scene`. -/
structure Scene where
  SceneId : Int
  SceneName : String
  SceneInfo : String
  ExperimentRooms : List ExperimentRoom
deriving DecidableEq

/-- One element of the PAI config array, `PaiConfigItem` (`Typ` is the
field `Type`). -/
structure PaiConfigItem where
  Key : String
  Value : String
  Typ : String
deriving DecidableEq

/-- The library calls the adapter makes, as parameters: `encoding/json` over
a type `V` of decoded values (what `interface{}` holds), and the `Init`
methods of the config SDK, which return an error or nil and set private
fields only. -/
structure Library (V : Type) where
  /-- `json.Unmarshal` into `[]PaiConfigItem`; `none` on error -/
  unmarshalItems : String → Option (List PaiConfigItem)
  /-- `json.Unmarshal` into `interface{}`; `none` on error -/
  unmarshalValue : String → Option V
  /-- a Go string held in an `interface{}` -/
  ofString : String → V
  /-- `json.Marshal` of a `map[string]interface{}`; `none` on error -/
  marshalMap : List (String × V) → Option String
  /-- `Experiment.Init`: the error, `none` for nil -/
  experimentInit : Experiment → Option String
  /-- `ExperimentGroup.Init`: the error, `none` for nil -/
  groupInit : ExperimentGroup → Option String
  /-- `ExperimentRoom.Init`: the error, `none` for nil -/
  roomInit : ExperimentRoom → Option String

/-- Conversion `uint32(x)` of a Go `int`. -/
def toUint32 (x : Int) : Nat := (x % 4294967296).toNat

/-- `determineCrowdTargetType`. -/
def determineCrowdTargetType (experiment : PaiExperiment) : String :=
  if experiment.DebugUsers ≠ "" then CrowdTargetType_Filter
  else if experiment.Filter ≠ "" then CrowdTargetType_Filter
  else if experiment.Buckets ≠ "" then CrowdTargetType_Random
  else CrowdTargetType_ALL

/-- Assignment `m[key] = v` on a Go map kept as an association list. -/
def mapSet {β : Type} (m : List (String × β)) (key : String) (v : β) : List (String × β) :=
  if m.any (fun kv => kv.1 == key) then
    m.map fun kv => if kv.1 == key then (key, v) else kv
  else m ++ [(key, v)]

/-- The value stored for one config item: the decoded JSON, or the raw
string when decoding fails. -/
def configValue {V : Type} (L : Library V) (item : PaiConfigItem) : V :=
  match L.unmarshalValue item.Value with
  | some value => value
  | none => L.ofString item.Value

/-- The map `pairecConfig` built by the loop over the items. -/
def pairecConfigOf {V : Type} (L : Library V) (paiItems : List PaiConfigItem) :
    List (String × V) :=
  paiItems.foldl (fun m item => mapSet m item.Key (configValue L item)) []

/-- `convertPaiConfigToPairecConfig`. -/
def convertPaiConfigToPairecConfig {V : Type} (L : Library V) (paiConfig : String) : String :=
  if paiConfig = "" then "\x7b\x7d"
  else
    match L.unmarshalItems paiConfig with
    | none => "\x7b\x7d"
    | some paiItems =>
      match L.marshalMap (pairecConfigOf L paiItems) with
      | none => "\x7b\x7d"
      | some result => result

/-- The struct `pairecExperiment` that
`convertExperimentVersionToPairecExperiment` builds before it calls `Init`. -/
def experimentOfVersion {V : Type} (L : Library V) (expVersion : PaiExperimentVersion)
    (groupId layerId roomId sceneId : Int) : Experiment :=
  { ExperimentId := expVersion.ExpVersionId
    ExpGroupId := groupId
    LayerId := layerId
    ExpRoomId := roomId
    SceneId := sceneId
    ExperimentName := expVersion.ExpVersionName
    ExperimentInfo := expVersion.ExpVersionInfo
    Typ := toUint32 expVersion.ExpVersionType
    ExperimentFlow := toUint32 expVersion.ExperimentFlow
    ExperimentBuckets := expVersion.Buckets
    DebugUsers := expVersion.DebugUsers
    ExperimentConfig := convertPaiConfigToPairecConfig L expVersion.ExpVersionConfig
    Status := 1 }

/-- `convertExperimentVersionToPairecExperiment`; `none` is a nil result. -/
def convertExperimentVersionToPairecExperiment {V : Type} (L : Library V)
    (expVersion : Option PaiExperimentVersion) (groupId layerId roomId sceneId : Int) :
    Option Experiment :=
  match expVersion with
  | none => none
  | some expVersion =>
    let pairecExperiment := experimentOfVersion L expVersion groupId layerId roomId sceneId
    match L.experimentInit pairecExperiment with
    | some _ => none
    | none => some pairecExperiment

/-- The struct `expGroup` of `convertExperimentToGroup` when it calls `Init`:
the fields copied from the experiment and the converted versions. -/
def groupOfExperiment {V : Type} (L : Library V) (experiment : PaiExperiment)
    (layerId roomId sceneId : Int) : ExperimentGroup :=
  let crowdTargetType := determineCrowdTargetType experiment
  let expGroupId : Int := experiment.ExpId
  { ExpGroupId := expGroupId
    LayerId := layerId
    ExpRoomId := roomId
    SceneId := sceneId
    ExpGroupName := experiment.ExpName
    ExpGroupInfo := experiment.ExpInfo
    DebugUsers := experiment.DebugUsers
    Owner := experiment.Owner
    Filter := experiment.Filter
    ReserveBuckets := experiment.Buckets
    HoldingBuckets := experiment.Buckets
    Status := experiment.Status
    CrowdTargetType := crowdTargetType
    Experiments := experiment.experimentVersions.filterMap fun expVersion =>
      convertExperimentVersionToPairecExperiment L expVersion expGroupId layerId roomId
        sceneId }

/-- `convertExperimentToGroup`; `none` is a nil result. -/
def convertExperimentToGroup {V : Type} (L : Library V) (experiment : Option PaiExperiment)
    (layerId roomId sceneId : Int) : Option ExperimentGroup :=
  match experiment with
  | none => none
  | some experiment =>
    let expGroup := groupOfExperiment L experiment layerId roomId sceneId
    match L.groupInit expGroup with
    | some _ => none
    | none => some expGroup

/-- A loop that converts the entries of a list one after the other and
appends every result that is not nil: `conv` gives `none` when the
conversion panics, `some none` when its result is nil (nothing is added) and
`some (some b)` when `b` is added. The loop panics, `none`, when a
conversion does. -/
def appendConverted {A B : Type} (conv : A → Option (Option B)) : List A → Option (List B)
  | [] => some []
  | a :: rest =>
    match conv a with
    | none => none
    | some none => appendConverted conv rest
    | some (some b) => (appendConverted conv rest).map fun bs => b :: bs

/-- Body of the loop `for _, experiment := range layer.Experiments()` of
`convertLayerToPairecLayer`: a group that is not nil is added; on a nil
group the else branch logs `experiment.ExpName`, which for a nil experiment
reads through a nil pointer: the call panics, `none`, and nothing in the
adapter recovers. -/
def convertLayerExperiment {V : Type} (L : Library V) (layerId roomId sceneId : Int)
    (experiment : Option PaiExperiment) : Option (Option ExperimentGroup) :=
  match convertExperimentToGroup L experiment layerId roomId sceneId with
  | some expGroup => some (some expGroup)
  | none =>
    match experiment with
    | none => none
    | some _ => some none

/-- `convertLayerToPairecLayer`: `none` when the call panics, else its
result, `some none` being nil. -/
def convertLayerToPairecLayer {V : Type} (L : Library V) (layer : Option PaiLayer)
    (roomId sceneId : Int) : Option (Option Layer) :=
  match layer with
  | none => some none
  | some layer =>
    let layerId : Int := layer.ExpLayerId
    (appendConverted (convertLayerExperiment L layerId roomId sceneId) layer.experiments).map
      fun groups =>
        some
          { LayerId := layerId
            ExpRoomId := roomId
            SceneId := sceneId
            LayerName := layer.LayerName
            LayerInfo := layer.LayerInfo
            ExperimentGroups := groups }

/-- The struct `room` of `convertDomainToRoom` when it calls `Init`: the
fields copied from the domain and the converted layers; `none` when the
conversion of a layer panics, so that `Init` is not reached. -/
def roomOfDomain {V : Type} (L : Library V) (domain : PaiDomain) (sceneId : Int) :
    Option ExperimentRoom :=
  let roomId : Int := domain.ExpDomainId
  (appendConverted (fun layer => convertLayerToPairecLayer L layer roomId sceneId)
    domain.layers).map fun layers =>
      { ExpRoomId := roomId
        SceneId := sceneId
        ExpRoomName := domain.ExpDomainName
        ExpRoomInfo := domain.ExpDomainInfo
        DebugUsers := domain.DebugUsers
        BucketCount := 100
        ExpRoomBuckets := domain.Buckets
        BucketType := toUint32 domain.BucketType
        Filter := domain.Filter
        Environment := 1
        Typ := 1
        Status := 1
        Layers := layers }

/-- `convertDomainToRoom`: `none` when the call panics, else its result,
`some none` being nil. -/
def convertDomainToRoom {V : Type} (L : Library V) (domain : Option PaiDomain)
    (sceneId : Int) : Option (Option ExperimentRoom) :=
  match domain with
  | none => some none
  | some domain =>
    match roomOfDomain L domain sceneId with
    | none => none
    | some room =>
      match L.roomInit room with
      | some _ => some none
      | none => some (some room)

/-- `strings.Replace(s, old, new, 1)` for a non-empty `old`, on the
characters: the first occurrence of `old` is replaced. -/
def replaceFirstChars (old new : List Char) : List Char → List Char
  | [] => []
  | c :: cs =>
    if old.isPrefixOf (c :: cs) then new ++ (c :: cs).drop old.length
    else c :: replaceFirstChars old new cs

/-- `strings.Replace(s, "pairec_", "", 1)`. -/
def stripPairec (s : String) : String :=
  String.mk (replaceFirstChars "pairec_".toList [] s.toList)

/-- `strings.HasPrefix(s, "pairec_")`. -/
def hasPairecPrefix (s : String) : Bool := "pairec_".toList.isPrefixOf s.toList

/-- Body of the loop `for _, domain := range project.GetDomains()`: a domain
other than the default domain (the pointers are compared) is converted. -/
def convertOtherDomain {V : Type} (L : Library V) (defaultDomain : Option PaiDomain)
    (sceneId : Int) (domain : Option PaiDomain) : Option (Option ExperimentRoom) :=
  if domain.map PaiDomain.addr ≠ defaultDomain.map PaiDomain.addr then
    convertDomainToRoom L domain sceneId
  else some none

/-- The scene built for one admitted project in the loop of
`changePaiABTestProjectToDefaultTestSceneMap`: the room of the default
domain, then the rooms of the other domains; `none` when a conversion
panics. -/
def sceneOfProject {V : Type} (L : Library V) (project : PaiProject) : Option Scene :=
  let sceneId : Int := project.ExpProjectId
  let rooms0 : Option (List ExperimentRoom) :=
    match project.defaultDomain with
    | none => some []
    | some d => (convertDomainToRoom L (some d) sceneId).map Option.toList
  rooms0.bind fun rooms0 =>
    (appendConverted (convertOtherDomain L project.defaultDomain sceneId) project.domains).map
      fun rooms =>
        { SceneId := sceneId
          SceneName := stripPairec project.ProjectName
          SceneInfo := project.ProjectInfo
          ExperimentRooms := rooms0 ++ rooms }

/-- The loop `for projectName, project := range projectMap` filling
`newSceneMap`; `none` when the conversion of a project panics. -/
def buildSceneMap {V : Type} (L : Library V) :
    List (String × PaiProject) → List (String × Scene) → Option (List (String × Scene))
  | [], newSceneMap => some newSceneMap
  | (projectName, project) :: rest, newSceneMap =>
    if !hasPairecPrefix projectName then buildSceneMap L rest newSceneMap
    else
      match sceneOfProject L project with
      | none => none
      | some scene =>
        buildSceneMap L rest (mapSet newSceneMap (stripPairec projectName) scene)

/-- The memory the refresh works on: `heap` holds the scene maps allocated
so far, a map being named by its position; `SceneMap` is the field of the
experiment client, `none` for nil; `projectMapValid` tells whether
reflection finds the field `projectMap` of the PAI client, and `projectMap`
is that map, `none` for nil. -/
structure PaiAbTestClient where
  heap : List (List (String × Scene))
  SceneMap : Option Nat
  projectMapValid : Bool
  projectMap : Option (List (String × PaiProject))
deriving DecidableEq

/-- The map the field `SceneMap` points to. -/
def PaiAbTestClient.sceneMapValue (c : PaiAbTestClient) : Option (List (String × Scene)) :=
  c.SceneMap.bind fun a => c.heap.get? a

/-- `PaiAbTestClient.changePaiABTestProjectToDefaultTestSceneMap`: the client
after the call, or `none` when the call panics before `SceneMap` is
assigned (neither this function nor its callers recover). -/
def changePaiABTestProjectToDefaultTestSceneMap {V : Type} (L : Library V)
    (c : PaiAbTestClient) : Option PaiAbTestClient :=
  if !c.projectMapValid then some c
  else
    let c1 : PaiAbTestClient :=
      match c.SceneMap with
      | none => { c with heap := c.heap ++ [[]], SceneMap := some c.heap.length }
      | some _ => c
    match c1.projectMap with
    | some projectMap =>
      match buildSceneMap L projectMap [] with
      | none => none
      | some newSceneMap =>
        some { c1 with heap := c1.heap ++ [newSceneMap]
                       SceneMap := some c1.heap.length }
    | none => some c1

end Pai

/-! ## Relations and sample data used in the statements -/

section Samples
variable {α : Type} [LinearOrderedField α]

instance scoreGeTotal : IsTotal (Item α) (fun a b => a.Score ≥ b.Score) :=
  ⟨fun a b => le_total b.Score a.Score⟩

instance scoreGeTrans : IsTrans (Item α) (fun a b => a.Score ≥ b.Score) :=
  ⟨fun _ _ _ hab hbc => le_trans hbc hab⟩

/-- A parameter bundle without any SSD key. -/
def noParams : ExperimentParams α := ⟨none, none, none, none, none, none⟩

/-- A reranker as `NewSSDSort` builds it from a config naming only a table:
gamma 0.25, window 5, miss threshold 0.5, embeddings normalised and
extended by 1. -/
def sampleSorter : SSDSort α :=
  { tableName := "item_emb", suffixParam := "", gamma := 1 / 4, useSSDStar := false,
    embCache := [], lastTableSuffixParam := "", normalizeEmb := true, windowSize := 5,
    abortRunCnt := 0, candidateCnt := 0, minScorePercent := 0, embMissThreshold := 1 / 2,
    filterRetrieveIds := [], ensurePosSimilarity := true, hasCondition := false }

/-- A world whose table holds the given rows (the query returns those whose
key is asked for), with no experiment client and all random draws 1. -/
def sampleWorld (rows : List (String × List α)) : World α :=
  { hasClient := false, sceneSuffix := "",
    query := fun _ keys => .ok (rows.filter fun r => decide (r.1 ∈ keys)),
    randNorm := fun _ _ => 1,
    conditionEval := .ok true }

/-- An item with an id, a retrieve id and a score, no embedding yet. -/
def mkItem (id retrieveId : String) (score : α) : Item α := ⟨id, retrieveId, score, [], []⟩

end Samples

section Samples2

/-- Three candidates from two retrieval sources, not in score order. -/
def threeItems : List (Item ℚ) := [mkItem "a" "r1" 1, mkItem "b" "r2" 3, mkItem "c" "r1" 2]

/-- A context of the given size with `ssd_gamma` set to 0. -/
def gammaZeroCtx (size : Nat) : RecommendContext ℚ :=
  ⟨size, { (noParams : ExperimentParams ℚ) with ssd_gamma := some 0 }⟩

/-- A context of size 1 with `ssd_gamma = 0` and `ssd_candidate_count = 2`. -/
def gammaZeroCountCtx : RecommendContext ℚ :=
  ⟨1, { (noParams : ExperimentParams ℚ) with ssd_gamma := some 0, ssd_candidate_count := some 2 }⟩

end Samples2

/-- What holds of the loop variables of `SSDWithSlidingWindow` at the head of
each iteration, for `N` items whose working embeddings all have length
`dim` and a window of `w` picks. -/
structure SSDInv {α : Type} (N dim w : Nat) (st : SSDLoop α) : Prop where
  emb_len : st.emb.length = N
  emb_dim : ∀ e ∈ st.emb, e.length = dim
  idx_lt : st.idx < N
  indices_lt : ∀ i ∈ st.indices, i < N
  indices_len : st.indices.length = st.t
  t_pos : 1 ≤ st.t
  B_cap : st.B.cap = w
  P_cap : st.P.cap = w
  B_len : st.B.data.length = min (st.t - 1) w
  P_len : st.P.data.length = min (st.t - 1) w
  B_lt : ∀ i ∈ st.B.data, i < N

section Candidates
variable {α : Type} [LinearOrderedField α]

/-- The candidates that `Sort` hands to `doSort`: those whose retrieve id is
not in the resolved filter list. -/
def selectedOf (s : SSDSort α) (ctx : RecommendContext α) (candidates : List (Item α)) :
    List (Item α) :=
  candidates.filter fun item => !decide (item.RetrieveId ∈ resolveFilterRetrieveIds s ctx)

/-- The candidates that `Sort` sets aside: those whose retrieve id is in the
resolved filter list. -/
def backupOf (s : SSDSort α) (ctx : RecommendContext α) (candidates : List (Item α)) :
    List (Item α) :=
  candidates.filter fun item => decide (item.RetrieveId ∈ resolveFilterRetrieveIds s ctx)

/-- The list `doSort` passes to `loadEmbeddingCache`: the items sorted by
score and truncated by the candidate knobs. -/
def loadInput (s : SSDSort α) (ctx : RecommendContext α) (items : List (Item α)) :
    List (Item α) :=
  truncateCandidates ctx.Size (getParam ctx.params.ssd_candidate_count s.candidateCnt)
    (getParam ctx.params.ssd_min_score_percent s.minScorePercent) (sortByScoreDesc items)

end Candidates

section Samples3

/-- Table rows holding a unit vector for each of the ids a, b, c. -/
def unitRows : List (String × List ℚ) := [("a", [1, 0]), ("b", [0, 1]), ("c", [0, 1])]

/-- Three candidates with one and the same score. -/
def tiedItems : List (Item ℚ) := [mkItem "a" "r1" 1, mkItem "b" "r2" 1, mkItem "c" "r1" 1]

/-- A context of size 2 asking for min-max normalisation of the scores. -/
def minMaxCtx : RecommendContext ℚ :=
  ⟨2, { (noParams : ExperimentParams ℚ) with ssd_norm_quality_score := some 2 }⟩

/-- A context of size 2 whose parameters filter the retrieval source r2. -/
def filterCtx : RecommendContext ℚ :=
  ⟨2, { (noParams : ExperimentParams ℚ) with ssd_filter_retrieve_ids := some [some "r2"] }⟩

/-- A reranker with a condition configured. -/
def conditionSorter : SSDSort ℚ := { (sampleSorter : SSDSort ℚ) with hasCondition := true }

/-- A world in which the condition evaluates to false. -/
def conditionFalseWorld : World ℚ :=
  { (sampleWorld unitRows) with conditionEval := .ok false }

end Samples3

section ScenarioS5
variable {α : Type} [LinearOrderedField α]

/-- The five items of scenario S5 of the spec: embeddings `[1,0]`, `[0,1]`,
`[1,0]`, `[0,1]`, `[c,c]` with `c` standing for `1/√2`, scores 1.0 to 0.6. -/
def s5Items (c : α) : List (Item α) :=
  [⟨"0", "r", 1, [1, 0], []⟩, ⟨"1", "r", 9 / 10, [0, 1], []⟩, ⟨"2", "r", 8 / 10, [1, 0], []⟩,
   ⟨"3", "r", 7 / 10, [0, 1], []⟩, ⟨"4", "r", 6 / 10, [c, c], []⟩]

/-- The context of scenario S5: `ctx.Size = 3`, `ssd_gamma = 0.5`,
`ssd_window_size = 3`, no score normalisation. -/
def s5Ctx : RecommendContext α :=
  ⟨3, { (noParams : ExperimentParams α) with ssd_gamma := some (1 / 2), ssd_window_size := some 3 }⟩

/-- The reranker of scenario S5: `useSSDStar = false`, no appended 1. -/
def s5Sorter : SSDSort α :=
  { (sampleSorter : SSDSort α) with useSSDStar := false, ensurePosSimilarity := false }

/-- The `float64` nearest to `1/√2`, as a rational. -/
def invSqrt2Float : ℚ := 6369051672525773 / 9007199254740992

end ScenarioS5

/-! ## A small `encoding/json` for the examples

A concrete `Pai.Library`: JSON text restricted to integers as numbers and to
the escapes of one character; field names are matched exactly; objects are
kept sorted by key, a later duplicate replacing an earlier one, as Go does
when it decodes an object into a map and marshals the map. -/

namespace Pai

mutual
/-- A decoded JSON value. -/
inductive JVal where
  | null
  | bool (b : Bool)
  | num (n : Int)
  | str (s : String)
  | arr (l : JList)
  | obj (o : JFields)
/-- The elements of a JSON array. -/
inductive JList where
  | nil
  | cons (v : JVal) (rest : JList)
/-- The members of a JSON object. -/
inductive JFields where
  | nil
  | cons (k : String) (v : JVal) (rest : JFields)
end

/-- The double quote. -/
def chQuote : Char := Char.ofNat 34

/-- The backslash. -/
def chBackslash : Char := Char.ofNat 92

/-- The opening brace. -/
def chLBrace : Char := Char.ofNat 123

/-- The closing brace. -/
def chRBrace : Char := Char.ofNat 125

/-- JSON white space. -/
def isWs (c : Char) : Bool := c == ' ' || c == Char.ofNat 10 || c == Char.ofNat 9 || c == Char.ofNat 13

/-- Drop leading white space. -/
def skipWs : List Char → List Char
  | [] => []
  | c :: cs => if isWs c then skipWs cs else c :: cs

/-- The character an escape stands for. -/
def unescape (c : Char) : Option Char :=
  if c == chQuote then some chQuote
  else if c == chBackslash then some chBackslash
  else if c == '/' then some '/'
  else if c == 'n' then some (Char.ofNat 10)
  else if c == 't' then some (Char.ofNat 9)
  else if c == 'r' then some (Char.ofNat 13)
  else none

/-- Read a string after its opening quote: the string and what follows the
closing quote. -/
def parseStringBody : List Char → List Char → Option (String × List Char)
  | [], _ => none
  | c :: cs, acc =>
    if c == chQuote then some (String.mk acc.reverse, cs)
    else if c == chBackslash then
      match cs with
      | [] => none
      | e :: cs2 =>
        match unescape e with
        | some d => parseStringBody cs2 (d :: acc)
        | none => none
    else if c.toNat < 32 then none
    else parseStringBody cs (c :: acc)

/-- Read the digits at the head of the input. -/
def takeDigits : List Char → List Char × List Char
  | [] => ([], [])
  | c :: cs =>
    if c.isDigit then ((takeDigits cs).1.cons c, (takeDigits cs).2) else ([], c :: cs)

/-- The natural number written by a list of digits. -/
def digitsValue (ds : List Char) : Nat := ds.foldl (fun n d => 10 * n + (d.toNat - 48)) 0

/-- Read an integer; a fraction or an exponent is not accepted. -/
def parseNumber (cs : List Char) : Option (JVal × List Char) :=
  let neg := cs.head? == some '-'
  let body := if neg then cs.drop 1 else cs
  let ds := (takeDigits body).1
  let rest := (takeDigits body).2
  if ds.isEmpty then none
  else if ds.head? == some '0' && ds.length > 1 then none
  else if rest.head? == some '.' || rest.head? == some 'e' || rest.head? == some 'E' then none
  else some (.num (if neg then -(digitsValue ds : Int) else (digitsValue ds : Int)), rest)

/-- Add a member to members sorted by key, unless the key is there. -/
def insertMember (k : String) (v : JVal) : JFields → JFields
  | .nil => .cons k v .nil
  | .cons k1 v1 rest =>
    if k == k1 then .cons k1 v1 rest
    else if k < k1 then .cons k v (.cons k1 v1 rest)
    else .cons k1 v1 (insertMember k v rest)

mutual
/-- Read one value, with fuel for the nesting and the length. -/
def parseValue : Nat → List Char → Option (JVal × List Char)
  | 0, _ => none
  | fuel + 1, input =>
    let cs := skipWs input
    if "null".toList.isPrefixOf cs then some (.null, cs.drop 4)
    else if "true".toList.isPrefixOf cs then some (.bool true, cs.drop 4)
    else if "false".toList.isPrefixOf cs then some (.bool false, cs.drop 5)
    else
      match cs with
      | [] => none
      | c :: rest =>
        if c == chQuote then
          match parseStringBody rest [] with
          | some sr => some (.str sr.1, sr.2)
          | none => none
        else if c == '[' then
          match skipWs rest with
          | [] => none
          | d :: rest2 =>
            if d == ']' then some (.arr .nil, rest2)
            else
              match parseElems fuel (d :: rest2) with
              | some lr => some (.arr lr.1, lr.2)
              | none => none
        else if c == chLBrace then
          match skipWs rest with
          | [] => none
          | d :: rest2 =>
            if d == chRBrace then some (.obj .nil, rest2)
            else
              match parseMembers fuel (d :: rest2) with
              | some orr => some (.obj orr.1, orr.2)
              | none => none
        else parseNumber (c :: rest)
/-- Read the elements of an array up to its closing bracket. -/
def parseElems : Nat → List Char → Option (JList × List Char)
  | 0, _ => none
  | fuel + 1, input =>
    match parseValue fuel input with
    | none => none
    | some vr =>
      match skipWs vr.2 with
      | [] => none
      | d :: rest =>
        if d == ',' then
          match parseElems fuel rest with
          | some lr => some (.cons vr.1 lr.1, lr.2)
          | none => none
        else if d == ']' then some (.cons vr.1 .nil, rest)
        else none
/-- Read the members of an object up to its closing brace. -/
def parseMembers : Nat → List Char → Option (JFields × List Char)
  | 0, _ => none
  | fuel + 1, input =>
    match skipWs input with
    | [] => none
    | q :: r =>
      if q == chQuote then
        match parseStringBody r [] with
        | none => none
        | some kr =>
          match skipWs kr.2 with
          | [] => none
          | col :: r2 =>
            if col == ':' then
              match parseValue fuel r2 with
              | none => none
              | some vr =>
                match skipWs vr.2 with
                | [] => none
                | d :: rest =>
                  if d == ',' then
                    match parseMembers fuel rest with
                    | some orr => some (insertMember kr.1 vr.1 orr.1, orr.2)
                    | none => none
                  else if d == chRBrace then some (.cons kr.1 vr.1 .nil, rest)
                  else none
            else none
      else none
end

/-- Decode a whole text as one JSON value. -/
def parseJson (s : String) : Option JVal :=
  match parseValue (s.length + 1) s.toList with
  | some vr => if (skipWs vr.2).isEmpty then some vr.1 else none
  | none => none

/-- The characters of a string between quotes, with its escapes. -/
def renderString (s : String) : List Char :=
  [chQuote] ++ s.toList.flatMap (fun c =>
    if c == chQuote then [chBackslash, chQuote]
    else if c == chBackslash then [chBackslash, chBackslash]
    else if c == Char.ofNat 10 then [chBackslash, 'n']
    else if c == Char.ofNat 13 then [chBackslash, 'r']
    else if c == Char.ofNat 9 then [chBackslash, 't']
    else [c]) ++ [chQuote]

mutual
/-- The compact text of a value. -/
def renderValue : JVal → List Char
  | .null => "null".toList
  | .bool true => "true".toList
  | .bool false => "false".toList
  | .num n => (toString n).toList
  | .str s => renderString s
  | .arr l => ['['] ++ renderElems l ++ [']']
  | .obj o => [chLBrace] ++ renderMembers o ++ [chRBrace]
/-- The elements of an array separated by commas. -/
def renderElems : JList → List Char
  | .nil => []
  | .cons v .nil => renderValue v
  | .cons v (.cons v2 rest) => renderValue v ++ [','] ++ renderElems (.cons v2 rest)
/-- The members of an object separated by commas. -/
def renderMembers : JFields → List Char
  | .nil => []
  | .cons k v .nil => renderString k ++ [':'] ++ renderValue v
  | .cons k v (.cons k2 v2 rest) =>
    renderString k ++ [':'] ++ renderValue v ++ [','] ++ renderMembers (.cons k2 v2 rest)
end

/-- The members of a Go map, sorted by key. -/
def membersOfMap (m : List (String × JVal)) : JFields :=
  m.foldr (fun kv acc => insertMember kv.1 kv.2 acc) .nil

/-- The value of a string field of a config item: absent and null leave the
empty string, a string sets it, anything else is a decoding error. -/
def stringField (o : JFields) (name : String) : Option String :=
  match o with
  | .nil => some ""
  | .cons k v rest =>
    if k == name then
      match v with
      | .str s => some s
      | .null => some ""
      | _ => none
    else stringField rest name

/-- Decode one element of the config array. -/
def decodeItem (v : JVal) : Option PaiConfigItem :=
  match v with
  | .null => some ⟨"", "", ""⟩
  | .obj o =>
    match stringField o "key", stringField o "value", stringField o "type" with
    | some k, some x, some t => some ⟨k, x, t⟩
    | _, _, _ => none
  | _ => none

/-- Decode the elements of the config array. -/
def decodeItems : JList → Option (List PaiConfigItem)
  | .nil => some []
  | .cons v rest =>
    match decodeItem v, decodeItems rest with
    | some item, some items => some (item :: items)
    | _, _ => none

/-- The small library: `encoding/json` as above, `Init` methods that never
fail. -/
def miniJson : Library JVal :=
  { unmarshalItems := fun s =>
      match parseJson s with
      | some .null => some []
      | some (.arr l) => decodeItems l
      | _ => none
    unmarshalValue := parseJson
    ofString := JVal.str
    marshalMap := fun m => some (String.mk (renderValue (.obj (membersOfMap m))))
    experimentInit := fun _ => none
    groupInit := fun _ => none
    roomInit := fun _ => none }

end Pai

namespace Pai

/-- The config of scenario S2 of the spec. -/
def s2Config : String :=
  "[\x7b\"key\":\"k\",\"value\":\"[1,2]\",\"type\":\"string\"\x7d]"

/-- A config of two items, the second with a value that is not JSON. -/
def twoItemConfig : String :=
  "[\x7b\"key\":\"k\",\"value\":\"[1,2]\",\"type\":\"string\"\x7d," ++
    "\x7b\"key\":\"name\",\"value\":\"plain text\",\"type\":\"string\"\x7d]"

/-- The items the two-item config decodes to. -/
def twoItems : List PaiConfigItem := [⟨"k", "[1,2]", "string"⟩, ⟨"name", "plain text", "string"⟩]

end Pai

namespace Pai

/-- A project with an id and a name, no domain. -/
def mkProject (id : Int) (name : String) : PaiProject := ⟨id, name, "", none, []⟩

/-- A client whose current scene map holds one scene `old` and whose PAI
client knows the projects `pairec_home` and `other`. -/
def sampleClient : PaiAbTestClient :=
  { heap := [[("old", ⟨7, "old", "", []⟩)]]
    SceneMap := some 0
    projectMapValid := true
    projectMap := some [("pairec_home", mkProject 1 "pairec_home"), ("other", mkProject 2 "other")] }

end Pai

namespace Pai

/-- The entries of the project map that the refresh admits: those whose key
begins with `pairec_`. -/
def admitted (M : List (String × PaiProject)) : List (String × PaiProject) :=
  M.filter fun pe => hasPairecPrefix pe.1

end Pai

namespace Pai

/-- An experiment version with an id, a flow and a config. -/
def mkVersion (id flow : Int) (config : String) : PaiExperimentVersion :=
  ⟨id, "v", "", 2, flow, "", "", config⟩

/-- A domain `home` with one layer holding one experiment of two versions. -/
def sampleDomain : PaiDomain :=
  { addr := 1, ExpDomainId := 10, ExpDomainName := "home", ExpDomainInfo := "the home domain",
    DebugUsers := "u1,u2", Buckets := "0-99", BucketType := 1, Filter := "age>18",
    layers := [some
      { ExpLayerId := 20, LayerName := "layer", LayerInfo := "",
        experiments := [some
          { ExpId := 30, ExpName := "exp", ExpInfo := "", DebugUsers := "", Owner := "",
            Filter := "", Buckets := "0-49", Status := 1,
            experimentVersions := [some (mkVersion 40 50 s2Config), some (mkVersion 41 50 "")] }] }] }

/-- The small library with a room `Init` that always fails. -/
def failingRoomLibrary : Library JVal := { miniJson with roomInit := fun _ => some "init failed" }

/-- A client whose current scene map holds one scene `old` and whose PAI
client knows the project `pairec_home` with the sample domain as default
domain. -/
def domainClient : PaiAbTestClient :=
  { heap := [[("old", ⟨7, "old", "", []⟩)]]
    SceneMap := some 0
    projectMapValid := true
    projectMap := some [("pairec_home", ⟨1, "pairec_home", "", some sampleDomain, []⟩)] }

end Pai

namespace Pai

/-- Whether no layer of the domain holds a nil experiment. -/
def PaiDomain.experimentsPresent (d : PaiDomain) : Bool :=
  d.layers.all fun layer =>
    match layer with
    | none => true
    | some l => l.experiments.all fun experiment => experiment.isSome

/-- Whether no layer of a domain of the project, the default domain or one
of `GetDomains()`, holds a nil experiment. -/
def PaiProject.experimentsPresent (p : PaiProject) : Bool :=
  (match p.defaultDomain with
    | none => true
    | some d => d.experimentsPresent) &&
  p.domains.all fun domain =>
    match domain with
    | none => true
    | some d => d.experimentsPresent

/-- A domain whose only layer holds a nil experiment after a good one. -/
def nilExperimentDomain : PaiDomain :=
  { addr := 2, ExpDomainId := 11, ExpDomainName := "broken", ExpDomainInfo := "",
    DebugUsers := "", Buckets := "", BucketType := 1, Filter := "",
    layers := [some
      { ExpLayerId := 21, LayerName := "layer", LayerInfo := "",
        experiments := [some
          { ExpId := 31, ExpName := "exp", ExpInfo := "", DebugUsers := "", Owner := "",
            Filter := "", Buckets := "", Status := 1, experimentVersions := [] },
          none] }] }

/-- A client whose current scene map holds one scene `old` and whose PAI
client knows the project `pairec_home` with the domain above as default
domain. -/
def nilExperimentClient : PaiAbTestClient :=
  { heap := [[("old", ⟨7, "old", "", []⟩)]]
    SceneMap := some 0
    projectMapValid := true
    projectMap := some [("pairec_home", ⟨1, "pairec_home", "", some nilExperimentDomain, []⟩)] }

/-- A client whose PAI client stores, under the key `pairec_a`, a project
whose `ProjectName` is `x_pairec_b`. -/
def renamedClient : PaiAbTestClient :=
  { heap := [[]]
    SceneMap := some 0
    projectMapValid := true
    projectMap := some [("pairec_a", mkProject 1 "x_pairec_b")] }

end Pai

namespace Pai

/-- `hashString`, with `sha1` (the digest of `crypto/sha1`, a list of bytes)
as a parameter: the first four bytes of the digest combined into a
`uint32`. -/
def hashString (sha1 : String → List (Fin 256)) (s : String) : Nat :=
  let hashBytes := sha1 s
  let byte := fun (i : Nat) => ((hashBytes.get? i).map Fin.val).getD 0
  ((byte 0 <<< 24) ||| (byte 1 <<< 16) ||| (byte 2 <<< 8) ||| byte 3) % 4294967296

/-- The bucket `hashValue % 100` that `convertExperimentToGroup` computes for
a user id and a group id (the code does so for the test user `898964`). -/
def bucketOf (sha1 : String → List (Fin 256)) (uid : String) (groupId : Int) : Nat :=
  hashString sha1 (uid ++ "_" ++ toString groupId) % 100

end Pai

namespace Pai

/-- The members of an object as a list, in their order. -/
def fieldsToList : JFields → List (String × JVal)
  | .nil => []
  | .cons k v rest => (k, v) :: fieldsToList rest

end Pai

section Percent
variable {α : Type} [LinearOrderedField α]

end Percent

section CacheFrame
variable {α : Type} [LinearOrderedField α]

/-- The cache `loadEmbeddingCache` reads: emptied when the table suffix
differs from the last one, else the cache of the receiver. -/
def cacheAtScan (s : SSDSort α) (w : World α) : List (String × List α) :=
  if tableSuffixOf s w ≠ s.lastTableSuffixParam then [] else s.embCache

/-- The ids `loadEmbeddingCache` asks the table for: those of the items the
cache does not hold. -/
def absentItemIdsOf (s : SSDSort α) (w : World α) (items : List (Item α)) : List String :=
  (scanCache (cacheAtScan s w) ⟨[], 0, [], items⟩ items.enum).2.absentItemIds

end CacheFrame

section CacheFrameSample

/-- A context of size 2 with no experiment parameters. -/
def plainCtx : RecommendContext ℚ := ⟨2, noParams⟩

end CacheFrameSample

section LoadSequence
variable {α : Type} [LinearOrderedField α]

/-- The receiver after a sequence of `loadEmbeddingCache` calls, each made
in its own world on its own list of items. -/
def runLoads (sqrt : α → α) : SSDSort α → List (World α × List (Item α)) → SSDSort α
  | s, [] => s
  | s, (w, items) :: rest => runLoads sqrt (loadEmbeddingCache sqrt s w items).2.2 rest

/-- The vector `v` under `key` was stored under the table suffix `suffix`
in the course of `calls`: some call of the sequence observed that suffix,
its query on the table of that suffix returned a row for `key` from which
`v` was built, and every later call of the sequence observed the same
suffix. -/
def StoredUnder (sqrt : α → α) (s : SSDSort α) (calls : List (World α × List (Item α)))
    (suffix key : String) (v : List α) : Prop :=
  ∃ pre w items post rows elements,
    calls = pre ++ (w, items) :: post ∧
    tableSuffixOf s w = suffix ∧
    (∀ c ∈ post, tableSuffixOf s c.1 = suffix) ∧
    w.query (s.tableName ++ suffix) (absentItemIdsOf (runLoads sqrt s pre) w items) = .ok rows ∧
    (key, elements) ∈ rows ∧ v = rowVector sqrt s elements

end LoadSequence

section LoadSequenceSample

/-- A reranker whose table suffix is read from the scene parameter
`emb_suffix`. -/
def suffixSorter : SSDSort ℚ := { (sampleSorter : SSDSort ℚ) with suffixParam := "emb_suffix" }

/-- A world with an experiment client whose scene parameters give the
suffix; the table `item_emb_v2` holds `[0, 1]` for the item "a", any other
table holds `[1, 0]`. -/
def versionWorld (suffix : String) : World ℚ :=
  { hasClient := true, sceneSuffix := suffix,
    query := fun table keys =>
      .ok ((if table = "item_emb_v2" then [("a", [0, 1])] else [("a", [1, 0])]).filter
        fun r => decide (r.1 ∈ keys)),
    randNorm := fun _ _ => 1,
    conditionEval := .ok true }

end LoadSequenceSample

section DrawsSample

/-- A reranker as `sampleSorter` that does not append a component 1. -/
def twinSorter : SSDSort ℚ := { (sampleSorter : SSDSort ℚ) with ensurePosSimilarity := false }

/-- A world whose table holds the embedding `[1, 0]` for "a" and for "b"
and no other row, and whose random draws are 1 at position `k` and 0
elsewhere. -/
def drawWorld (k : Nat) : World ℚ :=
  { hasClient := false, sceneSuffix := "",
    query := fun _ keys =>
      .ok ([("a", [1, 0]), ("b", [1, 0])].filter fun r => decide (r.1 ∈ keys)),
    randNorm := fun _ i => if i = k then 1 else 0,
    conditionEval := .ok true }

/-- Three candidates with scores 3, 2 and 1.9; the table of `drawWorld` has
no row for "c". -/
def twinItems : List (Item ℚ) :=
  [mkItem "a" "r1" 3, mkItem "b" "r1" 2, mkItem "c" "r1" (19 / 10)]

end DrawsSample

section WindowSum
variable {α : Type} [LinearOrderedField α]

/-- Coordinate `c` of the sum, over the picks `i` of a window `B` with their
stored projections `p` in `P`, of `p[j] * e_i`. -/
def winSum (B : List Nat) (P : List (List α)) (emb : List (List α)) (j c : Nat) : α :=
  ((B.zip P).map fun ip => ip.2.getD j 0 * (emb.getD ip.1 []).getD c 0).sum

/-- Coordinate `c` of what the picks in the window of a state have had
subtracted from the embedding at position `j`. -/
def windowSum (st : SSDLoop α) (j c : Nat) : α := winSum st.B.data st.P.data st.emb j c

end WindowSum

section DistinctSample

end DistinctSample

/-! ## `module/feature_featurestore_dao.go`: the feature store DAO -/

namespace Feature

/-- A value of type `any` found in a feature row: nil, a string, or some
other value (named by an integer). -/
inductive AnyVal where
  | nil
  | str (s : String)
  | num (n : Int)
deriving DecidableEq

/-- A `map[string]any` of features, as an association list with one entry
per key. -/
abbrev FeatureMap := List (String × AnyVal)

/-- Indexing `m[key]` of a `map[string]any`: nil when the key is absent. -/
def FeatureMap.get (m : FeatureMap) (key : String) : AnyVal := (m.lookup key).getD .nil

/-- Assignment `m[key] = v`. -/
def FeatureMap.assign (m : FeatureMap) (key : String) (v : AnyVal) : FeatureMap :=
  (key, v) :: m.filter (fun kv => kv.1 != key)

/-- The methods of `module.User` and `module.Item` that the DAO calls; the
two types are not under `src/` and are the parameters `U` and `I`. -/
structure Lib (U I : Type) where
  userStringProperty : U → String → String
  userAddProperties : U → FeatureMap → U
  userAddCacheFeatures : U → String → FeatureMap → U
  itemId : I → String
  itemStringProperty : I → String → String
  itemAddProperties : I → FeatureMap → I

/-- A model of the feature store SDK: `GetOnlineFeaturesWithEntity` on a
join id, a list of keys and an entity name, and `GetLabelPriorityLevel`. -/
structure Model where
  getOnlineFeaturesWithEntity : String → List String → String → Except String (List FeatureMap)
  labelPriorityLevel : Int

/-- The field of `domain.FeatureEntity` that the DAO reads. -/
structure FeatureEntity where
  FeatureEntityJoinid : String

/-- A `domain.FeatureView`: `GetOnlineFeatures` on keys and selected feature
names, and `GetFeatureEntityName`. -/
structure FeatureView where
  getOnlineFeatures : List String → List String → Except String (List FeatureMap)
  featureEntityName : String

/-- What `client.GetProject()` answers: each getter returns nil (`none`)
when the name is not found. -/
structure Project where
  getModel : String → Option Model
  getFeatureEntity : String → Option FeatureEntity
  getFeatureView : String → Option FeatureView

/-- The order in which the runtime enumerates the keys of the two maps
`keysMap` and `key2Item` of `itemsFeatureFetch`. -/
structure MapOrder where
  rangeKeysMap : List String → List String
  rangeKey2Item : List String → List String

/-- The fields of `FeatureFeatureStoreDao` and of its embedded
`FeatureBaseDao` that the fetches read. -/
structure FeatureFeatureStoreDao where
  featureKey : String
  cacheFeaturesName : String
  fsModel : String
  fsEntity : String
  fsViewName : String
  userSelectFields : String
  itemSelectFields : String

/-- The pieces of a text between the occurrences of a separator of one
character; `cur` is the piece being read, reversed. -/
def splitChars (sep : Char) : List Char → List Char → List String
  | cur, [] => [String.mk cur.reverse]
  | cur, c :: rest =>
    if c = sep then String.mk cur.reverse :: splitChars sep [] rest
    else splitChars sep (c :: cur) rest

/-- `strings.Split(s, sep)` for a separator of one character. -/
def stringsSplit (s : String) (sep : Char) : List String := splitChars sep [] s.toList

/-- The feature names asked of a view: `*` when the select fields are empty
or `*`, else the fields split at the commas. -/
def selectedNames (selectFields : String) : List String :=
  if selectFields = "" ∨ selectFields = "*" then ["*"] else stringsSplit selectFields ','

/-- The loop `for k, v := range ctxFeatures` assigning `features[0][k] = v`. -/
def overlay (features0 ctxFeatures : FeatureMap) : FeatureMap :=
  ctxFeatures.foldl (fun m kv => m.assign kv.1 kv.2) features0

section Fetch
variable {U I : Type}

/-- The tail shared by the two user fetches: the first row goes to the
cache features when a name is configured, else to the properties. -/
def storeUserFeatures (L : Lib U I) (d : FeatureFeatureStoreDao) (user : U)
    (features0 : FeatureMap) : U :=
  if d.cacheFeaturesName ≠ "" then L.userAddCacheFeatures user d.cacheFeaturesName features0
  else L.userAddProperties user features0

/-- `doUserFeatureFetchWithEntity`; `ctxFeatures` is the context parameter
`features` when it is a `map[string]any`. -/
def doUserFeatureFetchWithEntity (L : Lib U I) (p : Project) (ctxFeatures : Option FeatureMap)
    (d : FeatureFeatureStoreDao) (user : U) (key : String) : U :=
  match p.getModel d.fsModel with
  | none => user
  | some model =>
    match p.getFeatureEntity d.fsEntity with
    | none => user
    | some entity =>
      match model.getOnlineFeaturesWithEntity entity.FeatureEntityJoinid [key] d.fsEntity with
      | .error _ => user
      | .ok [] => user
      | .ok (features0 :: _) =>
        let merged :=
          if model.labelPriorityLevel = 1 then
            match ctxFeatures with
            | some cf => overlay features0 cf
            | none => features0
          else features0
        storeUserFeatures L d user merged

/-- `doUserFeatureFetchWithFeatureView`. -/
def doUserFeatureFetchWithFeatureView (L : Lib U I) (p : Project)
    (d : FeatureFeatureStoreDao) (user : U) (key : String) : U :=
  match p.getFeatureView d.fsViewName with
  | none => user
  | some featureView =>
    match featureView.getOnlineFeatures [key] (selectedNames d.userSelectFields) with
    | .error _ => user
    | .ok [] => user
    | .ok (features0 :: _) => storeUserFeatures L d user features0

/-- `userFeatureFetch`: the user after the call. -/
def userFeatureFetch (L : Lib U I) (p : Project) (ctxFeatures : Option FeatureMap)
    (d : FeatureFeatureStoreDao) (user : U) : U :=
  match stringsSplit d.featureKey ':' with
  | _ :: name :: _ =>
    let key := L.userStringProperty user name
    if key = "" then user
    else if d.fsViewName ≠ "" then doUserFeatureFetchWithFeatureView L p d user key
    else doUserFeatureFetchWithEntity L p ctxFeatures d user key
  | _ => user

/-- `doItemsFeatureFetchWithEntity`. -/
def doItemsFeatureFetchWithEntity (p : Project) (d : FeatureFeatureStoreDao)
    (entity : FeatureEntity) (keys : List String) : Except String (List FeatureMap) :=
  match p.getModel d.fsModel with
  | none => .error ("model not found(" ++ d.fsModel ++ ")")
  | some model => model.getOnlineFeaturesWithEntity entity.FeatureEntityJoinid keys d.fsEntity

/-- `doItemsFeatureFetchWithFeatureView`. -/
def doItemsFeatureFetchWithFeatureView (d : FeatureFeatureStoreDao) (featureView : FeatureView)
    (keys : List String) : Except String (List FeatureMap) :=
  featureView.getOnlineFeatures keys (selectedNames d.itemSelectFields)

/-- The block of `itemsFeatureFetch` that fetches the rows: the join id of
the entity and the rows, or `none` where the code logs an error and
returns. -/
def fetchItemFeatures (p : Project) (d : FeatureFeatureStoreDao) (keys : List String) :
    Option (String × List FeatureMap) :=
  if d.fsViewName ≠ "" then
    match p.getFeatureView d.fsViewName with
    | none => none
    | some featureView =>
      match doItemsFeatureFetchWithFeatureView d featureView keys with
      | .error _ => none
      | .ok features =>
        match p.getFeatureEntity featureView.featureEntityName with
        | none => none
        | some entity => some (entity.FeatureEntityJoinid, features)
  else
    match p.getFeatureEntity d.fsEntity with
    | none => none
    | some entity =>
      match doItemsFeatureFetchWithEntity p d entity keys with
      | .error _ => none
      | .ok features => some (entity.FeatureEntityJoinid, features)

/-- The variable `fk` of `itemsFeatureFetch`: the feature key when it is
`item:id`, else its second piece; `none` when there is no second piece. -/
def itemKeyField (d : FeatureFeatureStoreDao) : Option String :=
  if d.featureKey ≠ "item:id" then
    match stringsSplit d.featureKey ':' with
    | _ :: name :: _ => some name
    | _ => none
  else some d.featureKey

/-- The key of an item: its id when `fk` is `item:id`, else the property
named `fk`. -/
def itemKey (L : Lib U I) (fk : String) (item : I) : String :=
  if fk = "item:id" then L.itemId item else L.itemStringProperty item fk

/-- The variables of the loops that join the rows to the items: the
backing array of `features` with the length of the slice, the items with
the keys computed for them, and whether an index went out of range (the
panic that the deferred function recovers). -/
structure FetchLoop (I : Type) where
  arr : List FeatureMap
  len : Nat
  items : List (String × I)
  panicked : Bool

/-- Body of `for i, featureMap := range features` for one index: on a
match every item of `key2Item[key]` (the items whose key is `key`) gets the
properties of the row, and the row is replaced by the last one of the
slice, which is shortened; `features[i]` panics when `i` is not below the
length of the slice. -/
def matchFeature (L : Lib U I) (joinId key : String) (st : FetchLoop I) (i : Nat) :
    FetchLoop I :=
  if st.panicked then st
  else
    let featureMap := st.arr.getD i []
    if AnyVal.str key = featureMap.get joinId then
      let items1 := st.items.map fun ki =>
        if ki.1 = key then (ki.1, L.itemAddProperties ki.2 featureMap) else ki
      if i < st.len then
        { arr := st.arr.set i (st.arr.getD (st.len - 1) []), len := st.len - 1,
          items := items1, panicked := false }
      else { st with items := items1, panicked := true }
    else st

/-- The loop `for i, featureMap := range features`: the range expression is
evaluated once, so the indices are those below the length that the slice
has when the loop starts, and each row is read from the backing array when
its index comes up. -/
def scanFeatures (L : Lib U I) (joinId key : String) (st : FetchLoop I) : FetchLoop I :=
  (List.range st.len).foldl (matchFeature L joinId key) st

/-- The loop `for key, itemlist := range key2Item`, over the keys in the
order of the runtime. -/
def joinFeatures (L : Lib U I) (joinId : String) (keys : List String) (st : FetchLoop I) :
    FetchLoop I :=
  keys.foldl (fun st key => scanFeatures L joinId key st) st

/-- `itemsFeatureFetch`: the items after the call, and whether a panic was
recovered. -/
def itemsFeatureFetch (L : Lib U I) (o : MapOrder) (p : Project) (d : FeatureFeatureStoreDao)
    (items : List I) : List I × Bool :=
  if items.length = 0 then (items, false)
  else
    match itemKeyField d with
    | none => (items, false)
    | some fk =>
      let keyed := items.map fun item => (itemKey L fk item, item)
      let distinct := (keyed.map Prod.fst).dedup
      match fetchItemFeatures p d (o.rangeKeysMap distinct) with
      | none => (items, false)
      | some (entityJoinId, features) =>
        let st := joinFeatures L entityJoinId (o.rangeKey2Item distinct)
          ⟨features, features.length, keyed, false⟩
        (st.items.map Prod.snd, st.panicked)

end Fetch

end Feature

namespace Feature

section FetchKeys
variable {U I : Type}

/-- The key that `userFeatureFetch` asks the feature store for: the user
property named by the second piece of the feature key. -/
def userKey (L : Lib U I) (d : FeatureFeatureStoreDao) (user : U) : String :=
  match stringsSplit d.featureKey ':' with
  | _ :: name :: _ => L.userStringProperty user name
  | _ => ""

/-- The keys that `itemsFeatureFetch` asks the feature store for: the keys of
the items, each once, in the order of the runtime. -/
def itemFetchKeys (L : Lib U I) (o : MapOrder) (d : FeatureFeatureStoreDao) (items : List I) :
    List String :=
  match itemKeyField d with
  | some fk => o.rangeKeysMap ((items.map (itemKey L fk)).dedup)
  | none => []

end FetchKeys

end Feature

namespace Feature

section JoinSpec
variable {U I : Type}

/-- The item after the join, as the specification has it: with the
properties of the first row whose join id is the key of the item, when
there is one. -/
def joinedItem (L : Lib U I) (joinId : String) (rows : List FeatureMap) (key : String)
    (item : I) : I :=
  match rows.find? (fun r => decide (r.get joinId = AnyVal.str key)) with
  | some r => L.itemAddProperties item r
  | none => item

end JoinSpec

/-- A library for the examples: a user is its map of properties, an item
its id with its map of properties; a property that is not a string reads as
the empty string, and added properties are assigned one by one. -/
def sampleLib : Lib FeatureMap (String × FeatureMap) :=
  { userStringProperty := fun u name =>
      match u.get name with
      | .str s => s
      | _ => ""
    userAddProperties := fun u row => overlay u row
    userAddCacheFeatures := fun u _ row => overlay u row
    itemId := fun it => it.1
    itemStringProperty := fun it name =>
      match it.2.get name with
      | .str s => s
      | _ => ""
    itemAddProperties := fun it row => (it.1, overlay it.2 row) }

/-- The runtime that enumerates the keys of a map in the order given. -/
def plainOrder : MapOrder := { rangeKeysMap := id, rangeKey2Item := id }

/-- A project with the entity `item` of join id `item_id` and the model
`m`, which answers every request with the given rows. -/
def rowsProject (rows : List FeatureMap) : Project :=
  { getModel := fun name =>
      if name = "m" then some { getOnlineFeaturesWithEntity := fun _ _ _ => .ok rows,
                                labelPriorityLevel := 0 }
      else none
    getFeatureEntity := fun name => if name = "item" then some ⟨"item_id"⟩ else none
    getFeatureView := fun _ => none }

/-- A DAO that fetches item features by entity, keyed by the item id. -/
def itemDao : FeatureFeatureStoreDao :=
  { featureKey := "item:id", cacheFeaturesName := "", fsModel := "m", fsEntity := "item",
    fsViewName := "", userSelectFields := "", itemSelectFields := "" }

/-- Three items without properties, two of them with the id "a". -/
def fetchItems : List (String × FeatureMap) := [("a", []), ("b", []), ("a", [])]

/-- Rows for the ids "b" and "a", in that order. -/
def fetchRows : List FeatureMap :=
  [[("item_id", .str "b"), ("price", .num 2)], [("item_id", .str "a"), ("price", .num 1)]]

end Feature

namespace Feature

/-- What holds of the variables of the join loops once the keys `S` have
been handled, for the rows `rows` returned by the store and the items
`keyed` with their keys: no index went out of range; the slice holds, each
once, the rows whose join id is none of the keys handled; and the items of
the keys handled are joined. -/
structure JoinInv {U I : Type} (L : Lib U I) (joinId : String) (rows : List FeatureMap)
    (keyed : List (String × I)) (S : List String) (st : FetchLoop I) : Prop where
  not_panicked : st.panicked = false
  len_le : st.len ≤ st.arr.length
  inj : ∀ i j, i < st.len → j < st.len →
    (st.arr.getD i []).get joinId = (st.arr.getD j []).get joinId → i = j
  sound : ∀ i, i < st.len →
    st.arr.getD i [] ∈ rows ∧ ∀ k ∈ S, AnyVal.str k ≠ (st.arr.getD i []).get joinId
  complete : ∀ r ∈ rows, (∀ k ∈ S, AnyVal.str k ≠ r.get joinId) →
    ∃ i, i < st.len ∧ st.arr.getD i [] = r
  items_eq : st.items = keyed.map fun ki =>
    if ki.1 ∈ S then (ki.1, joinedItem L joinId rows ki.1 ki.2) else ki

/-- The DAO of the examples with a model name that the project does not
know. -/
def lostModelDao : FeatureFeatureStoreDao := { itemDao with fsModel := "gone" }

end Feature

/-! # Properties -/

/-! ## Sorting by score -/

section SortLemmas
variable {α : Type} [LinearOrderedField α]

theorem sortByScoreDesc_perm (l : List (Item α)) : (sortByScoreDesc l).Perm l :=
  List.perm_insertionSort _ l

theorem sortByScoreDesc_sorted (l : List (Item α)) :
    (sortByScoreDesc l).Sorted (fun a b => a.Score ≥ b.Score) :=
  List.sorted_insertionSort _ l

theorem sortByScoreDesc_length (l : List (Item α)) : (sortByScoreDesc l).length = l.length :=
  (sortByScoreDesc_perm l).length_eq

end SortLemmas

/-! ## Short-circuits of the method `Sort` -/

section ShortCircuit
variable {α : Type} [LinearOrderedField α]

/-- C7: with `1 ≤ N ≤ abortRunCnt`, or with a configured condition that
evaluates to false, `Sort` returns no error and leaves in `sortData.Data` a
permutation of all the candidates in non-increasing score order, whatever
gamma, the truncation knobs and the filter list are. -/
theorem sort_short_circuit_sorted_perm (sqrt : α → α) (s : SSDSort α) (w : World α)
    (ctx : RecommendContext α) (candidates : List (Item α))
    (h : (1 ≤ candidates.length ∧ (candidates.length : Int) ≤ s.abortRunCnt) ∨
         (s.hasCondition = true ∧ w.conditionEval = .ok false)) :
    (SSDSort_Sort sqrt s w ⟨.items candidates, ctx⟩).1 = none ∧
    ∃ out, (SSDSort_Sort sqrt s w ⟨.items candidates, ctx⟩).2.1.Data = .items out ∧
      out.Perm candidates ∧ out.Sorted (fun a b => a.Score ≥ b.Score) := by
  unfold SSDSort_Sort
  simp only
  by_cases h0 : candidates.length = 0
  · have : candidates = [] := List.length_eq_zero.mp h0
    subst this
    simp
  · rw [if_neg h0]
    by_cases hc : conditionSkips s w = true
    · rw [if_pos hc]
      exact ⟨rfl, _, rfl, sortByScoreDesc_perm _, sortByScoreDesc_sorted _⟩
    · rw [if_neg hc]
      have hab : s.abortRunCnt > 0 ∧ (candidates.length : Int) ≤ s.abortRunCnt := by
        rcases h with ⟨h1, h2⟩ | ⟨h1, h2⟩
        · constructor <;> omega
        · exfalso; apply hc; simp [conditionSkips, h1, h2]
      rw [if_pos hab]
      exact ⟨rfl, _, rfl, sortByScoreDesc_perm _, sortByScoreDesc_sorted _⟩

end ShortCircuit

section ShortCircuitSamples

theorem sort_short_circuit_sorted_perm_witness :
    ((1 ≤ threeItems.length ∧
        (threeItems.length : Int) ≤ ({ (sampleSorter : SSDSort ℚ) with abortRunCnt := 5 }).abortRunCnt) ∨
      (({ (sampleSorter : SSDSort ℚ) with abortRunCnt := 5 }).hasCondition = true ∧
        (sampleWorld ([] : List (String × List ℚ))).conditionEval = .ok false)) ∧
    ((SSDSort_Sort Rat.sqrt { (sampleSorter : SSDSort ℚ) with abortRunCnt := 5 } (sampleWorld [])
        ⟨.items threeItems, ⟨2, noParams⟩⟩).1 = none ∧
      ∃ out, (SSDSort_Sort Rat.sqrt { (sampleSorter : SSDSort ℚ) with abortRunCnt := 5 }
          (sampleWorld []) ⟨.items threeItems, ⟨2, noParams⟩⟩).2.1.Data = .items out ∧
        out.Perm threeItems ∧ out.Sorted (fun a b => a.Score ≥ b.Score)) :=
  ⟨Or.inl ⟨by decide, by decide⟩,
    sort_short_circuit_sorted_perm Rat.sqrt _ _ _ _ (Or.inl ⟨by decide, by decide⟩)⟩

end ShortCircuitSamples

/-! ## `ssd_gamma = 0` -/

section GammaZero
variable {α : Type} [LinearOrderedField α]

theorem doSort_gamma_zero (sqrt : α → α) (s : SSDSort α) (w : World α)
    (ctx : RecommendContext α) (items : List (Item α))
    (hg : getParam ctx.params.ssd_gamma s.gamma = 0) :
    (doSort sqrt s w ctx items).1 = sortByScoreDesc items := by
  unfold doSort
  by_cases h0 : items.length = 0
  · have : items = [] := List.length_eq_zero.mp h0
    subst this
    simp [sortByScoreDesc]
  · simp [h0, hg]

/-- C4: for a non-empty candidate list, when `ssd_gamma` resolves to 0 and
the resolved filter list is empty, `Sort` leaves in `sortData.Data` a
permutation of the whole input in non-increasing score order. -/
theorem sort_gamma_zero_sorted_perm (sqrt : α → α) (s : SSDSort α) (w : World α)
    (ctx : RecommendContext α) (candidates : List (Item α))
    (hne : candidates ≠ [])
    (hg : getParam ctx.params.ssd_gamma s.gamma = 0)
    (hf : resolveFilterRetrieveIds s ctx = []) :
    (sortOutput sqrt s w ⟨.items candidates, ctx⟩).Perm candidates ∧
    (sortOutput sqrt s w ⟨.items candidates, ctx⟩).Sorted (fun a b => a.Score ≥ b.Score) := by
  have h0 : candidates.length ≠ 0 := fun h => hne (List.length_eq_zero.mp h)
  have key : sortOutput sqrt s w ⟨.items candidates, ctx⟩ = sortByScoreDesc candidates := by
    unfold sortOutput SSDSort_Sort
    simp only [if_neg h0]
    by_cases hc : conditionSkips s w = true
    · simp [hc]
    · by_cases hab : s.abortRunCnt > 0 ∧ (candidates.length : Int) ≤ s.abortRunCnt
      · simp [hc, hab]
      · simp only [if_neg hc, if_neg hab, hf, List.length_nil, lt_irrefl, if_false]
        exact doSort_gamma_zero sqrt s w ctx candidates hg
  rw [key]
  exact ⟨sortByScoreDesc_perm _, sortByScoreDesc_sorted _⟩

/-- C5 (amended): when `ssd_gamma` resolves to 0, `doSort` returns the whole
input sorted by score descending, all `N` items, whatever
`ssd_candidate_count` and `ssd_min_score_percent` are: the candidate knobs
are not applied. -/
theorem doSort_gamma_zero_keeps_all (sqrt : α → α) (s : SSDSort α) (w : World α)
    (ctx : RecommendContext α) (items : List (Item α))
    (hg : getParam ctx.params.ssd_gamma s.gamma = 0) :
    (doSort sqrt s w ctx items).1 = sortByScoreDesc items ∧
    (doSort sqrt s w ctx items).1.length = items.length := by
  rw [doSort_gamma_zero sqrt s w ctx items hg]
  exact ⟨rfl, sortByScoreDesc_length items⟩

end GammaZero

section GammaZeroSamples

theorem sort_gamma_zero_sorted_perm_witness :
    (threeItems ≠ [] ∧
      getParam (gammaZeroCtx 2).params.ssd_gamma (sampleSorter : SSDSort ℚ).gamma = 0 ∧
      resolveFilterRetrieveIds (sampleSorter : SSDSort ℚ) (gammaZeroCtx 2) = []) ∧
    ((sortOutput Rat.sqrt sampleSorter (sampleWorld []) ⟨.items threeItems, gammaZeroCtx 2⟩).Perm
        threeItems ∧
      (sortOutput Rat.sqrt sampleSorter (sampleWorld []) ⟨.items threeItems, gammaZeroCtx 2⟩).Sorted
        (fun a b => a.Score ≥ b.Score)) :=
  ⟨⟨by decide, by decide, by decide⟩,
    sort_gamma_zero_sorted_perm Rat.sqrt sampleSorter (sampleWorld []) (gammaZeroCtx 2) threeItems
      (by decide) (by decide) (by decide)⟩

/-- C5 (counterexample): three candidates, `ctx.Size = 1`, `ssd_gamma = 0`
and `ssd_candidate_count = 2`: `doSort` returns all three items, not
`min(3, max(1, 2)) = 2`. -/
theorem doSort_gamma_zero_not_truncated :
    threeItems.length > gammaZeroCountCtx.Size ∧
    getParam gammaZeroCountCtx.params.ssd_gamma (sampleSorter : SSDSort ℚ).gamma = 0 ∧
    getParam gammaZeroCountCtx.params.ssd_candidate_count (sampleSorter : SSDSort ℚ).candidateCnt = 2 ∧
    (doSort Rat.sqrt sampleSorter (sampleWorld []) gammaZeroCountCtx threeItems).1.length = 3 ∧
    (doSort Rat.sqrt sampleSorter (sampleWorld []) gammaZeroCountCtx threeItems).1.length ≠
      min threeItems.length (max gammaZeroCountCtx.Size 2) := by
  decide

theorem doSort_gamma_zero_keeps_all_witness :
    getParam gammaZeroCountCtx.params.ssd_gamma (sampleSorter : SSDSort ℚ).gamma = 0 ∧
    ((doSort Rat.sqrt sampleSorter (sampleWorld []) gammaZeroCountCtx threeItems).1 =
        sortByScoreDesc threeItems ∧
      (doSort Rat.sqrt sampleSorter (sampleWorld []) gammaZeroCountCtx threeItems).1.length =
        threeItems.length) :=
  ⟨by decide, doSort_gamma_zero_keeps_all Rat.sqrt sampleSorter (sampleWorld [])
    gammaZeroCountCtx threeItems (by decide)⟩

end GammaZeroSamples

/-! ## `determineCrowdTargetType` -/

namespace Pai

/-- C8: `determineCrowdTargetType` returns Filter exactly when `DebugUsers`
or `Filter` is non-empty, Random exactly when both are empty and `Buckets`
is not, and ALL exactly when all three are empty; so the first rule that
applies, in the order DebugUsers, Filter, Buckets, decides. -/
theorem determineCrowdTargetType_first_rule_wins (e : PaiExperiment) :
    (determineCrowdTargetType e = CrowdTargetType_Filter ↔
      (e.DebugUsers ≠ "" ∨ (e.DebugUsers = "" ∧ e.Filter ≠ ""))) ∧
    (determineCrowdTargetType e = CrowdTargetType_Random ↔
      (e.DebugUsers = "" ∧ e.Filter = "" ∧ e.Buckets ≠ "")) ∧
    (determineCrowdTargetType e = CrowdTargetType_ALL ↔
      (e.DebugUsers = "" ∧ e.Filter = "" ∧ e.Buckets = "")) := by
  have hFR : CrowdTargetType_Filter ≠ CrowdTargetType_Random := by decide
  have hFA : CrowdTargetType_Filter ≠ CrowdTargetType_ALL := by decide
  have hRA : CrowdTargetType_Random ≠ CrowdTargetType_ALL := by decide
  unfold determineCrowdTargetType
  by_cases hd : e.DebugUsers = ""
  · by_cases hf : e.Filter = ""
    · by_cases hb : e.Buckets = ""
      · simp [hd, hf, hb, hFA.symm, hRA.symm]
      · simp [hd, hf, hb, hFR.symm, hRA]
    · simp [hd, hf, hFR, hFA]
  · simp [hd, hFR, hFA]

end Pai

/-! ## What the reranker keeps of an item -/

section Core
variable {α : Type} [LinearOrderedField α]

omit [LinearOrderedField α] in
theorem setEmbedding_core (items : List (Item α)) (pos : Nat) (v : List α) :
    (setEmbedding items pos v).map Item.core = items.map Item.core := by
  induction items generalizing pos with
  | nil => rfl
  | cons it rest ih =>
    cases pos with
    | zero => simp [setEmbedding, Item.core]
    | succ n => simp [setEmbedding, ih]

omit [LinearOrderedField α] in
theorem scanCache_core (cache : List (String × List α)) (l : List (Nat × Item α))
    (acc : CacheScan α) :
    (scanCache cache acc l).2.items.map Item.core = acc.items.map Item.core := by
  induction l generalizing acc with
  | nil => rfl
  | cons x rest ih =>
    obtain ⟨j, item⟩ := x
    unfold scanCache
    cases hlk : cache.lookup item.Id with
    | none => simp only; rw [ih]
    | some embI =>
      simp only
      split_ifs
      · rw [ih]; exact setEmbedding_core _ _ _
      · exact setEmbedding_core _ _ _
      · rw [ih]; exact setEmbedding_core _ _ _

theorem scanRows_core (sqrt : α → α) (s : SSDSort α) (itemMap : List (String × Nat))
    (rows : List (String × List α)) (acc : RowScan α) :
    (scanRows sqrt s itemMap acc rows).2.items.map Item.core = acc.items.map Item.core := by
  induction rows generalizing acc with
  | nil => rfl
  | cons x rest ih =>
    obtain ⟨itemID, elements⟩ := x
    unfold scanRows
    simp only
    by_cases hm : acc.embedSize ≠ 0 ∧ acc.embedSize ≠ (rowVector sqrt s elements).length
    · rw [if_pos hm]
    · rw [if_neg hm]
      cases hlk : itemMap.lookup itemID with
      | none => rfl
      | some j => simp only; rw [ih]; exact setEmbedding_core _ _ _

theorem fillMissing_core (sqrt : α → α) (w : World α) (embedSize : Nat)
    (m : List (String × Nat)) (items : List (Item α)) :
    (fillMissing sqrt w embedSize m items).map Item.core = items.map Item.core := by
  induction m generalizing items with
  | nil => rfl
  | cons x rest ih =>
    obtain ⟨key, j⟩ := x
    unfold fillMissing
    simp only
    rw [ih]
    cases items.get? j with
    | none => rfl
    | some item =>
      simp only
      split_ifs
      · exact setEmbedding_core _ _ _
      · rfl

/-- The load assigns embeddings only: ids, retrieve ids and scores of the
items it hands back are those of the items it was given, in order. -/
theorem loadEmbeddingCache_core (sqrt : α → α) (s : SSDSort α) (w : World α)
    (items : List (Item α)) :
    (loadEmbeddingCache sqrt s w items).2.1.map Item.core = items.map Item.core := by
  unfold loadEmbeddingCache
  simp only
  generalize hs1 : (if tableSuffixOf s w ≠ s.lastTableSuffixParam then
      ({ s with embCache := [], lastTableSuffixParam := tableSuffixOf s w } : SSDSort α)
      else s) = s1
  have hc := scanCache_core s1.embCache items.enum ⟨[], 0, [], items⟩
  rcases hsc : scanCache s1.embCache ⟨[], 0, [], items⟩ items.enum with ⟨e, c⟩
  rw [hsc] at hc
  simp only at hc
  cases e with
  | some err => exact hc
  | none =>
    simp only
    split_ifs with habs
    · cases hq : w.query (s1.tableName ++ tableSuffixOf s w) c.absentItemIds with
      | error err => exact hc
      | ok rows =>
        simp only
        have hr := scanRows_core sqrt s1 c.itemMap rows ⟨c.embedSize, s1.embCache, c.items, 0⟩
        rcases hsr : scanRows sqrt s1 c.itemMap ⟨c.embedSize, s1.embCache, c.items, 0⟩ rows
          with ⟨e2, r⟩
        rw [hsr] at hr
        simp only at hr
        cases e2 with
        | some err => simp only; rw [hr, hc]
        | none =>
          simp only
          split_ifs
          · rw [hr, hc]
          · rw [hr, hc]
          · rw [fillMissing_core, hr, hc]
          · rw [hr, hc]
    · exact hc

end Core

/-! ## The loop of `SSDWithSlidingWindow` -/

section SSDLemmas
variable {α : Type} [LinearOrderedField α]

theorem mapOpt_of_forall {β γ : Type} (f : β → Option γ) (P : γ → Prop) (l : List β)
    (h : ∀ x ∈ l, ∃ y, f x = some y ∧ P y) :
    ∃ ys, mapOpt f l = some ys ∧ ys.length = l.length ∧ ∀ y ∈ ys, P y := by
  induction l with
  | nil => exact ⟨[], rfl, rfl, by simp⟩
  | cons x rest ih =>
    obtain ⟨y, hy, hP⟩ := h x (List.mem_cons_self _ _)
    obtain ⟨ys, hys, hlen, hall⟩ := ih (fun z hz => h z (List.mem_cons_of_mem _ hz))
    refine ⟨y :: ys, ?_, by simp [hlen], ?_⟩
    · simp [mapOpt, hy, hys]
    · intro z hz
      rcases List.mem_cons.mp hz with rfl | hz
      · exact hP
      · exact hall z hz

theorem maxIdxFrom_lt (l : List α) (m : α) (ind i : Nat) (hind : ind < i) :
    maxIdxFrom m ind i l < i + l.length := by
  induction l generalizing m ind i with
  | nil => simpa [maxIdxFrom] using hind
  | cons v rest ih =>
    unfold maxIdxFrom
    split_ifs
    · have := ih v i (i + 1) (Nat.lt_succ_self i)
      simp only [List.length_cons]; omega
    · have := ih m ind (i + 1) (Nat.lt_succ_of_lt hind)
      simp only [List.length_cons]; omega

theorem floatsMaxIdx_lt (l : List α) (h : l ≠ []) : floatsMaxIdx l < l.length := by
  cases l with
  | nil => exact absurd rfl h
  | cons v rest =>
    have := maxIdxFrom_lt rest v 0 1 (by omega)
    simp only [floatsMaxIdx, List.length_cons]; omega

theorem floatsScale_length (c : α) (v : List α) : (floatsScale c v).length = v.length := by
  simp [floatsScale]

omit [LinearOrderedField α] in
theorem getD_length_of_forall (emb : List (List α)) (dim i : Nat)
    (hdim : ∀ e ∈ emb, e.length = dim) (hi : i < emb.length) : (emb.getD i []).length = dim := by
  have : emb.getD i [] = emb[i] := by simp [List.getD, List.getElem?_eq_getElem hi]
  rw [this]
  exact hdim _ (List.getElem_mem hi)

omit [LinearOrderedField α] in
theorem newVecDense_some (dim : Nat) (data : List α) (h : data.length = dim) (hdim : 1 ≤ dim) :
    newVecDense dim data = some data := by
  have : dim ≠ 0 := by omega
  simp [newVecDense, h, this]

theorem restoreOne_some (selected : List Nat) (projections embI : List α) (dim : Nat)
    (hE : embI.length = dim) (x : Nat × List α) (hx : x.2.length = dim) :
    ∃ y, restoreOne selected projections embI x.1 x.2 = some y ∧ y.length = dim := by
  unfold restoreOne
  by_cases hs : x.1 ∈ selected
  · exact ⟨x.2, by simp [hs], hx⟩
  · refine ⟨List.zipWith (fun a b => a + b) x.2 (floatsScale (projections.getD x.1 0) embI), ?_, ?_⟩
    · rw [if_neg hs]
      unfold floatsAdd
      rw [if_pos (by rw [floatsScale_length, hx, hE])]
    · rw [List.length_zipWith, floatsScale_length, hx, hE, Nat.min_self]

theorem restoreWindow_inv (N dim w : Nat) (st : SSDLoop α) (hdim : 1 ≤ dim) (hw : 1 ≤ w)
    (h : SSDInv N dim w st) (ht : w < st.t) :
    ∃ st1, restoreWindow dim st = some st1 ∧ st1.emb.length = N ∧
      (∀ e ∈ st1.emb, e.length = dim) ∧ st1.idx = st.idx ∧ st1.selected = st.selected ∧
      st1.indices = st.indices ∧ st1.t = st.t ∧ st1.volume = st.volume ∧
      st1.B.cap = w ∧ st1.P.cap = w ∧ st1.B.data.length = w - 1 ∧ st1.P.data.length = w - 1 ∧
      (∀ i ∈ st1.B.data, i < N) := by
  have hBl : st.B.data.length = w := by rw [h.B_len]; omega
  have hPl : st.P.data.length = w := by rw [h.P_len]; omega
  cases hB : st.B.data with
  | nil => rw [hB] at hBl; simp at hBl; omega
  | cons i restB =>
    cases hP : st.P.data with
    | nil => rw [hP] at hPl; simp at hPl; omega
    | cons projections restP =>
      have hi : i < N := h.B_lt i (by rw [hB]; exact List.mem_cons_self _ _)
      have hei : (st.emb.getD i []).length = dim :=
        getD_length_of_forall st.emb dim i h.emb_dim (by rw [h.emb_len]; exact hi)
      obtain ⟨ys, hys, hlen, hall⟩ := mapOpt_of_forall
        (fun je : Nat × List α => restoreOne st.selected projections (st.emb.getD i []) je.1 je.2)
        (fun e => e.length = dim) st.emb.enum (fun x hx =>
          restoreOne_some st.selected projections (st.emb.getD i []) dim hei x
            (h.emb_dim _ (List.snd_mem_of_mem_enum hx)))
      refine ⟨{ st with emb := ys, B := { st.B with data := restB },
                        P := { st.P with data := restP } }, ?_, ?_, hall, rfl, rfl, rfl, rfl, rfl,
        h.B_cap, h.P_cap, ?_, ?_, ?_⟩
      · unfold restoreWindow
        simp only [CycleQueue.Pop, hB, hP]
        rw [newVecDense_some dim _ hei hdim]
        simp only [Option.some_bind, hys, Option.map_some']
      · show ys.length = N
        rw [hlen, List.enum_length, h.emb_len]
      · rw [hB] at hBl; simp at hBl ⊢; omega
      · rw [hP] at hPl; simp at hPl ⊢; omega
      · intro j hj
        exact h.B_lt j (by rw [hB]; exact List.mem_cons_of_mem _ hj)

theorem projectOne_some (selected : List Nat) (embI : List α) (dim : Nat)
    (hE : embI.length = dim) (x : Nat × List α) (hx : x.2.length = dim) :
    ∃ y, projectOne selected embI x.1 x.2 = some y ∧ y.2.length = dim := by
  unfold projectOne
  by_cases hs : x.1 ∈ selected
  · exact ⟨(0, x.2), by simp [hs], hx⟩
  · have hsub : ∀ p : α, floatsSub x.2 (floatsScale p embI) =
        some (List.zipWith (fun a b => a - b) x.2 (floatsScale p embI)) := by
      intro p
      unfold floatsSub
      rw [if_pos (by rw [floatsScale_length, hx, hE])]
    have hdot : floatsDot x.2 embI = some (dotSum x.2 embI) := by
      unfold floatsDot
      rw [if_pos (by rw [hx, hE])]
    rw [if_neg hs, hdot]
    simp only [Option.some_bind, hsub, Option.map_some']
    refine ⟨_, rfl, ?_⟩
    simp only
    rw [List.length_zipWith, floatsScale_length, hx, hE, Nat.min_self]

theorem push_of_lt {β : Type} (q : CycleQueue β) (x : β) (h : q.data.length < q.cap) :
    (q.Push x).2 = { q with data := q.data ++ [x] } ∧ (q.Push x).1 = true := by
  unfold CycleQueue.Push
  rw [if_pos h]
  exact ⟨rfl, rfl⟩

/-- One iteration of the loop does not panic and keeps the invariant. -/
theorem ssdStep_inv (sqrt : α → α) (useSSDStar : Bool) (rel : List α) (N dim : Nat)
    (windowSize : Int) (st : SSDLoop α) (hrel : rel.length = N) (hN : 1 ≤ N) (hdim : 1 ≤ dim)
    (hw : 2 ≤ windowSize) (h : SSDInv N dim windowSize.toNat st) :
    ∃ st2, ssdStep sqrt useSSDStar rel dim windowSize st = some st2 ∧
      SSDInv N dim windowSize.toNat st2 ∧ st2.t = st.t + 1 ∧
      st2.indices = st.indices ++ [st2.idx] := by
  obtain ⟨w, hwe⟩ : ∃ w : Nat, windowSize.toNat = w := ⟨_, rfl⟩
  rw [hwe] at h
  have hwi : (w : Int) = windowSize := by omega
  have hw2 : 2 ≤ w := by omega
  have hmid : ∃ st1, (if (st.t : Int) > windowSize then restoreWindow dim st else some st) = some st1 ∧
      st1.emb.length = N ∧ (∀ e ∈ st1.emb, e.length = dim) ∧ st1.idx = st.idx ∧
      st1.indices = st.indices ∧ st1.t = st.t ∧
      st1.B.cap = w ∧ st1.P.cap = w ∧ st1.B.data.length + 1 = min st.t w ∧
      st1.P.data.length + 1 = min st.t w ∧ (∀ i ∈ st1.B.data, i < N) := by
    by_cases ht : (st.t : Int) > windowSize
    · rw [if_pos ht]
      obtain ⟨st1, h1, h2, h3, h4, _, h6, h7, _, h9, h10, h11, h12, h13⟩ :=
        restoreWindow_inv N dim w st hdim (by omega) h (by omega)
      refine ⟨st1, h1, h2, h3, h4, h6, h7, h9, h10, ?_, ?_, h13⟩
      · rw [h11]; omega
      · rw [h12]; omega
    · rw [if_neg ht]
      have ht1 := h.t_pos
      refine ⟨st, rfl, h.emb_len, h.emb_dim, rfl, rfl, rfl, h.B_cap, h.P_cap, ?_, ?_, h.B_lt⟩
      · rw [h.B_len]; omega
      · rw [h.P_len]; omega
  obtain ⟨st1, hst1, hlen1, hdim1, hidx1, hind1, ht1, hBc, hPc, hBl, hPl, hBlt⟩ := hmid
  have hidxlt : st1.idx < st1.emb.length := by rw [hidx1, hlen1]; exact h.idx_lt
  have hei : (st1.emb.getD st1.idx []).length = dim :=
    getD_length_of_forall st1.emb dim st1.idx hdim1 hidxlt
  obtain ⟨pe, hpe, hpelen, hpeall⟩ := mapOpt_of_forall
    (fun je : Nat × List α => projectOne st1.selected (st1.emb.getD st1.idx []) je.1 je.2)
    (fun y => y.2.length = dim) st1.emb.enum (fun x hx =>
      projectOne_some st1.selected (st1.emb.getD st1.idx []) dim hei x
        (hdim1 _ (List.snd_mem_of_mem_enum hx)))
  have hpush := push_of_lt st1.B st1.idx (by rw [hBc]; omega)
  have hpushP := push_of_lt st1.P (pe.map Prod.fst) (by rw [hPc]; omega)
  unfold ssdStep
  rw [hst1]
  simp only [Option.some_bind]
  rw [newVecDense_some dim _ hei hdim]
  simp only [Option.some_bind, hpe, Option.map_some']
  refine ⟨_, rfl, ?_, ?_, ?_⟩
  · have hq : floatsMaxIdx (rel.enum.map fun ir =>
        qualityOf sqrt st1.selected st1.volume ir.1 ir.2 ((pe.map Prod.snd).getD ir.1 [])) < N := by
      have hl : (rel.enum.map fun ir : Nat × α =>
        qualityOf sqrt st1.selected st1.volume ir.1 ir.2 ((pe.map Prod.snd).getD ir.1 [])).length = N := by
        rw [List.length_map, List.enum_length, hrel]
      have := floatsMaxIdx_lt (rel.enum.map fun ir : Nat × α =>
        qualityOf sqrt st1.selected st1.volume ir.1 ir.2 ((pe.map Prod.snd).getD ir.1 []))
        (by intro hnil; rw [hnil] at hl; simp at hl; omega)
      omega
    constructor
    · show (pe.map Prod.snd).length = N
      rw [List.length_map, hpelen, List.enum_length, hlen1]
    · intro e he
      obtain ⟨y, hy, rfl⟩ := List.mem_map.mp he
      exact hpeall y hy
    · exact hq
    · intro i hi
      rcases List.mem_append.mp hi with hi | hi
      · exact h.indices_lt i (hind1 ▸ hi)
      · rw [List.mem_singleton.mp hi]; exact hq
    · show (st1.indices ++ [_]).length = st1.t + 1
      rw [List.length_append, hind1, ht1, h.indices_len]; rfl
    · show 1 ≤ st1.t + 1
      omega
    · show (st1.B.Push st1.idx).2.cap = windowSize.toNat
      rw [hpush.1, hwe]; exact hBc
    · show (st1.P.Push (pe.map Prod.fst)).2.cap = windowSize.toNat
      rw [hpushP.1, hwe]; exact hPc
    · show (st1.B.Push st1.idx).2.data.length = min (st1.t + 1 - 1) windowSize.toNat
      rw [hpush.1, hwe, ht1]; simp only [List.length_append, List.length_singleton]; omega
    · show (st1.P.Push (pe.map Prod.fst)).2.data.length = min (st1.t + 1 - 1) windowSize.toNat
      rw [hpushP.1, hwe, ht1]; simp only [List.length_append, List.length_singleton]; omega
    · show ∀ i ∈ (st1.B.Push st1.idx).2.data, i < N
      rw [hpush.1]
      intro i hi
      rcases List.mem_append.mp hi with hi | hi
      · exact hBlt i hi
      · rw [List.mem_singleton.mp hi, hidx1]; exact h.idx_lt
  · show st1.t + 1 = st.t + 1
    rw [ht1]
  · show st1.indices ++ [_] = st.indices ++ [_]
    rw [hind1]

end SSDLemmas

section SSDRun
variable {α : Type} [LinearOrderedField α]

theorem ssdLoop_inv (sqrt : α → α) (useSSDStar : Bool) (rel : List α) (N dim : Nat)
    (windowSize : Int) (hrel : rel.length = N) (hN : 1 ≤ N) (hdim : 1 ≤ dim)
    (hw : 2 ≤ windowSize) (n : Nat) (st : SSDLoop α) (h : SSDInv N dim windowSize.toNat st) :
    ∃ st2, ssdLoop sqrt useSSDStar rel dim windowSize n st = some st2 ∧
      SSDInv N dim windowSize.toNat st2 ∧ st2.t = st.t + n := by
  induction n generalizing st with
  | zero => exact ⟨st, rfl, h, rfl⟩
  | succ n ih =>
    obtain ⟨st1, h1, hinv1, ht1, _⟩ :=
      ssdStep_inv sqrt useSSDStar rel N dim windowSize st hrel hN hdim hw h
    obtain ⟨st2, h2, hinv2, ht2⟩ := ih st1 hinv1
    refine ⟨st2, ?_, hinv2, by omega⟩
    unfold ssdLoop
    rw [h1]
    exact h2

theorem normRelevance_length (sqrt : α → α) (doNorm : Int) (scores rel : List α)
    (h : normRelevance sqrt doNorm scores = some rel) : rel.length = scores.length := by
  unfold normRelevance at h
  simp only at h
  by_cases h1 : doNorm = 1
  · rw [if_pos h1] at h
    split_ifs at h
    simp only [Option.some.injEq] at h
    rw [← h, List.length_map]
  · rw [if_neg h1] at h
    by_cases h2 : doNorm = 2
    · rw [if_pos h2] at h
      split_ifs at h
      simp only [Option.some.injEq] at h
      rw [← h, List.length_map]
    · rw [if_neg h2] at h
      simp only [Option.some.injEq] at h
      rw [h]

theorem ssdItems_length (doNorm : Int) (items : List (Item α)) (rel : List α)
    (emb : List (List α)) : (ssdItems doNorm items rel emb).length = items.length := by
  simp [ssdItems]

theorem ssdItems_core (doNorm : Int) (items : List (Item α)) (rel : List α)
    (emb : List (List α)) : (ssdItems doNorm items rel emb).map Item.core = items.map Item.core := by
  unfold ssdItems
  rw [List.map_map]
  have : (Item.core ∘ fun ji : Nat × Item α =>
      if doNorm = 1 ∨ doNorm = 2 then
        Item.AddAlgoScore { ji.2 with Embedding := emb.getD ji.1 ji.2.Embedding }
          "ssd_quality_score" (rel.getD ji.1 0)
      else { ji.2 with Embedding := emb.getD ji.1 ji.2.Embedding }) = Item.core ∘ Prod.snd := by
    funext ji
    simp only [Function.comp]
    split_ifs <;> rfl
  rw [this, ← List.map_map, List.enum_map_snd]

theorem filterMap_get?_length {β : Type} (l : List β) (indices : List Nat)
    (h : ∀ i ∈ indices, i < l.length) :
    (indices.filterMap fun index => l.get? index).length = indices.length := by
  induction indices with
  | nil => rfl
  | cons i rest ih =>
    have hi : i < l.length := h i (List.mem_cons_self _ _)
    have hget : l.get? i = some l[i] := by simp [List.getElem?_eq_getElem hi]
    rw [List.filterMap_cons, hget]
    simp only [List.length_cons]
    rw [ih (fun j hj => h j (List.mem_cons_of_mem _ hj))]

theorem ssdInit_inv (sqrt : α → α) (useSSDStar : Bool) (gamma : α) (windowSize : Int)
    (items : List (Item α)) (rel : List α) (dim : Nat)
    (hrel : rel.length = items.length) (hN : 1 ≤ items.length)
    (hemb : ∀ it ∈ items, it.Embedding.length = dim) :
    SSDInv items.length dim windowSize.toNat (ssdInit sqrt useSSDStar gamma windowSize items rel) := by
  have hidx : floatsMaxIdx rel < items.length := by
    have := floatsMaxIdx_lt rel (by intro hnil; rw [hnil] at hrel; simp at hrel; omega)
    omega
  constructor
  · show (items.map Item.Embedding).length = items.length
    simp
  · intro e he
    obtain ⟨it, hit, rfl⟩ := List.mem_map.mp he
    exact hemb it hit
  · exact hidx
  · intro i hi
    rw [List.mem_singleton.mp hi]; exact hidx
  · rfl
  · exact le_refl 1
  · rfl
  · rfl
  · show 0 = min (1 - 1) windowSize.toNat
    simp
  · show 0 = min (1 - 1) windowSize.toNat
    simp
  · intro i hi
    exact absurd hi (List.not_mem_nil i)

/-- When every item carries an embedding of one common non-zero length and
the guard on the scores does not fire, `SSDWithSlidingWindow` does not panic
and returns one item per pick: `min(N, ctx.Size)` items, and a single item
when `ctx.Size` is 0. -/
theorem ssdRun_length (sqrt : α → α) (s : SSDSort α) (ctx : RecommendContext α)
    (items : List (Item α)) (dim : Nat) (hN : 1 ≤ items.length) (hdim : 1 ≤ dim)
    (hemb : ∀ it ∈ items, it.Embedding.length = dim)
    (hnorm : normRelevance sqrt (getParam ctx.params.ssd_norm_quality_score 0)
      (items.map Item.Score) ≠ none) :
    (ssdRun sqrt s ctx items).1.length = (min items.length ctx.Size - 1) + 1 := by
  unfold ssdRun
  simp only
  cases hrel : normRelevance sqrt (getParam ctx.params.ssd_norm_quality_score 0)
      (items.map Item.Score) with
  | none => exact absurd hrel hnorm
  | some rel =>
    simp only
    have hrl : rel.length = items.length := by
      rw [normRelevance_length sqrt _ _ rel hrel, List.length_map]
    generalize hws : (if getParam ctx.params.ssd_window_size s.windowSize ≤ 1 then (5 : Int)
      else getParam ctx.params.ssd_window_size s.windowSize) = windowSize
    have hw : 2 ≤ windowSize := by
      rw [← hws]; split_ifs <;> omega
    have hinv := ssdInit_inv sqrt s.useSSDStar (getParam ctx.params.ssd_gamma s.gamma) windowSize
      items rel dim hrl hN hemb
    have hd : ((ssdInit sqrt s.useSSDStar (getParam ctx.params.ssd_gamma s.gamma) windowSize
        items rel).emb.getD
        (ssdInit sqrt s.useSSDStar (getParam ctx.params.ssd_gamma s.gamma) windowSize
          items rel).idx []).length = dim :=
      getD_length_of_forall _ dim _ hinv.emb_dim (by rw [hinv.emb_len]; exact hinv.idx_lt)
    rw [hd]
    obtain ⟨st2, h2, hinv2, ht2⟩ := ssdLoop_inv sqrt s.useSSDStar rel items.length dim windowSize
      hrl hN hdim hw (min items.length ctx.Size - 1) _ hinv
    rw [h2]
    simp only
    rw [filterMap_get?_length _ _ (by
      intro i hi
      rw [ssdItems_length]
      exact hinv2.indices_lt i hi)]
    rw [hinv2.indices_len, ht2]
    show 1 + _ = _
    omega

end SSDRun

/-! ## Lengths on the reranking path -/

section DoSortLength
variable {α : Type} [LinearOrderedField α]

theorem truncateCandidates_initial (size : Nat) (candidateCnt : Int) (minScorePercent : α)
    (items : List (Item α)) :
    truncateCandidates size candidateCnt minScorePercent items <+: items := by
  unfold truncateCandidates
  simp only
  split_ifs
  · exact (List.take_prefix _ _).trans (List.take_prefix _ _)
  · exact (List.take_prefix _ _).trans (List.prefix_refl _)
  · exact List.take_prefix _ _
  · exact List.prefix_refl _
  · exact List.take_prefix _ _
  · exact List.prefix_refl _
  · exact List.prefix_refl _

theorem truncateCandidates_min_length (size : Nat) (candidateCnt : Int) (minScorePercent : α)
    (items : List (Item α)) :
    min (truncateCandidates size candidateCnt minScorePercent items).length size =
      min items.length size := by
  unfold truncateCandidates
  simp only
  split_ifs <;> simp only [List.length_take] <;> omega

theorem loadEmbeddingCache_length (sqrt : α → α) (s : SSDSort α) (w : World α)
    (items : List (Item α)) : (loadEmbeddingCache sqrt s w items).2.1.length = items.length := by
  have := congrArg List.length (loadEmbeddingCache_core sqrt s w items)
  simpa using this

theorem loadEmbeddingCache_scores (sqrt : α → α) (s : SSDSort α) (w : World α)
    (items : List (Item α)) :
    (loadEmbeddingCache sqrt s w items).2.1.map Item.Score = items.map Item.Score := by
  have := congrArg (List.map fun c : String × String × α => c.2.2)
    (loadEmbeddingCache_core sqrt s w items)
  simpa [List.map_map, Function.comp, Item.core] using this

/-- On the path through the reranking proper, `doSort` returns one item per
pick. -/
theorem doSort_ssd_length (sqrt : α → α) (s : SSDSort α) (w : World α)
    (ctx : RecommendContext α) (items : List (Item α)) (dim : Nat)
    (hne : items ≠ [])
    (hgamma : getParam ctx.params.ssd_gamma s.gamma ≠ 0)
    (htable : 0 < s.tableName.length)
    (hload : (loadEmbeddingCache sqrt s w (loadInput s ctx items)).1 = none)
    (hsize : 1 ≤ ctx.Size)
    (hdim : 1 ≤ dim)
    (hemb : ∀ it ∈ (loadEmbeddingCache sqrt s w (loadInput s ctx items)).2.1,
      it.Embedding.length = dim)
    (hnorm : normRelevance sqrt (getParam ctx.params.ssd_norm_quality_score 0)
      ((loadInput s ctx items).map Item.Score) ≠ none) :
    (doSort sqrt s w ctx items).1.length = min items.length ctx.Size := by
  have h0 : items.length ≠ 0 := fun h => hne (List.length_eq_zero.mp h)
  have hmin : min (loadInput s ctx items).length ctx.Size = min items.length ctx.Size := by
    unfold loadInput
    rw [truncateCandidates_min_length, sortByScoreDesc_length]
  have hlen2 : 1 ≤ (loadInput s ctx items).length := by
    have : 1 ≤ items.length := by omega
    omega
  unfold doSort
  rw [if_neg h0]
  simp only
  rw [if_neg hgamma, if_pos htable]
  change (match loadEmbeddingCache sqrt s w (loadInput s ctx items) with
    | (some _, items3, s1) => (items3, s1)
    | (none, items3, s1) =>
      ((ssdRun sqrt s1 ctx items3).1,
        { s1 with embCache := aliasWriteBack s1.embCache items3 (ssdRun sqrt s1 ctx items3).2 })).1.length
      = _
  have hl := loadEmbeddingCache_length sqrt s w (loadInput s ctx items)
  have hsc := loadEmbeddingCache_scores sqrt s w (loadInput s ctx items)
  rcases hL : loadEmbeddingCache sqrt s w (loadInput s ctx items) with ⟨e, items3, s1⟩
  rw [hL] at hload hemb hl hsc
  simp only at hload hemb hl hsc
  subst hload
  simp only
  rw [ssdRun_length sqrt s1 ctx items3 dim (by omega) hdim hemb (by rw [hsc]; exact hnorm), hl, hmin]
  omega

end DoSortLength

/-! ## The main path of the method `Sort` -/

section SortMain
variable {α : Type} [LinearOrderedField α]

theorem ssdRun_core_subset (sqrt : α → α) (s : SSDSort α) (ctx : RecommendContext α)
    (items : List (Item α)) :
    ∀ x ∈ (ssdRun sqrt s ctx items).1, x.core ∈ items.map Item.core := by
  intro x hx
  unfold ssdRun at hx
  simp only at hx
  cases hrel : normRelevance sqrt (getParam ctx.params.ssd_norm_quality_score 0)
      (items.map Item.Score) with
  | none =>
    rw [hrel] at hx
    exact List.mem_map_of_mem _ hx
  | some rel =>
    rw [hrel] at hx
    simp only at hx
    split at hx
    · exact absurd hx (List.not_mem_nil x)
    · rename_i st _
      obtain ⟨i, _, hi⟩ := List.mem_filterMap.mp hx
      have hmem : x ∈ ssdItems (getParam ctx.params.ssd_norm_quality_score 0) items rel st.emb :=
        List.get?_mem hi
      rw [← ssdItems_core (getParam ctx.params.ssd_norm_quality_score 0) items rel st.emb]
      exact List.mem_map_of_mem _ hmem

/-- Every item `doSort` returns has the id, retrieve id and score of one of
the items it was given. -/
theorem doSort_core_subset (sqrt : α → α) (s : SSDSort α) (w : World α)
    (ctx : RecommendContext α) (items : List (Item α)) :
    ∀ x ∈ (doSort sqrt s w ctx items).1, x.core ∈ items.map Item.core := by
  have hsortmem : ∀ c ∈ (sortByScoreDesc items).map Item.core, c ∈ items.map Item.core :=
    fun c hc => ((sortByScoreDesc_perm items).map Item.core).subset hc
  have htr : ∀ c ∈ (loadInput s ctx items).map Item.core, c ∈ items.map Item.core := by
    intro c hc
    apply hsortmem
    exact (List.Sublist.map Item.core
      (truncateCandidates_initial _ _ _ (sortByScoreDesc items)).sublist).subset hc
  intro x hx
  unfold doSort at hx
  by_cases h0 : items.length = 0
  · rw [if_pos h0] at hx
    exact List.mem_map_of_mem _ hx
  · rw [if_neg h0] at hx
    simp only at hx
    by_cases hg : getParam ctx.params.ssd_gamma s.gamma = 0
    · rw [if_pos hg] at hx
      exact hsortmem _ (List.mem_map_of_mem _ hx)
    · rw [if_neg hg] at hx
      by_cases ht : 0 < s.tableName.length
      · rw [if_pos ht] at hx
        change x ∈ (match loadEmbeddingCache sqrt s w (loadInput s ctx items) with
          | (some _, items3, s1) => (items3, s1)
          | (none, items3, s1) =>
            ((ssdRun sqrt s1 ctx items3).1,
              { s1 with embCache :=
                  aliasWriteBack s1.embCache items3 (ssdRun sqrt s1 ctx items3).2 })).1 at hx
        have hc := loadEmbeddingCache_core sqrt s w (loadInput s ctx items)
        rcases hL : loadEmbeddingCache sqrt s w (loadInput s ctx items) with ⟨e, items3, s1⟩
        rw [hL] at hx hc
        simp only at hc
        apply htr
        rw [← hc]
        cases e with
        | some err => exact List.mem_map_of_mem _ hx
        | none => exact ssdRun_core_subset sqrt s1 ctx items3 x hx
      · rw [if_neg ht] at hx
        exact htr _ (List.mem_map_of_mem _ hx)

/-- Outside the two short-circuits `Sort` leaves `doSort` of the selected
candidates followed by the candidates set aside. -/
theorem sortOutput_main (sqrt : α → α) (s : SSDSort α) (w : World α)
    (ctx : RecommendContext α) (candidates : List (Item α))
    (hcond : conditionSkips s w = false)
    (hab : s.abortRunCnt < (candidates.length : Int)) :
    sortOutput sqrt s w ⟨.items candidates, ctx⟩ =
      (doSort sqrt s w ctx (selectedOf s ctx candidates)).1 ++ backupOf s ctx candidates := by
  unfold sortOutput SSDSort_Sort
  simp only
  by_cases h0 : candidates.length = 0
  · have : candidates = [] := List.length_eq_zero.mp h0
    subst this
    simp [selectedOf, backupOf, doSort]
  · rw [if_neg h0]
    have hc : ¬ (conditionSkips s w = true) := by rw [hcond]; simp
    have hab2 : ¬ (s.abortRunCnt > 0 ∧ (candidates.length : Int) ≤ s.abortRunCnt) := by
      intro h; omega
    rw [if_neg hc, if_neg hab2]
    by_cases hf : (resolveFilterRetrieveIds s ctx).length > 0
    · rw [if_pos hf]
      rfl
    · rw [if_neg hf]
      have hnil : resolveFilterRetrieveIds s ctx = [] := List.length_eq_zero.mp (by omega)
      simp [selectedOf, backupOf, hnil]

end SortMain

/-! ## Output of the method `Sort` -/

section SortClaims
variable {α : Type} [LinearOrderedField α]

/-- C1 (amended): when the condition does not skip, there are more
candidates than `abortRunCnt`, gamma is positive, a table is configured,
`ctx.Size ≥ 1`, the load returns no error and leaves every loaded item with
an embedding of one common non-zero length, and the guard of
`ssd_norm_quality_score` on degenerate scores does not fire, the output of
`Sort` has `min(N, ctx.Size)` items plus the filtered candidates, `N`
counting the candidates not in the filter list. -/
theorem sort_output_length (sqrt : α → α) (s : SSDSort α) (w : World α)
    (ctx : RecommendContext α) (candidates : List (Item α)) (dim : Nat)
    (hcond : conditionSkips s w = false)
    (hab : s.abortRunCnt < (candidates.length : Int))
    (hgamma : 0 < getParam ctx.params.ssd_gamma s.gamma)
    (htable : 0 < s.tableName.length)
    (hsize : 1 ≤ ctx.Size)
    (hload : (loadEmbeddingCache sqrt s w
      (loadInput s ctx (selectedOf s ctx candidates))).1 = none)
    (hdim : 1 ≤ dim)
    (hemb : ∀ it ∈ (loadEmbeddingCache sqrt s w
      (loadInput s ctx (selectedOf s ctx candidates))).2.1, it.Embedding.length = dim)
    (hnorm : normRelevance sqrt (getParam ctx.params.ssd_norm_quality_score 0)
      ((loadInput s ctx (selectedOf s ctx candidates)).map Item.Score) ≠ none) :
    (sortOutput sqrt s w ⟨.items candidates, ctx⟩).length =
      min (selectedOf s ctx candidates).length ctx.Size + (backupOf s ctx candidates).length := by
  rw [sortOutput_main sqrt s w ctx candidates hcond hab, List.length_append]
  congr 1
  by_cases hsel : selectedOf s ctx candidates = []
  · rw [hsel]
    simp [doSort]
  · exact doSort_ssd_length sqrt s w ctx _ dim hsel (ne_of_gt hgamma) htable hload hsize hdim
      hemb hnorm

/-- C2 (amended): on the reranking path without filtered candidates (the
condition does not skip, more candidates than `abortRunCnt`, gamma not 0, a
table configured, `ctx.Size ≥ 1`, no candidate in the filter list, the load
succeeds with embeddings of one common non-zero length, the guard on
degenerate scores does not fire), the list `Sort` stores in `sortData.Data`
has at most `ctx.Size` items. -/
theorem sort_output_le_size (sqrt : α → α) (s : SSDSort α) (w : World α)
    (ctx : RecommendContext α) (candidates : List (Item α)) (dim : Nat)
    (hcond : conditionSkips s w = false)
    (hab : s.abortRunCnt < (candidates.length : Int))
    (hgamma : getParam ctx.params.ssd_gamma s.gamma ≠ 0)
    (htable : 0 < s.tableName.length)
    (hsize : 1 ≤ ctx.Size)
    (hnone : backupOf s ctx candidates = [])
    (hload : (loadEmbeddingCache sqrt s w
      (loadInput s ctx (selectedOf s ctx candidates))).1 = none)
    (hdim : 1 ≤ dim)
    (hemb : ∀ it ∈ (loadEmbeddingCache sqrt s w
      (loadInput s ctx (selectedOf s ctx candidates))).2.1, it.Embedding.length = dim)
    (hnorm : normRelevance sqrt (getParam ctx.params.ssd_norm_quality_score 0)
      ((loadInput s ctx (selectedOf s ctx candidates)).map Item.Score) ≠ none) :
    (sortOutput sqrt s w ⟨.items candidates, ctx⟩).length ≤ ctx.Size := by
  rw [sortOutput_main sqrt s w ctx candidates hcond hab, hnone, List.append_nil]
  by_cases hsel : selectedOf s ctx candidates = []
  · rw [hsel]
    simp [doSort]
  · rw [doSort_ssd_length sqrt s w ctx _ dim hsel hgamma htable hload hsize hdim hemb hnorm]
    exact Nat.min_le_right _ _

/-- C6 (amended): when the condition does not skip, there are more
candidates than `abortRunCnt` and the filter list is not empty, the output
of `Sort` is `doSort` of the unfiltered candidates followed by the
candidates whose retrieve id is in the filter list, these in the order they
had in the input; every item of the `doSort` part has a retrieve id outside
the filter list and every item of the tail one inside it. -/
theorem sort_filtered_appended (sqrt : α → α) (s : SSDSort α) (w : World α)
    (ctx : RecommendContext α) (candidates : List (Item α))
    (hcond : conditionSkips s w = false)
    (hab : s.abortRunCnt < (candidates.length : Int))
    (_hfilter : resolveFilterRetrieveIds s ctx ≠ []) :
    sortOutput sqrt s w ⟨.items candidates, ctx⟩ =
      (doSort sqrt s w ctx (selectedOf s ctx candidates)).1 ++ backupOf s ctx candidates ∧
    backupOf s ctx candidates =
      candidates.filter (fun item => decide (item.RetrieveId ∈ resolveFilterRetrieveIds s ctx)) ∧
    (backupOf s ctx candidates).Sublist candidates ∧
    (∀ x, x ∈ backupOf s ctx candidates ↔
      (x ∈ candidates ∧ x.RetrieveId ∈ resolveFilterRetrieveIds s ctx)) ∧
    (∀ x ∈ (doSort sqrt s w ctx (selectedOf s ctx candidates)).1,
      x.RetrieveId ∉ resolveFilterRetrieveIds s ctx) := by
  refine ⟨sortOutput_main sqrt s w ctx candidates hcond hab, rfl, List.filter_sublist _, ?_, ?_⟩
  · intro x
    simp [backupOf, List.mem_filter]
  · intro x hx
    have hc := doSort_core_subset sqrt s w ctx _ x hx
    obtain ⟨y, hy, hyx⟩ := List.mem_map.mp hc
    have hy2 := (List.mem_filter.mp hy).2
    have hr : y.RetrieveId = x.RetrieveId := by
      have := congrArg (fun c : String × String × α => c.2.1) hyx
      simpa [Item.core] using this
    rw [← hr]
    simpa using hy2

end SortClaims

section SortClaimSamples

/-- C1 (counterexample): three candidates of equal score, embeddings loaded
for all three, gamma 0.25, `abortRunCnt = 0`, `ctx.Size = 2` and
`ssd_norm_quality_score = 2`: the guard on a zero score span returns all
three items, not `min(3, 2) = 2`. -/
theorem sort_output_length_guard_fires :
    0 < getParam minMaxCtx.params.ssd_gamma (sampleSorter : SSDSort ℚ).gamma ∧
    (sampleSorter : SSDSort ℚ).abortRunCnt < (tiedItems.length : Int) ∧
    (loadEmbeddingCache Rat.sqrt sampleSorter (sampleWorld unitRows)
      (loadInput sampleSorter minMaxCtx (selectedOf sampleSorter minMaxCtx tiedItems))).1 = none ∧
    (∀ it ∈ (loadEmbeddingCache Rat.sqrt sampleSorter (sampleWorld unitRows)
      (loadInput sampleSorter minMaxCtx (selectedOf sampleSorter minMaxCtx tiedItems))).2.1,
      it.Embedding.length = 3) ∧
    (sortOutput Rat.sqrt sampleSorter (sampleWorld unitRows) ⟨.items tiedItems, minMaxCtx⟩).length
      = 3 ∧
    (sortOutput Rat.sqrt sampleSorter (sampleWorld unitRows) ⟨.items tiedItems, minMaxCtx⟩).length
      ≠ min (selectedOf sampleSorter minMaxCtx tiedItems).length minMaxCtx.Size +
          (backupOf sampleSorter minMaxCtx tiedItems).length := by
  decide!

theorem sort_output_length_witness :
    (conditionSkips sampleSorter (sampleWorld unitRows) = false ∧
      (sampleSorter : SSDSort ℚ).abortRunCnt < (threeItems.length : Int) ∧
      0 < getParam filterCtx.params.ssd_gamma (sampleSorter : SSDSort ℚ).gamma ∧
      0 < (sampleSorter : SSDSort ℚ).tableName.length ∧
      1 ≤ filterCtx.Size ∧
      (loadEmbeddingCache Rat.sqrt sampleSorter (sampleWorld unitRows)
        (loadInput sampleSorter filterCtx (selectedOf sampleSorter filterCtx threeItems))).1 = none ∧
      1 ≤ 3 ∧
      (∀ it ∈ (loadEmbeddingCache Rat.sqrt sampleSorter (sampleWorld unitRows)
        (loadInput sampleSorter filterCtx (selectedOf sampleSorter filterCtx threeItems))).2.1,
        it.Embedding.length = 3) ∧
      normRelevance Rat.sqrt (getParam filterCtx.params.ssd_norm_quality_score 0)
        ((loadInput sampleSorter filterCtx (selectedOf sampleSorter filterCtx threeItems)).map
          Item.Score) ≠ none) ∧
    (sortOutput Rat.sqrt sampleSorter (sampleWorld unitRows) ⟨.items threeItems, filterCtx⟩).length =
      min (selectedOf sampleSorter filterCtx threeItems).length filterCtx.Size +
        (backupOf sampleSorter filterCtx threeItems).length :=
  ⟨by decide!,
    sort_output_length Rat.sqrt sampleSorter (sampleWorld unitRows) filterCtx threeItems 3
      (by decide) (by decide) (by decide!) (by decide) (by decide) (by decide!) (by decide)
      (by decide!) (by decide!)⟩

/-- C2 (counterexample): with `ssd_gamma = 0` and `ctx.Size = 2`, `Sort`
stores all three candidates. -/
theorem sort_output_exceeds_size :
    (sortOutput Rat.sqrt sampleSorter (sampleWorld []) ⟨.items threeItems, gammaZeroCtx 2⟩).length
      = 3 ∧
    ¬ (sortOutput Rat.sqrt sampleSorter (sampleWorld [])
      ⟨.items threeItems, gammaZeroCtx 2⟩).length ≤ (gammaZeroCtx 2).Size := by
  decide

theorem sort_output_le_size_witness :
    (conditionSkips sampleSorter (sampleWorld unitRows) = false ∧
      (sampleSorter : SSDSort ℚ).abortRunCnt < (threeItems.length : Int) ∧
      getParam (⟨2, noParams⟩ : RecommendContext ℚ).params.ssd_gamma
        (sampleSorter : SSDSort ℚ).gamma ≠ 0 ∧
      0 < (sampleSorter : SSDSort ℚ).tableName.length ∧
      1 ≤ (⟨2, noParams⟩ : RecommendContext ℚ).Size ∧
      backupOf sampleSorter (⟨2, noParams⟩ : RecommendContext ℚ) threeItems = [] ∧
      (loadEmbeddingCache Rat.sqrt sampleSorter (sampleWorld unitRows)
        (loadInput sampleSorter ⟨2, noParams⟩ (selectedOf sampleSorter ⟨2, noParams⟩ threeItems))).1
        = none ∧
      1 ≤ 3 ∧
      (∀ it ∈ (loadEmbeddingCache Rat.sqrt sampleSorter (sampleWorld unitRows)
        (loadInput sampleSorter ⟨2, noParams⟩ (selectedOf sampleSorter ⟨2, noParams⟩ threeItems))).2.1,
        it.Embedding.length = 3) ∧
      normRelevance Rat.sqrt (getParam (⟨2, noParams⟩ : RecommendContext ℚ).params.ssd_norm_quality_score 0)
        ((loadInput sampleSorter ⟨2, noParams⟩ (selectedOf sampleSorter ⟨2, noParams⟩ threeItems)).map
          Item.Score) ≠ none) ∧
    (sortOutput Rat.sqrt sampleSorter (sampleWorld unitRows)
      ⟨.items threeItems, ⟨2, noParams⟩⟩).length ≤ (⟨2, noParams⟩ : RecommendContext ℚ).Size :=
  ⟨by decide!,
    sort_output_le_size Rat.sqrt sampleSorter (sampleWorld unitRows) ⟨2, noParams⟩ threeItems 3
      (by decide) (by decide) (by decide!) (by decide) (by decide) (by decide!) (by decide!)
      (by decide) (by decide!) (by decide!)⟩

/-- C6 (counterexample): a condition that evaluates to false, three
candidates (more than `abortRunCnt = 0`) and the filter list `[r2]`: `Sort`
leaves the three candidates in score order, the filtered candidate b first,
which is not `doSort` of the unfiltered candidates followed by b. -/
theorem sort_condition_false_ignores_filter :
    conditionSorter.abortRunCnt < (threeItems.length : Int) ∧
    resolveFilterRetrieveIds conditionSorter filterCtx = ["r2"] ∧
    (sortOutput Rat.sqrt conditionSorter conditionFalseWorld ⟨.items threeItems, filterCtx⟩).map
      Item.Id = ["b", "c", "a"] ∧
    ((doSort Rat.sqrt conditionSorter conditionFalseWorld filterCtx
        (selectedOf conditionSorter filterCtx threeItems)).1 ++
      backupOf conditionSorter filterCtx threeItems).map Item.Id = ["c", "a", "b"] ∧
    sortOutput Rat.sqrt conditionSorter conditionFalseWorld ⟨.items threeItems, filterCtx⟩ ≠
      (doSort Rat.sqrt conditionSorter conditionFalseWorld filterCtx
        (selectedOf conditionSorter filterCtx threeItems)).1 ++
      backupOf conditionSorter filterCtx threeItems := by
  decide!

theorem sort_filtered_appended_witness :
    (conditionSkips sampleSorter (sampleWorld unitRows) = false ∧
      (sampleSorter : SSDSort ℚ).abortRunCnt < (threeItems.length : Int) ∧
      resolveFilterRetrieveIds sampleSorter filterCtx ≠ []) ∧
    (sortOutput Rat.sqrt sampleSorter (sampleWorld unitRows) ⟨.items threeItems, filterCtx⟩ =
        (doSort Rat.sqrt sampleSorter (sampleWorld unitRows) filterCtx
          (selectedOf sampleSorter filterCtx threeItems)).1 ++
        backupOf sampleSorter filterCtx threeItems ∧
      backupOf sampleSorter filterCtx threeItems =
        threeItems.filter (fun item =>
          decide (item.RetrieveId ∈ resolveFilterRetrieveIds sampleSorter filterCtx)) ∧
      (backupOf sampleSorter filterCtx threeItems).Sublist threeItems ∧
      (∀ x, x ∈ backupOf sampleSorter filterCtx threeItems ↔
        (x ∈ threeItems ∧ x.RetrieveId ∈ resolveFilterRetrieveIds sampleSorter filterCtx)) ∧
      (∀ x ∈ (doSort Rat.sqrt sampleSorter (sampleWorld unitRows) filterCtx
          (selectedOf sampleSorter filterCtx threeItems)).1,
        x.RetrieveId ∉ resolveFilterRetrieveIds sampleSorter filterCtx)) :=
  ⟨by decide,
    sort_filtered_appended Rat.sqrt sampleSorter (sampleWorld unitRows) filterCtx threeItems
      (by decide) (by decide) (by decide)⟩

end SortClaimSamples

/-! ## Scenario S5 -/

section S5
variable {α : Type} [LinearOrderedField α]

theorem maxFloat64_pos : (0 : α) < maxFloat64 := by
  unfold maxFloat64
  have : (2 : α) ^ 971 < 2 ^ 1024 := pow_lt_pow_right₀ (by norm_num) (by norm_num)
  linarith

theorem s5_step1 (sqrt : α → α) (c : α) (h0 : sqrt 0 = 0) (h1 : sqrt 1 = 1)
    (hc : sqrt (c * c) = c) (hc1 : c ≤ 1) :
    ssdStep sqrt false [1, 9 / 10, 8 / 10, 7 / 10, 6 / 10] 2 3
      ⟨1, 0, [[1, 0], [0, 1], [1, 0], [0, 1], [c, c]], [0], [0], 1 / 2, ⟨3, []⟩, ⟨3, []⟩⟩ =
    some ⟨2, 1, [[1, 0], [0, 1], [0, 0], [0, 1], [0, c]], [1, 0], [0, 1], 1 / 2,
      ⟨3, [0]⟩, ⟨3, [[0, 0, 1, 0, c]]⟩⟩ := by
  have hM := maxFloat64_pos (α := α)
  have hq : floatsMaxIdx [-maxFloat64, 9 / 10 + 2⁻¹, 8 / 10, 7 / 10 + 2⁻¹, 6 / 10 + 2⁻¹ * c] = 1 := by
    simp only [floatsMaxIdx, maxIdxFrom]
    rw [if_pos (by norm_num; linarith), if_neg (by norm_num), if_neg (by norm_num),
      if_neg (by norm_num; linarith)]
  simp [ssdStep, mapOpt, newVecDense, projectOne, floatsDot, floatsSub, floatsScale, dotSum,
    List.enum, List.enumFrom, CycleQueue.Push, qualityOf, floatsNorm, h0, h1, hc]
  simp [hq, h1]

theorem s5_step2 (sqrt : α → α) (c : α) (h0 : sqrt 0 = 0) :
    ssdStep sqrt false [1, 9 / 10, 8 / 10, 7 / 10, 6 / 10] 2 3
      ⟨2, 1, [[1, 0], [0, 1], [0, 0], [0, 1], [0, c]], [1, 0], [0, 1], 1 / 2,
        ⟨3, [0]⟩, ⟨3, [[0, 0, 1, 0, c]]⟩⟩ =
    some ⟨3, 2, [[1, 0], [0, 1], [0, 0], [0, 0], [0, 0]], [2, 1, 0], [0, 1, 2], 0,
      ⟨3, [0, 1]⟩, ⟨3, [[0, 0, 1, 0, c], [0, 0, 0, 1, c]]⟩⟩ := by
  have hM := maxFloat64_pos (α := α)
  have hq : floatsMaxIdx [(-maxFloat64 : α), -maxFloat64, 8 / 10, 7 / 10, 6 / 10] = 2 := by
    simp only [floatsMaxIdx, maxIdxFrom]
    rw [if_neg (lt_irrefl _), if_pos (by norm_num; linarith), if_neg (by norm_num),
      if_neg (by norm_num)]
  simp [ssdStep, mapOpt, newVecDense, projectOne, floatsDot, floatsSub, floatsScale, dotSum,
    List.enum, List.enumFrom, CycleQueue.Push, qualityOf, floatsNorm, h0]
  simp [hq, h0]

/-- The picks of scenario S5 for any exact field and any square root that
is right on 0, 1 and `c * c`. -/
theorem s5_picks (sqrt : α → α) (c : α) (h0 : sqrt 0 = 0) (h1 : sqrt 1 = 1)
    (hc : sqrt (c * c) = c) (hc1 : c ≤ 1) :
    (SSDWithSlidingWindow sqrt s5Sorter s5Ctx (s5Items c)).map Item.Id = ["0", "1", "2"] := by
  have hinit : ssdInit sqrt false (1 / 2) 3 (s5Items c) [1, 9 / 10, 8 / 10, 7 / 10, 6 / 10] =
      ⟨1, 0, [[1, 0], [0, 1], [1, 0], [0, 1], [c, c]], [0], [0], 1 / 2, ⟨3, []⟩, ⟨3, []⟩⟩ := by
    simp [ssdInit, s5Items, floatsMaxIdx, maxIdxFrom, floatsNorm, dotSum, NewCycleQueue]
    norm_num [h1]
  have hloop : ssdLoop sqrt false [1, 9 / 10, 8 / 10, 7 / 10, 6 / 10] 2 3 2
      ⟨1, 0, [[1, 0], [0, 1], [1, 0], [0, 1], [c, c]], [0], [0], 1 / 2, ⟨3, []⟩, ⟨3, []⟩⟩ =
      some ⟨3, 2, [[1, 0], [0, 1], [0, 0], [0, 0], [0, 0]], [2, 1, 0], [0, 1, 2], 0,
        ⟨3, [0, 1]⟩, ⟨3, [[0, 0, 1, 0, c], [0, 0, 0, 1, c]]⟩⟩ := by
    simp only [ssdLoop, s5_step1 sqrt c h0 h1 hc hc1, s5_step2 sqrt c h0, Option.some_bind]
  unfold SSDWithSlidingWindow ssdRun
  have hscores : (s5Items c).map Item.Score = [1, 9 / 10, 8 / 10, 7 / 10, 6 / 10] := by
    simp [s5Items]
  simp only [hscores, s5Ctx, s5Sorter, sampleSorter, noParams, getParam, Option.getD_some,
    Option.getD_none, normRelevance]
  have hN : (s5Items c).length ⊓ 3 - 1 = 2 := rfl
  have hd : ([[1, 0], [0, 1], [1, 0], [0, 1], [c, c]].getD 0 []).length = 2 := rfl
  simp only [show ¬ ((0 : Int) = 1) from by decide, show ¬ ((0 : Int) = 2) from by decide,
    show ¬ ((3 : Int) ≤ 1) from by decide, if_false, hinit, hN, hd, hloop]
  simp [ssdItems, s5Items, List.enum, List.enumFrom]

end S5

section S5Claims

theorem real_inv_sqrt_two_facts :
    Real.sqrt ((1 / Real.sqrt 2) * (1 / Real.sqrt 2)) = 1 / Real.sqrt 2 ∧ 1 / Real.sqrt 2 ≤ 1 := by
  have hpos : (0 : ℝ) ≤ 1 / Real.sqrt 2 := by positivity
  refine ⟨Real.sqrt_mul_self hpos, ?_⟩
  rw [div_le_one (Real.sqrt_pos.mpr (by norm_num))]
  rw [show (1 : ℝ) = Real.sqrt 1 from Real.sqrt_one.symm]
  exact Real.sqrt_le_sqrt (by norm_num)

theorem rat_sqrt_facts :
    Rat.sqrt 0 = 0 ∧ Rat.sqrt 1 = 1 ∧
    Rat.sqrt (invSqrt2Float * invSqrt2Float) = invSqrt2Float ∧ invSqrt2Float ≤ 1 := by
  have hpos : (0 : ℚ) ≤ invSqrt2Float := by unfold invSqrt2Float; norm_num
  refine ⟨?_, ?_, ?_, ?_⟩
  · simp
  · simp
  · rw [Rat.sqrt_eq, abs_of_nonneg hpos]
  · unfold invSqrt2Float; norm_num

/-- C3 (amended): for the five items of scenario S5 (embeddings
`e0 = e2 = [1,0]`, `e1 = e3 = [0,1]`, `e4 = [1,1]/√2`, scores 1.0, 0.9, 0.8,
0.7, 0.6), gamma 0.5, window 3, `ctx.Size = 3`, no appended component, no
score normalisation and `useSSDStar = false`, `SSDWithSlidingWindow` in
exact real arithmetic returns the items at input positions 0, 1, 2 in that
order, and so it does over the rationals with the `float64` nearest to
`1/√2`: after the first two picks every remaining embedding is projected to
zero, so the third pick is the best remaining score. -/
theorem ssd_scenario_s5_picks_0_1_2 :
    (SSDWithSlidingWindow Real.sqrt s5Sorter s5Ctx (s5Items (1 / Real.sqrt 2))).map Item.Id =
      ["0", "1", "2"] ∧
    (SSDWithSlidingWindow Rat.sqrt s5Sorter s5Ctx (s5Items invSqrt2Float)).map Item.Id =
      ["0", "1", "2"] :=
  ⟨s5_picks Real.sqrt (1 / Real.sqrt 2) Real.sqrt_zero Real.sqrt_one
      real_inv_sqrt_two_facts.1 real_inv_sqrt_two_facts.2,
    s5_picks Rat.sqrt invSqrt2Float rat_sqrt_facts.1 rat_sqrt_facts.2.1
      rat_sqrt_facts.2.2.1 rat_sqrt_facts.2.2.2⟩

/-- C3 (counterexample): on the input of scenario S5 the returned items are
not those at positions 0, 1, 4, neither in exact real arithmetic with
`e4 = [1,1]/√2` nor over the rationals with the `float64` nearest to `1/√2`. -/
theorem ssd_scenario_s5_not_0_1_4 :
    (SSDWithSlidingWindow Real.sqrt s5Sorter s5Ctx (s5Items (1 / Real.sqrt 2))).map Item.Id ≠
      ["0", "1", "4"] ∧
    (SSDWithSlidingWindow Rat.sqrt s5Sorter s5Ctx (s5Items invSqrt2Float)).map Item.Id ≠
      ["0", "1", "4"] := by
  constructor
  · rw [s5_picks Real.sqrt (1 / Real.sqrt 2) Real.sqrt_zero Real.sqrt_one
      real_inv_sqrt_two_facts.1 real_inv_sqrt_two_facts.2]
    decide
  · rw [s5_picks Rat.sqrt invSqrt2Float rat_sqrt_facts.1 rat_sqrt_facts.2.1
      rat_sqrt_facts.2.2.1 rat_sqrt_facts.2.2.2]
    decide

end S5Claims

/-! ## `convertPaiConfigToPairecConfig` -/

namespace Pai

end Pai

/-! ## `changePaiABTestProjectToDefaultTestSceneMap` -/

namespace Pai

theorem mem_keys_mapSet {β : Type} (m : List (String × β)) (key : String) (v : β) (k : String) :
    k ∈ (mapSet m key v).map Prod.fst ↔ (k ∈ m.map Prod.fst ∨ k = key) := by
  unfold mapSet
  by_cases hany : m.any (fun kv => kv.1 == key) = true
  · rw [if_pos hany]
    have hkeys : (m.map fun kv => if kv.1 == key then (key, v) else kv).map Prod.fst =
        m.map Prod.fst := by
      rw [List.map_map]
      apply List.map_congr_left
      intro kv _
      simp only [Function.comp]
      by_cases h : (kv.1 == key) = true
      · rw [if_pos h]; exact (by simpa using h : kv.1 = key).symm
      · rw [if_neg h]
    rw [hkeys]
    constructor
    · exact Or.inl
    · rintro (h | h)
      · exact h
      · obtain ⟨kv, hkv, heq⟩ := List.any_eq_true.mp hany
        rw [h, ← (by simpa using heq : kv.1 = key)]
        exact List.mem_map_of_mem _ hkv
  · rw [if_neg hany]
    simp [List.mem_append]

theorem mem_mapSet {β : Type} (m : List (String × β)) (key : String) (v : β) (e : String × β)
    (h : e ∈ mapSet m key v) : e ∈ m ∨ e = (key, v) := by
  unfold mapSet at h
  by_cases hany : m.any (fun kv => kv.1 == key) = true
  · rw [if_pos hany] at h
    obtain ⟨kv, hkv, heq⟩ := List.mem_map.mp h
    by_cases hk : (kv.1 == key) = true
    · rw [if_pos hk] at heq; exact Or.inr heq.symm
    · rw [if_neg hk] at heq; exact Or.inl (heq ▸ hkv)
  · rw [if_neg hany] at h
    rcases List.mem_append.mp h with h | h
    · exact Or.inl h
    · exact Or.inr (List.mem_singleton.mp h)

/-- On a name that begins with `pairec_`, replacing the first occurrence of
`pairec_` by nothing removes these seven leading characters. -/
theorem stripPairec_of_hasPrefix (p : String) (h : hasPairecPrefix p = true) :
    stripPairec p = String.mk (p.toList.drop 7) := by
  unfold stripPairec
  unfold hasPairecPrefix at h
  cases hp : p.toList with
  | nil => rw [hp] at h; exact absurd h (by decide)
  | cons c cs =>
    rw [hp] at h
    unfold replaceFirstChars
    rw [if_pos h]
    rfl


theorem appendConverted_cons_panic {A B : Type} (conv : A → Option (Option B)) (a : A)
    (rest : List A) (h : conv a = none) : appendConverted conv (a :: rest) = none := by
  unfold appendConverted
  rw [h]

theorem appendConverted_cons_skip {A B : Type} (conv : A → Option (Option B)) (a : A)
    (rest : List A) (h : conv a = some none) :
    appendConverted conv (a :: rest) = appendConverted conv rest := by
  conv_lhs => unfold appendConverted
  rw [h]

theorem appendConverted_cons_add {A B : Type} (conv : A → Option (Option B)) (a : A)
    (rest : List A) (b : B) (h : conv a = some (some b)) :
    appendConverted conv (a :: rest) = (appendConverted conv rest).map fun bs => b :: bs := by
  conv_lhs => unfold appendConverted
  rw [h]

theorem appendConverted_ne_none {A B : Type} (conv : A → Option (Option B)) (l : List A)
    (h : ∀ a ∈ l, conv a ≠ none) : appendConverted conv l ≠ none := by
  induction l with
  | nil => simp [appendConverted]
  | cons a rest ih =>
    have ih2 := ih (fun a ha => h a (List.mem_cons_of_mem _ ha))
    cases hc : conv a with
    | none => exact absurd hc (h a (List.mem_cons_self _ _))
    | some r =>
      cases r with
      | none =>
        rw [appendConverted_cons_skip conv a rest hc]
        exact ih2
      | some b =>
        rw [appendConverted_cons_add conv a rest b hc]
        simpa using ih2

theorem appendConverted_of_ne_none {A B : Type} (conv : A → Option (Option B)) (l : List A)
    (h : appendConverted conv l ≠ none) : ∀ a ∈ l, conv a ≠ none := by
  induction l with
  | nil => intro a ha; exact absurd ha (List.not_mem_nil _)
  | cons x rest ih =>
    cases hc : conv x with
    | none => exact absurd (appendConverted_cons_panic conv x rest hc) h
    | some r =>
      have hrest : appendConverted conv rest ≠ none := by
        cases r with
        | none =>
          rw [appendConverted_cons_skip conv x rest hc] at h
          exact h
        | some b =>
          rw [appendConverted_cons_add conv x rest b hc] at h
          simpa using h
      intro a ha
      rcases List.mem_cons.mp ha with rfl | ha
      · rw [hc]
        exact Option.some_ne_none _
      · exact ih hrest a ha

/-- A loop over entries that may be nil, every conversion of an entry that
is not nil giving a result related to it: the loop returns, and its results
match the entries that are not nil, one for one and in order. -/
theorem forall2_appendConverted {A B : Type} (conv : Option A → Option (Option B))
    (R : A → B → Prop) (l : List (Option A))
    (hnone : none ∈ l → conv none = some none)
    (h : ∀ a, some a ∈ l → ∃ b, conv (some a) = some (some b) ∧ R a b) :
    ∃ bs, appendConverted conv l = some bs ∧ List.Forall₂ R (l.filterMap id) bs := by
  induction l with
  | nil => exact ⟨[], rfl, List.Forall₂.nil⟩
  | cons x rest ih =>
    obtain ⟨bs, hbs, hR⟩ := ih (fun hn => hnone (List.mem_cons_of_mem _ hn))
      (fun a ha => h a (List.mem_cons_of_mem _ ha))
    cases x with
    | none =>
      refine ⟨bs, ?_, ?_⟩
      · rw [appendConverted_cons_skip conv none rest (hnone (List.mem_cons_self _ _))]
        exact hbs
      · rw [List.filterMap_cons_none (by rfl)]
        exact hR
    | some a =>
      obtain ⟨b, hb, hRab⟩ := h a (List.mem_cons_self _ _)
      refine ⟨b :: bs, ?_, ?_⟩
      · rw [appendConverted_cons_add conv (some a) rest b hb, hbs]
        rfl
      · rw [List.filterMap_cons_some (by rfl)]
        exact List.Forall₂.cons hRab hR

theorem experimentsPresent_layer (d : PaiDomain) (h : d.experimentsPresent = true)
    (l : PaiLayer) (hl : some l ∈ d.layers) : none ∉ l.experiments := by
  unfold PaiDomain.experimentsPresent at h
  rw [List.all_eq_true] at h
  have h1 := h (some l) hl
  simp only at h1
  rw [List.all_eq_true] at h1
  intro hn
  have h2 := h1 none hn
  simp at h2

theorem convertLayerExperiment_ne_none {V : Type} (L : Library V) (layerId roomId sceneId : Int)
    (e : PaiExperiment) : convertLayerExperiment L layerId roomId sceneId (some e) ≠ none := by
  unfold convertLayerExperiment
  cases convertExperimentToGroup L (some e) layerId roomId sceneId <;> simp

theorem convertLayerToPairecLayer_ne_none {V : Type} (L : Library V) (layer : Option PaiLayer)
    (roomId sceneId : Int) (h : ∀ l, layer = some l → none ∉ l.experiments) :
    convertLayerToPairecLayer L layer roomId sceneId ≠ none := by
  cases layer with
  | none => simp [convertLayerToPairecLayer]
  | some l =>
    have hg := appendConverted_ne_none (convertLayerExperiment L l.ExpLayerId roomId sceneId)
      l.experiments (by
        intro e he
        cases e with
        | none => exact absurd he (h l rfl)
        | some e => exact convertLayerExperiment_ne_none L _ _ _ e)
    unfold convertLayerToPairecLayer
    simpa using hg

theorem roomOfDomain_ne_none {V : Type} (L : Library V) (domain : PaiDomain) (sceneId : Int)
    (h : domain.experimentsPresent = true) : roomOfDomain L domain sceneId ≠ none := by
  have hl := appendConverted_ne_none
    (fun layer => convertLayerToPairecLayer L layer domain.ExpDomainId sceneId) domain.layers (by
      intro layer hlayer
      apply convertLayerToPairecLayer_ne_none
      intro l hl
      rw [hl] at hlayer
      exact experimentsPresent_layer domain h l hlayer)
  unfold roomOfDomain
  simpa using hl

theorem convertDomainToRoom_ne_none {V : Type} (L : Library V) (domain : Option PaiDomain)
    (sceneId : Int) (h : ∀ d, domain = some d → d.experimentsPresent = true) :
    convertDomainToRoom L domain sceneId ≠ none := by
  cases domain with
  | none => simp [convertDomainToRoom]
  | some d =>
    unfold convertDomainToRoom
    cases hr : roomOfDomain L d sceneId with
    | none => exact absurd hr (roomOfDomain_ne_none L d sceneId (h d rfl))
    | some room =>
      simp only [hr]
      cases L.roomInit room <;> simp

theorem sceneOfProject_ne_none {V : Type} (L : Library V) (project : PaiProject)
    (h : project.experimentsPresent = true) : sceneOfProject L project ≠ none := by
  unfold PaiProject.experimentsPresent at h
  rw [Bool.and_eq_true, List.all_eq_true] at h
  obtain ⟨hdef, hdom⟩ := h
  have hothers := appendConverted_ne_none
    (convertOtherDomain L project.defaultDomain project.ExpProjectId) project.domains (by
      intro domain hdomain
      unfold convertOtherDomain
      split_ifs
      · apply convertDomainToRoom_ne_none
        intro d hd
        have := hdom domain hdomain
        rw [hd] at this
        exact this
      · exact Option.some_ne_none _)
  obtain ⟨rooms, hrooms⟩ := Option.ne_none_iff_exists'.mp hothers
  unfold sceneOfProject
  cases hd : project.defaultDomain with
  | none =>
    rw [hd] at hrooms
    simp [hrooms]
  | some d =>
    rw [hd] at hdef hrooms
    have hc := convertDomainToRoom_ne_none L (some d) project.ExpProjectId (by
      intro d1 hd1
      rw [← Option.some.inj hd1]
      exact hdef)
    obtain ⟨r, hr⟩ := Option.ne_none_iff_exists'.mp hc
    simp [hr, hrooms]

theorem buildSceneMap_ne_none {V : Type} (L : Library V) (M : List (String × PaiProject))
    (acc : List (String × Scene))
    (h : ∀ pe ∈ M, hasPairecPrefix pe.1 = true → pe.2.experimentsPresent = true) :
    buildSceneMap L M acc ≠ none := by
  induction M generalizing acc with
  | nil => simp [buildSceneMap]
  | cons x rest ih =>
    obtain ⟨projectName, project⟩ := x
    have ih2 := fun acc => ih acc (fun pe hpe => h pe (List.mem_cons_of_mem _ hpe))
    unfold buildSceneMap
    by_cases hp : hasPairecPrefix projectName = true
    · have hn : (!hasPairecPrefix projectName) = false := by rw [hp]; rfl
      simp only [hn, Bool.false_eq_true, if_false]
      cases hs : sceneOfProject L project with
      | none =>
        exact absurd hs (sceneOfProject_ne_none L project (h _ (List.mem_cons_self _ _) hp))
      | some scene => exact ih2 _
    · have hn : (!hasPairecPrefix projectName) = true := by
        simp only [Bool.not_eq_true] at hp; rw [hp]; rfl
      simp only [hn, if_true]
      exact ih2 _

theorem buildSceneMap_keys {V : Type} (L : Library V) (M : List (String × PaiProject))
    (acc newMap : List (String × Scene)) (k : String)
    (h : buildSceneMap L M acc = some newMap) :
    k ∈ newMap.map Prod.fst ↔
      (k ∈ acc.map Prod.fst ∨
        ∃ p ∈ M.map Prod.fst, hasPairecPrefix p = true ∧ k = String.mk (p.toList.drop 7)) := by
  induction M generalizing acc with
  | nil =>
    unfold buildSceneMap at h
    rw [← Option.some.inj h]
    simp
  | cons x rest ih =>
    obtain ⟨projectName, project⟩ := x
    unfold buildSceneMap at h
    by_cases hp : hasPairecPrefix projectName = true
    · have hn : (!hasPairecPrefix projectName) = false := by rw [hp]; rfl
      simp only [hn, Bool.false_eq_true, if_false] at h
      cases hs : sceneOfProject L project with
      | none =>
        rw [hs] at h
        exact absurd h (by simp)
      | some scene =>
        rw [hs] at h
        simp only at h
        rw [ih _ h, mem_keys_mapSet, stripPairec_of_hasPrefix projectName hp]
        constructor
        · rintro ((h1 | h1) | ⟨p, hpm, hpp, hk⟩)
          · exact Or.inl h1
          · exact Or.inr ⟨projectName, by simp, hp, h1⟩
          · exact Or.inr ⟨p, by simp [hpm], hpp, hk⟩
        · rintro (h1 | ⟨p, hpm, hpp, hk⟩)
          · exact Or.inl (Or.inl h1)
          · simp only [List.map_cons, List.mem_cons] at hpm
            rcases hpm with rfl | hpm
            · exact Or.inl (Or.inr hk)
            · exact Or.inr ⟨p, hpm, hpp, hk⟩
    · have hn : (!hasPairecPrefix projectName) = true := by
        simp only [Bool.not_eq_true] at hp; rw [hp]; rfl
      simp only [hn, if_true] at h
      rw [ih _ h]
      constructor
      · rintro (h1 | ⟨p, hpm, hpp, hk⟩)
        · exact Or.inl h1
        · exact Or.inr ⟨p, by simp [hpm], hpp, hk⟩
      · rintro (h1 | ⟨p, hpm, hpp, hk⟩)
        · exact Or.inl h1
        · simp only [List.map_cons, List.mem_cons] at hpm
          rcases hpm with rfl | hpm
          · exact absurd hpp hp
          · exact Or.inr ⟨p, hpm, hpp, hk⟩

theorem buildSceneMap_entries {V : Type} (L : Library V) (M : List (String × PaiProject))
    (acc newMap : List (String × Scene)) (e : String × Scene)
    (h : buildSceneMap L M acc = some newMap) (he : e ∈ newMap) :
    e ∈ acc ∨ ∃ pe ∈ M, hasPairecPrefix pe.1 = true ∧ e.1 = String.mk (pe.1.toList.drop 7) ∧
      sceneOfProject L pe.2 = some e.2 := by
  induction M generalizing acc with
  | nil =>
    unfold buildSceneMap at h
    rw [Option.some.inj h]
    exact Or.inl he
  | cons x rest ih =>
    obtain ⟨projectName, project⟩ := x
    unfold buildSceneMap at h
    by_cases hp : hasPairecPrefix projectName = true
    · have hn : (!hasPairecPrefix projectName) = false := by rw [hp]; rfl
      simp only [hn, Bool.false_eq_true, if_false] at h
      cases hs : sceneOfProject L project with
      | none =>
        rw [hs] at h
        exact absurd h (by simp)
      | some scene =>
        rw [hs] at h
        simp only at h
        rcases ih _ h with h1 | ⟨pe, hpe, h2⟩
        · rcases mem_mapSet _ _ _ _ h1 with h3 | h3
          · exact Or.inl h3
          · refine Or.inr ⟨(projectName, project), List.mem_cons_self _ _, hp, ?_, ?_⟩
            · rw [h3, stripPairec_of_hasPrefix projectName hp]
            · rw [h3]
              exact hs
        · exact Or.inr ⟨pe, List.mem_cons_of_mem _ hpe, h2⟩
    · have hn : (!hasPairecPrefix projectName) = true := by
        simp only [Bool.not_eq_true] at hp; rw [hp]; rfl
      simp only [hn, if_true] at h
      rcases ih _ h with h1 | ⟨pe, hpe, h2⟩
      · exact Or.inl h1
      · exact Or.inr ⟨pe, List.mem_cons_of_mem _ hpe, h2⟩

/-- A refresh over a readable project map returns exactly when the loop over
the projects does, and then publishes the map the loop built, in a new
place of the heap. -/
theorem refresh_of_build {V : Type} (L : Library V) (c : PaiAbTestClient)
    (M : List (String × PaiProject)) (newMap : List (String × Scene))
    (hvalid : c.projectMapValid = true) (hM : c.projectMap = some M)
    (hb : buildSceneMap L M [] = some newMap) :
    ∃ c' a, changePaiABTestProjectToDefaultTestSceneMap L c = some c' ∧
      c'.SceneMap = some a ∧ c.heap.length ≤ a ∧ c'.heap.get? a = some newMap ∧
      (∀ i, i < c.heap.length → c'.heap.get? i = c.heap.get? i) ∧
      c'.sceneMapValue = some newMap := by
  unfold changePaiABTestProjectToDefaultTestSceneMap PaiAbTestClient.sceneMapValue
  have hv : (!c.projectMapValid) = false := by rw [hvalid]; rfl
  simp only [hv, Bool.false_eq_true, if_false]
  cases hs : c.SceneMap with
  | none =>
    simp only [hM, hb]
    refine ⟨_, (c.heap ++ [[]]).length, rfl, rfl, by simp, ?_, ?_, ?_⟩
    · simp only [List.get?_eq_getElem?]
      exact List.getElem?_concat_length _ _
    · intro i hi
      simp only [List.get?_eq_getElem?]
      rw [List.getElem?_append_left (by simp; omega), List.getElem?_append_left hi]
    · simp only [Option.some_bind, List.get?_eq_getElem?]
      exact List.getElem?_concat_length _ _
  | some a0 =>
    simp only [hM, hb]
    refine ⟨_, c.heap.length, rfl, rfl, le_refl _, ?_, ?_, ?_⟩
    · simp
    · intro i hi
      simp only [List.get?_eq_getElem?]
      rw [List.getElem?_append_left hi]
    · simp only [Option.some_bind, List.get?_eq_getElem?]
      exact List.getElem?_concat_length _ _

theorem refresh_of_panic {V : Type} (L : Library V) (c : PaiAbTestClient)
    (M : List (String × PaiProject))
    (hvalid : c.projectMapValid = true) (hM : c.projectMap = some M)
    (hb : buildSceneMap L M [] = none) :
    changePaiABTestProjectToDefaultTestSceneMap L c = none := by
  unfold changePaiABTestProjectToDefaultTestSceneMap
  have hv : (!c.projectMapValid) = false := by rw [hvalid]; rfl
  simp only [hv, Bool.false_eq_true, if_false]
  cases hs : c.SceneMap <;> simp only [hM, hb]

theorem build_of_refresh {V : Type} (L : Library V) (c c' : PaiAbTestClient)
    (M : List (String × PaiProject))
    (hvalid : c.projectMapValid = true) (hM : c.projectMap = some M)
    (hret : changePaiABTestProjectToDefaultTestSceneMap L c = some c') :
    ∃ newMap, buildSceneMap L M [] = some newMap := by
  cases hb : buildSceneMap L M [] with
  | none =>
    rw [refresh_of_panic L c M hvalid hM hb] at hret
    exact absurd hret (by simp)
  | some newMap => exact ⟨newMap, rfl⟩

theorem refresh_returns {V : Type} (L : Library V) (c : PaiAbTestClient)
    (M : List (String × PaiProject))
    (hvalid : c.projectMapValid = true) (hM : c.projectMap = some M)
    (h : ∀ pe ∈ M, hasPairecPrefix pe.1 = true → pe.2.experimentsPresent = true) :
    ∃ c', changePaiABTestProjectToDefaultTestSceneMap L c = some c' := by
  obtain ⟨newMap, hb⟩ := Option.ne_none_iff_exists'.mp (buildSceneMap_ne_none L M [] h)
  obtain ⟨c', _, hc, _⟩ := refresh_of_build L c M newMap hvalid hM hb
  exact ⟨c', hc⟩

/-- C10: a refresh by `changePaiABTestProjectToDefaultTestSceneMap` over a
non-nil project map `M` returns when no layer of an admitted project holds
a nil experiment, and after every refresh that returns the field `SceneMap`
points to a map allocated by this call; every map that existed before the
call is unchanged; the keys of the new map are exactly the keys of `M` that
begin with `pairec_`, with these seven leading characters removed; and
every entry of the new map is the scene built from a project of `M`, none
is taken from the previous map. -/
theorem refresh_publishes_fresh_scene_map {V : Type} (L : Library V) (c : PaiAbTestClient)
    (M : List (String × PaiProject))
    (hvalid : c.projectMapValid = true) (hM : c.projectMap = some M) :
    ((∀ pe ∈ M, hasPairecPrefix pe.1 = true → pe.2.experimentsPresent = true) →
      ∃ c', changePaiABTestProjectToDefaultTestSceneMap L c = some c') ∧
    ∀ c', changePaiABTestProjectToDefaultTestSceneMap L c = some c' →
      ∃ a newMap,
        c'.SceneMap = some a ∧
        c.heap.length ≤ a ∧
        c'.heap.get? a = some newMap ∧
        (∀ i, i < c.heap.length → c'.heap.get? i = c.heap.get? i) ∧
        (∀ k, k ∈ newMap.map Prod.fst ↔
          ∃ p ∈ M.map Prod.fst, hasPairecPrefix p = true ∧ k = String.mk (p.toList.drop 7)) ∧
        (∀ e ∈ newMap, ∃ pe ∈ M, hasPairecPrefix pe.1 = true ∧
          e.1 = String.mk (pe.1.toList.drop 7) ∧ sceneOfProject L pe.2 = some e.2) := by
  refine ⟨refresh_returns L c M hvalid hM, ?_⟩
  intro c' hret
  obtain ⟨newMap, hb⟩ := build_of_refresh L c c' M hvalid hM hret
  obtain ⟨c2, a, hc2, ha, hle, hget, hold, _⟩ := refresh_of_build L c M newMap hvalid hM hb
  rw [hret] at hc2
  rw [← Option.some.inj hc2] at ha hget hold
  refine ⟨a, newMap, ha, hle, hget, hold, ?_, ?_⟩
  · intro k
    rw [buildSceneMap_keys L M [] newMap k hb]
    simp
  · intro e he
    rcases buildSceneMap_entries L M [] newMap e hb he with h | h
    · exact absurd h (List.not_mem_nil _)
    · exact h

theorem refresh_publishes_fresh_scene_map_witness :
    (sampleClient.projectMapValid = true ∧
      sampleClient.projectMap =
        some [("pairec_home", mkProject 1 "pairec_home"), ("other", mkProject 2 "other")]) ∧
    ∃ c', changePaiABTestProjectToDefaultTestSceneMap miniJson sampleClient = some c' ∧
      ∃ a newMap,
        c'.SceneMap = some a ∧
        sampleClient.heap.length ≤ a ∧
        c'.heap.get? a = some newMap ∧
        (∀ i, i < sampleClient.heap.length → c'.heap.get? i = sampleClient.heap.get? i) ∧
        (∀ k, k ∈ newMap.map Prod.fst ↔
          ∃ p ∈ [("pairec_home", mkProject 1 "pairec_home"), ("other", mkProject 2 "other")].map
              Prod.fst,
            hasPairecPrefix p = true ∧ k = String.mk (p.toList.drop 7)) ∧
        (∀ e ∈ newMap,
          ∃ pe ∈ [("pairec_home", mkProject 1 "pairec_home"), ("other", mkProject 2 "other")],
            hasPairecPrefix pe.1 = true ∧
            e.1 = String.mk (pe.1.toList.drop 7) ∧ sceneOfProject miniJson pe.2 = some e.2) :=
  ⟨⟨rfl, rfl⟩,
    let ⟨c', hc⟩ := (refresh_publishes_fresh_scene_map miniJson sampleClient _ rfl rfl).1
      (by decide)
    ⟨c', hc, (refresh_publishes_fresh_scene_map miniJson sampleClient _ rfl rfl).2 c' hc⟩⟩

end Pai

/-! ## Scenes published by a refresh -/

namespace Pai

theorem toList_of_hasPrefix (p : String) (h : hasPairecPrefix p = true) :
    p.toList = "pairec_".toList ++ p.toList.drop 7 := by
  unfold hasPairecPrefix at h
  obtain ⟨t, ht⟩ := List.isPrefixOf_iff_prefix.mp h
  rw [← ht]
  have hlen : "pairec_".toList.length = 7 := by decide
  rw [List.drop_left' hlen]

theorem stripPairec_injective (a b : String) (ha : hasPairecPrefix a = true)
    (hb : hasPairecPrefix b = true) (h : stripPairec a = stripPairec b) : a = b := by
  rw [stripPairec_of_hasPrefix a ha, stripPairec_of_hasPrefix b hb] at h
  have hd : a.toList.drop 7 = b.toList.drop 7 := by
    have := congrArg String.toList h
    simpa using this
  apply String.ext
  show a.toList = b.toList
  rw [toList_of_hasPrefix a ha, toList_of_hasPrefix b hb, hd]

theorem lookup_of_mem_nodup {β : Type} (l : List (String × β)) (k : String) (v : β)
    (hnodup : (l.map Prod.fst).Nodup) (h : (k, v) ∈ l) : l.lookup k = some v := by
  induction l with
  | nil => exact absurd h (List.not_mem_nil _)
  | cons x rest ih =>
    rw [List.map_cons, List.nodup_cons] at hnodup
    rcases List.mem_cons.mp h with rfl | hr
    · simp [List.lookup]
    · have hne : k ≠ x.1 := by
        intro heq
        apply hnodup.1
        rw [← heq]
        exact List.mem_map_of_mem Prod.fst hr
      obtain ⟨x1, x2⟩ := x
      rw [List.lookup_cons]
      have : (k == x1) = false := by simpa using hne
      rw [this]
      exact ih hnodup.2 hr


theorem admitted_strip_nodup (M : List (String × PaiProject))
    (hnodup : (M.map Prod.fst).Nodup) :
    ((admitted M).map fun pe => stripPairec pe.1).Nodup := by
  have hsub : ((admitted M).map Prod.fst).Nodup :=
    hnodup.sublist (List.Sublist.map Prod.fst (List.filter_sublist M))
  have hnd : (admitted M).Nodup := List.Nodup.of_map Prod.fst hsub
  refine List.Nodup.map_on ?_ hnd
  intro a ha b hb hab
  have hpa : hasPairecPrefix a.1 = true := (List.mem_filter.mp ha).2
  have hpb : hasPairecPrefix b.1 = true := (List.mem_filter.mp hb).2
  have hk : a.1 = b.1 := stripPairec_injective a.1 b.1 hpa hpb hab
  exact List.inj_on_of_nodup_map hsub ha hb hk


theorem lookup_mapSet_self {β : Type} (m : List (String × β)) (key : String) (v : β) :
    (mapSet m key v).lookup key = some v := by
  unfold mapSet
  by_cases hany : m.any (fun kv => kv.1 == key) = true
  · rw [if_pos hany]
    induction m with
    | nil => simp at hany
    | cons x rest ih =>
      obtain ⟨k1, v1⟩ := x
      by_cases hk : (k1 == key) = true
      · simp only [List.map_cons]
        rw [if_pos hk, List.lookup_cons]
        simp
      · have hk2 : ¬ k1 = key := by simpa using hk
        have hk3 : ¬ key = k1 := fun h => hk2 h.symm
        have hrest : rest.any (fun kv => kv.1 == key) = true := by
          simpa [List.any_cons, hk2] using hany
        simp only [List.map_cons]
        rw [if_neg hk, List.lookup_cons]
        have : (key == k1) = false := by simpa using hk3
        rw [this]
        exact ih hrest
  · rw [if_neg hany]
    have hnot : m.lookup key = none := by
      rw [List.lookup_eq_none_iff]
      intro kv hkv
      simp only [bne_iff_ne, ne_eq]
      intro heq
      apply hany
      rw [List.any_eq_true]
      exact ⟨kv, hkv, by simp [heq]⟩
    rw [List.lookup_append, hnot]
    simp [List.lookup]

theorem lookup_mapSet_ne {β : Type} (m : List (String × β)) (key : String) (v : β)
    (k : String) (hk : k ≠ key) : (mapSet m key v).lookup k = m.lookup k := by
  unfold mapSet
  by_cases hany : m.any (fun kv => kv.1 == key) = true
  · rw [if_pos hany]
    clear hany
    induction m with
    | nil => rfl
    | cons x rest ih =>
      obtain ⟨k1, v1⟩ := x
      simp only [List.map_cons]
      by_cases hk1 : (k1 == key) = true
      · have hk2 : k1 = key := by simpa using hk1
        rw [if_pos hk1, List.lookup_cons, List.lookup_cons]
        have h1 : (k == key) = false := by simpa using hk
        have h2 : (k == k1) = false := by rw [hk2]; exact h1
        rw [h1, h2]
        exact ih
      · rw [if_neg hk1, List.lookup_cons, List.lookup_cons, ih]
  · rw [if_neg hany, List.lookup_append]
    have h1 : (k == key) = false := by simpa using hk
    simp [List.lookup, h1]

theorem buildSceneMap_lookup_acc {V : Type} (L : Library V) (M : List (String × PaiProject))
    (acc newMap : List (String × Scene)) (k : String)
    (h : buildSceneMap L M acc = some newMap)
    (hk : k ∉ (admitted M).map fun pe => stripPairec pe.1) :
    newMap.lookup k = acc.lookup k := by
  induction M generalizing acc with
  | nil =>
    unfold buildSceneMap at h
    rw [Option.some.inj h]
  | cons x rest ih =>
    obtain ⟨projectName, project⟩ := x
    unfold buildSceneMap at h
    by_cases hp : hasPairecPrefix projectName = true
    · have hn : (!hasPairecPrefix projectName) = false := by rw [hp]; rfl
      have hadm : admitted ((projectName, project) :: rest) =
          (projectName, project) :: admitted rest := by
        simp [admitted, List.filter_cons, hp]
      rw [hadm, List.map_cons, List.mem_cons, not_or] at hk
      simp only [hn, Bool.false_eq_true, if_false] at h
      cases hs : sceneOfProject L project with
      | none =>
        rw [hs] at h
        exact absurd h (by simp)
      | some scene =>
        rw [hs] at h
        simp only at h
        rw [ih _ h hk.2, lookup_mapSet_ne _ _ _ _ hk.1]
    · have hn : (!hasPairecPrefix projectName) = true := by
        simp only [Bool.not_eq_true] at hp; rw [hp]; rfl
      have hadm : admitted ((projectName, project) :: rest) = admitted rest := by
        simp [admitted, List.filter_cons, hp]
      rw [hadm] at hk
      simp only [hn, if_true] at h
      exact ih _ h hk

theorem buildSceneMap_lookup {V : Type} (L : Library V) (M : List (String × PaiProject))
    (acc newMap : List (String × Scene)) (projectName : String) (project : PaiProject)
    (h : buildSceneMap L M acc = some newMap)
    (hnd : ((admitted M).map fun pe => stripPairec pe.1).Nodup)
    (hmem : (projectName, project) ∈ M) (hadm : hasPairecPrefix projectName = true) :
    ∃ scene, sceneOfProject L project = some scene ∧
      newMap.lookup (stripPairec projectName) = some scene := by
  induction M generalizing acc with
  | nil => exact absurd hmem (List.not_mem_nil _)
  | cons x rest ih =>
    obtain ⟨pn, pr⟩ := x
    unfold buildSceneMap at h
    by_cases hp : hasPairecPrefix pn = true
    · have hn : (!hasPairecPrefix pn) = false := by rw [hp]; rfl
      have hadm2 : admitted ((pn, pr) :: rest) = (pn, pr) :: admitted rest := by
        simp [admitted, List.filter_cons, hp]
      rw [hadm2, List.map_cons, List.nodup_cons] at hnd
      simp only [hn, Bool.false_eq_true, if_false] at h
      cases hs : sceneOfProject L pr with
      | none =>
        rw [hs] at h
        exact absurd h (by simp)
      | some scene =>
        rw [hs] at h
        simp only at h
        rcases List.mem_cons.mp hmem with heq | hrest
        · have h1 : projectName = pn := congrArg Prod.fst heq
          have h2 : project = pr := congrArg Prod.snd heq
          refine ⟨scene, by rw [h2]; exact hs, ?_⟩
          rw [h1, buildSceneMap_lookup_acc L rest _ newMap _ h hnd.1, lookup_mapSet_self]
        · exact ih _ h hnd.2 hrest
    · have hn : (!hasPairecPrefix pn) = true := by
        simp only [Bool.not_eq_true] at hp; rw [hp]; rfl
      have hadm2 : admitted ((pn, pr) :: rest) = admitted rest := by
        simp [admitted, List.filter_cons, hp]
      rw [hadm2] at hnd
      simp only [hn, if_true] at h
      rcases List.mem_cons.mp hmem with heq | hrest
      · have h1 : projectName = pn := congrArg Prod.fst heq
        rw [h1] at hadm
        exact absurd hadm hp
      · exact ih _ h hnd hrest

theorem sceneOfProject_name_id {V : Type} (L : Library V) (project : PaiProject) (scene : Scene)
    (h : sceneOfProject L project = some scene) :
    scene.SceneName = stripPairec project.ProjectName ∧ scene.SceneId = project.ExpProjectId ∧
      scene.SceneInfo = project.ProjectInfo := by
  unfold sceneOfProject at h
  simp only [Option.bind_eq_some, Option.map_eq_some'] at h
  obtain ⟨rooms0, _, rooms, _, hscene⟩ := h
  rw [← hscene]
  exact ⟨rfl, rfl, rfl⟩

/-- C11 (amended): a refresh over a non-nil project map with distinct keys
returns when no layer of an admitted project holds a nil experiment, and
after every refresh that returns, for every admitted project (its key in
the project map begins with `pairec_`), the published scene map holds, under
that key with the leading `pairec_` removed, a scene whose `SceneId` is the
project's id; its `SceneName` is the project's `ProjectName` with the
leading `pairec_` removed when `ProjectName` begins with `pairec_`, and it
is the key under which the scene is stored when the project is stored under
its own `ProjectName`. -/
theorem refresh_scene_name_and_id {V : Type} (L : Library V) (c : PaiAbTestClient)
    (M : List (String × PaiProject)) (projectName : String) (project : PaiProject)
    (hvalid : c.projectMapValid = true) (hM : c.projectMap = some M)
    (hnodup : (M.map Prod.fst).Nodup)
    (hmem : (projectName, project) ∈ M)
    (hadm : hasPairecPrefix projectName = true) :
    ((∀ pe ∈ M, hasPairecPrefix pe.1 = true → pe.2.experimentsPresent = true) →
      ∃ c', changePaiABTestProjectToDefaultTestSceneMap L c = some c') ∧
    ∀ c', changePaiABTestProjectToDefaultTestSceneMap L c = some c' →
      ∃ newMap scene,
        c'.sceneMapValue = some newMap ∧
        newMap.lookup (String.mk (projectName.toList.drop 7)) = some scene ∧
        scene.SceneId = project.ExpProjectId ∧
        (hasPairecPrefix project.ProjectName = true →
          scene.SceneName = String.mk (project.ProjectName.toList.drop 7)) ∧
        (project.ProjectName = projectName →
          scene.SceneName = String.mk (projectName.toList.drop 7)) := by
  refine ⟨refresh_returns L c M hvalid hM, ?_⟩
  intro c' hret
  obtain ⟨newMap, hb⟩ := build_of_refresh L c c' M hvalid hM hret
  obtain ⟨c2, a, hc2, _, _, _, _, hval⟩ := refresh_of_build L c M newMap hvalid hM hb
  rw [hret] at hc2
  rw [← Option.some.inj hc2] at hval
  obtain ⟨scene, hscene, hlook⟩ := buildSceneMap_lookup L M [] newMap projectName project hb
    (admitted_strip_nodup M hnodup) hmem hadm
  obtain ⟨hname, hid, _⟩ := sceneOfProject_name_id L project scene hscene
  refine ⟨newMap, scene, hval, ?_, hid, ?_, ?_⟩
  · rw [← stripPairec_of_hasPrefix projectName hadm]
    exact hlook
  · intro hpre
    rw [hname, stripPairec_of_hasPrefix _ hpre]
  · intro heq
    rw [hname, heq, stripPairec_of_hasPrefix projectName hadm]

theorem refresh_scene_name_and_id_witness :
    (sampleClient.projectMapValid = true ∧
      sampleClient.projectMap =
        some [("pairec_home", mkProject 1 "pairec_home"), ("other", mkProject 2 "other")] ∧
      ([("pairec_home", mkProject 1 "pairec_home"), ("other", mkProject 2 "other")].map
        Prod.fst).Nodup ∧
      ("pairec_home", mkProject 1 "pairec_home") ∈
        [("pairec_home", mkProject 1 "pairec_home"), ("other", mkProject 2 "other")] ∧
      hasPairecPrefix "pairec_home" = true) ∧
    ∃ c', changePaiABTestProjectToDefaultTestSceneMap miniJson sampleClient = some c' ∧
      ∃ newMap scene,
        c'.sceneMapValue = some newMap ∧
        newMap.lookup "home" = some scene ∧
        scene.SceneId = 1 ∧ scene.SceneName = "home" :=
  ⟨⟨rfl, rfl, by decide, by decide, by decide⟩,
    let ⟨c', hc⟩ := (refresh_scene_name_and_id miniJson sampleClient _ "pairec_home"
      (mkProject 1 "pairec_home") rfl rfl (by decide) (by decide) (by decide)).1 (by decide)
    let ⟨newMap, scene, h1, h2, h3, _, h5⟩ :=
      (refresh_scene_name_and_id miniJson sampleClient _ "pairec_home"
        (mkProject 1 "pairec_home") rfl rfl (by decide) (by decide) (by decide)).2 c' hc
    ⟨c', hc, newMap, scene, h1, h2, h3, h5 rfl⟩⟩

/-- C11 (counterexample): the project stored under the key `pairec_a` has
the `ProjectName` `x_pairec_b`; it is admitted, and the refresh publishes
its scene under the key `a` with the `SceneName` `x_b`, which is neither
that key nor the project's name with a leading `pairec_` removed. -/
theorem refresh_scene_name_differs_from_key :
    hasPairecPrefix "pairec_a" = true ∧
    (changePaiABTestProjectToDefaultTestSceneMap miniJson renamedClient).bind
        PaiAbTestClient.sceneMapValue = some [("a", ⟨1, "x_b", "", []⟩)] ∧
    "x_b" ≠ "a" := by
  decide

end Pai

/-! ## Conversion of a domain -/

namespace Pai

/-- C12: for a non-nil domain whose room is built (no conversion of a layer
panics) and initialises without error, `convertDomainToRoom` returns a room
with `ExpRoomId` the domain id, `SceneId` the given scene id, name and info
copied, `BucketCount = 100`, `Type = 1`, `Status = 1`, `Environment = 1`,
and `ExpRoomBuckets`, `Filter` and `DebugUsers` equal to the domain's
`Buckets`, `Filter` and `DebugUsers`. -/
theorem convertDomainToRoom_fields {V : Type} (L : Library V) (domain : PaiDomain)
    (sceneId : Int) (room0 : ExperimentRoom)
    (hroom : roomOfDomain L domain sceneId = some room0)
    (hinit : L.roomInit room0 = none) :
    ∃ room, convertDomainToRoom L (some domain) sceneId = some (some room) ∧
      room.ExpRoomId = domain.ExpDomainId ∧ room.SceneId = sceneId ∧
      room.ExpRoomName = domain.ExpDomainName ∧ room.ExpRoomInfo = domain.ExpDomainInfo ∧
      room.BucketCount = 100 ∧ room.Typ = 1 ∧ room.Status = 1 ∧ room.Environment = 1 ∧
      room.ExpRoomBuckets = domain.Buckets ∧ room.Filter = domain.Filter ∧
      room.DebugUsers = domain.DebugUsers := by
  have hconv : convertDomainToRoom L (some domain) sceneId = some (some room0) := by
    unfold convertDomainToRoom
    simp only [hroom, hinit]
  unfold roomOfDomain at hroom
  simp only [Option.map_eq_some'] at hroom
  obtain ⟨layers, _, hr⟩ := hroom
  refine ⟨room0, hconv, ?_⟩
  rw [← hr]
  exact ⟨rfl, rfl, rfl, rfl, rfl, rfl, rfl, rfl, rfl, rfl, rfl⟩

theorem forall2_filterMap {A B : Type} (conv : Option A → Option B) (R : A → B → Prop)
    (l : List (Option A)) (hnone : conv none = none)
    (h : ∀ a, some a ∈ l → ∃ b, conv (some a) = some b ∧ R a b) :
    List.Forall₂ R (l.filterMap id) (l.filterMap conv) := by
  induction l with
  | nil => exact List.Forall₂.nil
  | cons x rest ih =>
    have ih2 := ih (fun a ha => h a (List.mem_cons_of_mem _ ha))
    cases x with
    | none =>
      rw [List.filterMap_cons_none (by rfl), List.filterMap_cons_none hnone]
      exact ih2
    | some a =>
      obtain ⟨b, hb, hR⟩ := h a (List.mem_cons_self _ _)
      rw [List.filterMap_cons_some (by rfl), List.filterMap_cons_some hb]
      exact List.Forall₂.cons hR ih2


/-- C13: for a non-nil domain none of whose layers holds a nil experiment,
and whose room, experiment groups and experiments all initialise without
error, `convertDomainToRoom` returns a room whose layers match the non-nil
layers of the domain one for one and in order, each layer's experiment
groups match the layer's experiments, and each group's experiments match
the experiment's non-nil versions; every child carries its own id and the
ids of its ancestors. -/
theorem convertDomainToRoom_shape {V : Type} (L : Library V) (domain : PaiDomain)
    (sceneId : Int)
    (hpresent : ∀ l, some l ∈ domain.layers → none ∉ l.experiments)
    (hroom : ∀ room0, roomOfDomain L domain sceneId = some room0 → L.roomInit room0 = none)
    (hgroup : ∀ l, some l ∈ domain.layers → ∀ e, some e ∈ l.experiments →
      L.groupInit (groupOfExperiment L e l.ExpLayerId domain.ExpDomainId sceneId) = none)
    (hexp : ∀ l, some l ∈ domain.layers → ∀ e, some e ∈ l.experiments →
      ∀ v, some v ∈ e.experimentVersions →
      L.experimentInit
        (experimentOfVersion L v e.ExpId l.ExpLayerId domain.ExpDomainId sceneId) = none) :
    ∃ room, convertDomainToRoom L (some domain) sceneId = some (some room) ∧
      room.ExpRoomId = domain.ExpDomainId ∧ room.SceneId = sceneId ∧
      List.Forall₂
        (fun (l : PaiLayer) (layer : Layer) =>
          layer.LayerId = l.ExpLayerId ∧ layer.ExpRoomId = domain.ExpDomainId ∧
          layer.SceneId = sceneId ∧
          List.Forall₂
            (fun (e : PaiExperiment) (g : ExperimentGroup) =>
              g.ExpGroupId = e.ExpId ∧ g.LayerId = l.ExpLayerId ∧
              g.ExpRoomId = domain.ExpDomainId ∧ g.SceneId = sceneId ∧
              List.Forall₂
                (fun (v : PaiExperimentVersion) (x : Experiment) =>
                  x.ExperimentId = v.ExpVersionId ∧ x.ExpGroupId = e.ExpId ∧
                  x.LayerId = l.ExpLayerId ∧ x.ExpRoomId = domain.ExpDomainId ∧
                  x.SceneId = sceneId)
                (e.experimentVersions.filterMap id) g.Experiments)
            (l.experiments.filterMap id) layer.ExperimentGroups)
        (domain.layers.filterMap id) room.Layers := by
  obtain ⟨layers, hlayers, hF⟩ := forall2_appendConverted
    (fun layer => convertLayerToPairecLayer L layer domain.ExpDomainId sceneId)
    (fun (l : PaiLayer) (layer : Layer) =>
      layer.LayerId = l.ExpLayerId ∧ layer.ExpRoomId = domain.ExpDomainId ∧
      layer.SceneId = sceneId ∧
      List.Forall₂
        (fun (e : PaiExperiment) (g : ExperimentGroup) =>
          g.ExpGroupId = e.ExpId ∧ g.LayerId = l.ExpLayerId ∧
          g.ExpRoomId = domain.ExpDomainId ∧ g.SceneId = sceneId ∧
          List.Forall₂
            (fun (v : PaiExperimentVersion) (x : Experiment) =>
              x.ExperimentId = v.ExpVersionId ∧ x.ExpGroupId = e.ExpId ∧
              x.LayerId = l.ExpLayerId ∧ x.ExpRoomId = domain.ExpDomainId ∧
              x.SceneId = sceneId)
            (e.experimentVersions.filterMap id) g.Experiments)
        (l.experiments.filterMap id) layer.ExperimentGroups)
    domain.layers (fun _ => rfl) (by
      intro l hl
      obtain ⟨groups, hgroups, hG⟩ := forall2_appendConverted
        (convertLayerExperiment L l.ExpLayerId domain.ExpDomainId sceneId)
        (fun (e : PaiExperiment) (g : ExperimentGroup) =>
          g.ExpGroupId = e.ExpId ∧ g.LayerId = l.ExpLayerId ∧
          g.ExpRoomId = domain.ExpDomainId ∧ g.SceneId = sceneId ∧
          List.Forall₂
            (fun (v : PaiExperimentVersion) (x : Experiment) =>
              x.ExperimentId = v.ExpVersionId ∧ x.ExpGroupId = e.ExpId ∧
              x.LayerId = l.ExpLayerId ∧ x.ExpRoomId = domain.ExpDomainId ∧
              x.SceneId = sceneId)
            (e.experimentVersions.filterMap id) g.Experiments)
        l.experiments (fun hn => absurd hn (hpresent l hl)) (by
          intro e he
          refine ⟨groupOfExperiment L e l.ExpLayerId domain.ExpDomainId sceneId, ?_, rfl, rfl,
            rfl, rfl, ?_⟩
          · unfold convertLayerExperiment convertExperimentToGroup
            simp only [hgroup l hl e he]
          · show List.Forall₂ _ _ (e.experimentVersions.filterMap fun expVersion =>
              convertExperimentVersionToPairecExperiment L expVersion e.ExpId l.ExpLayerId
                domain.ExpDomainId sceneId)
            apply forall2_filterMap _ _ _ rfl
            intro v hv
            refine ⟨experimentOfVersion L v e.ExpId l.ExpLayerId domain.ExpDomainId sceneId, ?_,
              rfl, rfl, rfl, rfl, rfl⟩
            unfold convertExperimentVersionToPairecExperiment
            simp only [hexp l hl e he v hv])
      refine ⟨{ LayerId := l.ExpLayerId, ExpRoomId := domain.ExpDomainId, SceneId := sceneId,
                LayerName := l.LayerName, LayerInfo := l.LayerInfo,
                ExperimentGroups := groups }, ?_, rfl, rfl, rfl, hG⟩
      unfold convertLayerToPairecLayer
      simp only [hgroups, Option.map_some'])
  have hr : roomOfDomain L domain sceneId = some
      { ExpRoomId := domain.ExpDomainId, SceneId := sceneId,
        ExpRoomName := domain.ExpDomainName, ExpRoomInfo := domain.ExpDomainInfo,
        DebugUsers := domain.DebugUsers, BucketCount := 100, ExpRoomBuckets := domain.Buckets,
        BucketType := toUint32 domain.BucketType, Filter := domain.Filter, Environment := 1,
        Typ := 1, Status := 1, Layers := layers } := by
    unfold roomOfDomain
    simp only [hlayers, Option.map_some']
  refine ⟨{ ExpRoomId := domain.ExpDomainId, SceneId := sceneId,
            ExpRoomName := domain.ExpDomainName, ExpRoomInfo := domain.ExpDomainInfo,
            DebugUsers := domain.DebugUsers, BucketCount := 100,
            ExpRoomBuckets := domain.Buckets, BucketType := toUint32 domain.BucketType,
            Filter := domain.Filter, Environment := 1, Typ := 1, Status := 1,
            Layers := layers }, ?_, rfl, rfl, hF⟩
  unfold convertDomainToRoom
  simp only [hr, hroom _ hr]

theorem convertDomainToRoom_fields_witness :
    ∃ room0, roomOfDomain miniJson sampleDomain 5 = some room0 ∧
      miniJson.roomInit room0 = none ∧
      ∃ room, convertDomainToRoom miniJson (some sampleDomain) 5 = some (some room) ∧
        room.ExpRoomId = sampleDomain.ExpDomainId ∧ room.SceneId = 5 ∧
        room.ExpRoomName = sampleDomain.ExpDomainName ∧
        room.ExpRoomInfo = sampleDomain.ExpDomainInfo ∧
        room.BucketCount = 100 ∧ room.Typ = 1 ∧ room.Status = 1 ∧ room.Environment = 1 ∧
        room.ExpRoomBuckets = sampleDomain.Buckets ∧ room.Filter = sampleDomain.Filter ∧
        room.DebugUsers = sampleDomain.DebugUsers :=
  let ⟨room0, h⟩ := Option.ne_none_iff_exists'.mp
    (roomOfDomain_ne_none miniJson sampleDomain 5 (by decide))
  ⟨room0, h, rfl, convertDomainToRoom_fields miniJson sampleDomain 5 room0 h rfl⟩

theorem convertDomainToRoom_shape_witness :
    ((∀ l, some l ∈ sampleDomain.layers → none ∉ l.experiments) ∧
      (∀ room0, roomOfDomain miniJson sampleDomain 5 = some room0 →
        miniJson.roomInit room0 = none) ∧
      (∀ l, some l ∈ sampleDomain.layers → ∀ e, some e ∈ l.experiments →
        miniJson.groupInit
          (groupOfExperiment miniJson e l.ExpLayerId sampleDomain.ExpDomainId 5) = none) ∧
      (∀ l, some l ∈ sampleDomain.layers → ∀ e, some e ∈ l.experiments →
        ∀ v, some v ∈ e.experimentVersions →
        miniJson.experimentInit
          (experimentOfVersion miniJson v e.ExpId l.ExpLayerId sampleDomain.ExpDomainId 5) =
          none)) ∧
    ∃ room, convertDomainToRoom miniJson (some sampleDomain) 5 = some (some room) ∧
      room.ExpRoomId = sampleDomain.ExpDomainId ∧ room.SceneId = 5 ∧
      List.Forall₂
        (fun (l : PaiLayer) (layer : Layer) =>
          layer.LayerId = l.ExpLayerId ∧ layer.ExpRoomId = sampleDomain.ExpDomainId ∧
          layer.SceneId = 5 ∧
          List.Forall₂
            (fun (e : PaiExperiment) (g : ExperimentGroup) =>
              g.ExpGroupId = e.ExpId ∧ g.LayerId = l.ExpLayerId ∧
              g.ExpRoomId = sampleDomain.ExpDomainId ∧ g.SceneId = 5 ∧
              List.Forall₂
                (fun (v : PaiExperimentVersion) (x : Experiment) =>
                  x.ExperimentId = v.ExpVersionId ∧ x.ExpGroupId = e.ExpId ∧
                  x.LayerId = l.ExpLayerId ∧ x.ExpRoomId = sampleDomain.ExpDomainId ∧
                  x.SceneId = 5)
                (e.experimentVersions.filterMap id) g.Experiments)
            (l.experiments.filterMap id) layer.ExperimentGroups)
        (sampleDomain.layers.filterMap id) room.Layers :=
  ⟨⟨experimentsPresent_layer sampleDomain (by decide), fun _ _ => rfl, fun _ _ _ _ => rfl,
      fun _ _ _ _ _ _ => rfl⟩,
    convertDomainToRoom_shape miniJson sampleDomain 5
      (experimentsPresent_layer sampleDomain (by decide)) (fun _ _ => rfl)
      (fun _ _ _ _ => rfl) (fun _ _ _ _ _ _ => rfl)⟩

/-- A nil experiment in a layer of a domain makes the conversion of the
domain panic, whatever the `Init` methods return. -/
theorem convertDomainToRoom_nil_experiment {V : Type} (L : Library V) (domain : PaiDomain)
    (sceneId : Int) (l : PaiLayer) (hl : some l ∈ domain.layers) (hn : none ∈ l.experiments) :
    convertDomainToRoom L (some domain) sceneId = none := by
  have hexp : appendConverted (convertLayerExperiment L l.ExpLayerId domain.ExpDomainId sceneId)
      l.experiments = none := by
    by_contra h
    exact appendConverted_of_ne_none _ _ h none hn rfl
  have hlayer : convertLayerToPairecLayer L (some l) domain.ExpDomainId sceneId = none := by
    unfold convertLayerToPairecLayer
    simp only [hexp, Option.map_none']
  have hlayers : appendConverted
      (fun layer => convertLayerToPairecLayer L layer domain.ExpDomainId sceneId)
      domain.layers = none := by
    by_contra h
    exact appendConverted_of_ne_none _ _ h (some l) hl hlayer
  unfold convertDomainToRoom roomOfDomain
  simp only [hlayers, Option.map_none']

/-- A nil experiment in a layer makes the conversion of the layer panic,
and with it the conversion of the domain and the whole refresh: nothing is
published. -/
theorem refresh_panics_on_nil_experiment :
    convertDomainToRoom miniJson (some nilExperimentDomain) 1 = none ∧
    changePaiABTestProjectToDefaultTestSceneMap miniJson nilExperimentClient = none := by
  decide

/-- C14 (amended): when reflection does not find the project map, or the
project map is nil and `SceneMap` is not, the call returns and changes
nothing; when the project map is nil and `SceneMap` is nil, `SceneMap`
becomes an empty map; and over a non-nil project map in which no layer of
an admitted project holds a nil experiment the call returns and publishes a
newly allocated map whose keys are exactly the admitted keys with `pairec_`
removed, whatever the `Init` methods of the rooms, experiment groups and
experiments return: an error of `Init` does not abort the publish. -/
theorem refresh_error_handling {V : Type} (L : Library V) (c : PaiAbTestClient) :
    (c.projectMapValid = false →
      changePaiABTestProjectToDefaultTestSceneMap L c = some c) ∧
    (c.projectMapValid = true → c.projectMap = none → c.SceneMap ≠ none →
      changePaiABTestProjectToDefaultTestSceneMap L c = some c) ∧
    (c.projectMapValid = true → c.projectMap = none → c.SceneMap = none →
      ∃ c', changePaiABTestProjectToDefaultTestSceneMap L c = some c' ∧
        c'.sceneMapValue = some []) ∧
    (∀ M, c.projectMapValid = true → c.projectMap = some M →
      (∀ pe ∈ M, hasPairecPrefix pe.1 = true → pe.2.experimentsPresent = true) →
      ∃ c' a newMap, changePaiABTestProjectToDefaultTestSceneMap L c = some c' ∧
        c'.SceneMap = some a ∧ c.heap.length ≤ a ∧ c'.heap.get? a = some newMap ∧
        (∀ i, i < c.heap.length → c'.heap.get? i = c.heap.get? i) ∧
        (∀ k, k ∈ newMap.map Prod.fst ↔
          ∃ p ∈ M.map Prod.fst, hasPairecPrefix p = true ∧
            k = String.mk (p.toList.drop 7))) := by
  refine ⟨?_, ?_, ?_, ?_⟩
  · intro h
    unfold changePaiABTestProjectToDefaultTestSceneMap
    simp [h]
  · intro h hM hs
    unfold changePaiABTestProjectToDefaultTestSceneMap
    cases hsm : c.SceneMap with
    | none => exact absurd hsm hs
    | some a => simp [h, hM]
  · intro h hM hs
    unfold changePaiABTestProjectToDefaultTestSceneMap PaiAbTestClient.sceneMapValue
    simp [h, hM, hs]
  · intro M h hM hpresent
    obtain ⟨newMap, hb⟩ := Option.ne_none_iff_exists'.mp (buildSceneMap_ne_none L M [] hpresent)
    obtain ⟨c', a, hc, ha, hle, hget, hold, _⟩ := refresh_of_build L c M newMap h hM hb
    refine ⟨c', a, newMap, hc, ha, hle, hget, hold, ?_⟩
    intro k
    rw [buildSceneMap_keys L M [] newMap k hb]
    simp

theorem refresh_error_handling_witness :
    ∃ c' a newMap,
      changePaiABTestProjectToDefaultTestSceneMap failingRoomLibrary domainClient = some c' ∧
      c'.SceneMap = some a ∧ domainClient.heap.length ≤ a ∧ c'.heap.get? a = some newMap ∧
      (∀ i, i < domainClient.heap.length → c'.heap.get? i = domainClient.heap.get? i) ∧
      (∀ k, k ∈ newMap.map Prod.fst ↔
        ∃ p ∈ [("pairec_home", (⟨1, "pairec_home", "", some sampleDomain, []⟩ : PaiProject))].map
            Prod.fst,
          hasPairecPrefix p = true ∧ k = String.mk (p.toList.drop 7)) :=
  (refresh_error_handling failingRoomLibrary domainClient).2.2.2 _ rfl rfl (by decide)

/-- C14 (counterexample): the room of the default domain of `pairec_home`
fails to initialise; the refresh still publishes a new scene map, holding
the scene `home` without rooms, in place of the previous one. -/
theorem refresh_publishes_despite_failed_room :
    convertDomainToRoom failingRoomLibrary (some sampleDomain) 1 = some none ∧
    domainClient.sceneMapValue = some [("old", ⟨7, "old", "", []⟩)] ∧
    (changePaiABTestProjectToDefaultTestSceneMap failingRoomLibrary domainClient).bind
        PaiAbTestClient.sceneMapValue = some [("home", ⟨1, "home", "", []⟩)] ∧
    (changePaiABTestProjectToDefaultTestSceneMap failingRoomLibrary domainClient).map
        PaiAbTestClient.SceneMap ≠ some domainClient.SceneMap ∧
    (changePaiABTestProjectToDefaultTestSceneMap failingRoomLibrary domainClient).bind
        PaiAbTestClient.sceneMapValue ≠ domainClient.sceneMapValue := by
  decide!

end Pai

/-! ## `hashString` -/

namespace Pai

theorem bytes_or_eq_add (b0 b1 b2 b3 : Nat) (h1 : b1 < 256) (h2 : b2 < 256) (h3 : b3 < 256) :
    (b0 <<< 24) ||| (b1 <<< 16) ||| (b2 <<< 8) ||| b3 =
      b0 * 16777216 + b1 * 65536 + b2 * 256 + b3 := by
  simp only [Nat.shiftLeft_eq]
  have e1 : b0 * 2 ^ 24 ||| b1 * 2 ^ 16 = 2 ^ 16 * (b0 * 2 ^ 8) + b1 * 2 ^ 16 := by
    have h := Nat.mul_add_lt_is_or (i := 24) (b := b1 * 2 ^ 16) (by omega) b0
    rw [Nat.mul_comm (2 ^ 24) b0] at h
    rw [← h]; ring
  have e2 : (2 ^ 16 * (b0 * 2 ^ 8) + b1 * 2 ^ 16) ||| b2 * 2 ^ 8 =
      2 ^ 16 * (b0 * 2 ^ 8 + b1) + b2 * 2 ^ 8 := by
    have h := Nat.mul_add_lt_is_or (i := 16) (b := b2 * 2 ^ 8) (by omega) (b0 * 2 ^ 8 + b1)
    rw [show 2 ^ 16 * (b0 * 2 ^ 8) + b1 * 2 ^ 16 = 2 ^ 16 * (b0 * 2 ^ 8 + b1) by ring, ← h]
  have e3 : (2 ^ 16 * (b0 * 2 ^ 8 + b1) + b2 * 2 ^ 8) ||| b3 =
      2 ^ 8 * (2 ^ 8 * (b0 * 2 ^ 8 + b1) + b2) + b3 := by
    have h := Nat.mul_add_lt_is_or (i := 8) (b := b3) (by omega) (2 ^ 8 * (b0 * 2 ^ 8 + b1) + b2)
    rw [show 2 ^ 16 * (b0 * 2 ^ 8 + b1) + b2 * 2 ^ 8 =
      2 ^ 8 * (2 ^ 8 * (b0 * 2 ^ 8 + b1) + b2) by ring, ← h]
  rw [e1, e2, e3]; ring

/-- C17: for every user id and group id the bucket
`hashString(uid + "_" + decimal(groupId)) % 100` lies in `[0, 100)`, and
`hashString` is the big-endian unsigned 32-bit value of the first four
bytes of the SHA-1 digest, whatever the digest is. -/
theorem bucketOf_lt_100 (sha1 : String → List (Fin 256)) (uid : String) (groupId : Int) :
    0 ≤ bucketOf sha1 uid groupId ∧ bucketOf sha1 uid groupId < 100 ∧
    bucketOf sha1 uid groupId =
      hashString sha1 (uid ++ "_" ++ toString groupId) % 100 ∧
    (∀ s : String, hashString sha1 s < 4294967296 ∧
      hashString sha1 s =
        (((sha1 s).get? 0).map Fin.val).getD 0 * 16777216 +
        (((sha1 s).get? 1).map Fin.val).getD 0 * 65536 +
        (((sha1 s).get? 2).map Fin.val).getD 0 * 256 +
        (((sha1 s).get? 3).map Fin.val).getD 0) := by
  have hbyte : ∀ (l : List (Fin 256)) (i : Nat), ((l.get? i).map Fin.val).getD 0 < 256 := by
    intro l i
    cases l.get? i with
    | none => simp
    | some b => simp
  refine ⟨Nat.zero_le _, Nat.mod_lt _ (by decide), rfl, ?_⟩
  intro s
  have hsum := bytes_or_eq_add (((sha1 s).get? 0).map Fin.val |>.getD 0)
    (((sha1 s).get? 1).map Fin.val |>.getD 0) (((sha1 s).get? 2).map Fin.val |>.getD 0)
    (((sha1 s).get? 3).map Fin.val |>.getD 0) (hbyte _ 1) (hbyte _ 2) (hbyte _ 3)
  have h0 := hbyte (sha1 s) 0
  have h1 := hbyte (sha1 s) 1
  have h2 := hbyte (sha1 s) 2
  have h3 := hbyte (sha1 s) 3
  unfold hashString
  simp only
  rw [hsum]
  refine ⟨Nat.mod_lt _ (by decide), ?_⟩
  apply Nat.mod_eq_of_lt
  omega

end Pai

/-! ## Configs that do not decode -/

namespace Pai

/-- C15: `convertPaiConfigToPairecConfig` returns the string `{}` when the
config is empty and whenever `json.Unmarshal` into the item slice returns an
error; on the small JSON library that is the case for text that is not
JSON, for an object, for an array of numbers and for an item with a
non-string field. -/
theorem convertPaiConfig_undecodable {V : Type} (L : Library V) (paiConfig : String)
    (h : paiConfig = "" ∨ L.unmarshalItems paiConfig = none) :
    convertPaiConfigToPairecConfig L paiConfig = "\x7b\x7d" ∧
    convertPaiConfigToPairecConfig miniJson "" = "\x7b\x7d" ∧
    convertPaiConfigToPairecConfig miniJson "not json" = "\x7b\x7d" ∧
    convertPaiConfigToPairecConfig miniJson "\x7b\"key\":\"k\"\x7d" = "\x7b\x7d" ∧
    convertPaiConfigToPairecConfig miniJson "[1,2]" = "\x7b\x7d" ∧
    convertPaiConfigToPairecConfig miniJson
      "[\x7b\"key\":\"k\",\"value\":1,\"type\":\"string\"\x7d]" = "\x7b\x7d" ∧
    convertPaiConfigToPairecConfig miniJson
      "[\x7b\"key\":\"k\",\"value\":\"1\",\"type\":\"string\"\x7d" = "\x7b\x7d" := by
  refine ⟨?_, by decide!, by decide!, by decide!, by decide!, by decide!, by decide!⟩
  unfold convertPaiConfigToPairecConfig
  rcases h with h | h
  · rw [if_pos h]
  · rw [h]
    split_ifs <;> rfl

theorem convertPaiConfig_undecodable_witness :
    ("[1,2]" = "" ∨ miniJson.unmarshalItems "[1,2]" = none) ∧
    (convertPaiConfigToPairecConfig miniJson "[1,2]" = "\x7b\x7d" ∧
    convertPaiConfigToPairecConfig miniJson "" = "\x7b\x7d" ∧
    convertPaiConfigToPairecConfig miniJson "not json" = "\x7b\x7d" ∧
    convertPaiConfigToPairecConfig miniJson "\x7b\"key\":\"k\"\x7d" = "\x7b\x7d" ∧
    convertPaiConfigToPairecConfig miniJson "[1,2]" = "\x7b\x7d" ∧
    convertPaiConfigToPairecConfig miniJson
      "[\x7b\"key\":\"k\",\"value\":1,\"type\":\"string\"\x7d]" = "\x7b\x7d" ∧
    convertPaiConfigToPairecConfig miniJson
      "[\x7b\"key\":\"k\",\"value\":\"1\",\"type\":\"string\"\x7d" = "\x7b\x7d") :=
  ⟨Or.inr (by decide!), convertPaiConfig_undecodable miniJson "[1,2]" (Or.inr (by decide!))⟩

end Pai

/-! ## Key order of the marshalled config -/

namespace Pai

theorem fieldsToList_injective : ∀ (f g : JFields), fieldsToList f = fieldsToList g → f = g
  | .nil, .nil, _ => rfl
  | .nil, .cons _ _ _, h => by simp [fieldsToList] at h
  | .cons _ _ _, .nil, h => by simp [fieldsToList] at h
  | .cons k v rest, .cons k2 v2 rest2, h => by
    simp only [fieldsToList, List.cons.injEq, Prod.mk.injEq] at h
    obtain ⟨⟨hk, hv⟩, hr⟩ := h
    rw [hk, hv, fieldsToList_injective rest rest2 hr]

theorem mem_keys_insertMember (k : String) (v : JVal) (x : String) :
    ∀ f : JFields, x ∈ (fieldsToList (insertMember k v f)).map Prod.fst ↔
      (x = k ∨ x ∈ (fieldsToList f).map Prod.fst)
  | .nil => by simp [insertMember, fieldsToList]
  | .cons k1 v1 rest => by
    have ih := mem_keys_insertMember k v x rest
    unfold insertMember
    by_cases h1 : (k == k1) = true
    · rw [if_pos h1]
      have : k = k1 := by simpa using h1
      simp [fieldsToList, this]
    · rw [if_neg h1]
      by_cases h2 : k < k1
      · rw [if_pos h2]
        simp [fieldsToList]
      · rw [if_neg h2]
        simp only [fieldsToList, List.map_cons, List.mem_cons]
        rw [ih]
        tauto

theorem sorted_insertMember (k : String) (v : JVal) :
    ∀ f : JFields, ((fieldsToList f).map Prod.fst).Sorted (· < ·) →
      ((fieldsToList (insertMember k v f)).map Prod.fst).Sorted (· < ·)
  | .nil, _ => by simp [insertMember, fieldsToList]
  | .cons k1 v1 rest, h => by
    have ih := sorted_insertMember k v rest
    simp only [fieldsToList, List.map_cons, List.sorted_cons] at h
    unfold insertMember
    by_cases h1 : (k == k1) = true
    · rw [if_pos h1]
      simp only [fieldsToList, List.map_cons, List.sorted_cons]
      exact h
    · rw [if_neg h1]
      have hne : k ≠ k1 := by simpa using h1
      by_cases h2 : k < k1
      · rw [if_pos h2]
        simp only [fieldsToList, List.map_cons, List.sorted_cons, List.mem_cons]
        refine ⟨?_, h⟩
        rintro b (rfl | hb)
        · exact h2
        · exact lt_trans h2 (h.1 b hb)
      · rw [if_neg h2]
        simp only [fieldsToList, List.map_cons, List.sorted_cons]
        refine ⟨?_, ih h.2⟩
        intro b hb
        rcases (mem_keys_insertMember k v b rest).mp hb with rfl | hb
        · exact lt_of_le_of_ne (not_lt.mp h2) (Ne.symm hne)
        · exact h.1 b hb

theorem perm_insertMember (k : String) (v : JVal) :
    ∀ f : JFields, k ∉ (fieldsToList f).map Prod.fst →
      (fieldsToList (insertMember k v f)).Perm ((k, v) :: fieldsToList f)
  | .nil, _ => by simp [insertMember, fieldsToList]
  | .cons k1 v1 rest, h => by
    have ih := perm_insertMember k v rest
    simp only [fieldsToList, List.map_cons, List.mem_cons, not_or] at h
    unfold insertMember
    have h1 : ¬ ((k == k1) = true) := by simpa using h.1
    rw [if_neg h1]
    by_cases h2 : k < k1
    · rw [if_pos h2]
      simp [fieldsToList]
    · rw [if_neg h2]
      simp only [fieldsToList]
      exact ((ih h.2).cons (k1, v1)).trans (List.Perm.swap _ _ _)

theorem membersOfMap_perm_sorted (m : List (String × JVal)) (hnodup : (m.map Prod.fst).Nodup) :
    (fieldsToList (membersOfMap m)).Perm m ∧
    ((fieldsToList (membersOfMap m)).map Prod.fst).Sorted (· < ·) := by
  induction m with
  | nil => simp [membersOfMap, fieldsToList]
  | cons kv rest ih =>
    rw [List.map_cons, List.nodup_cons] at hnodup
    obtain ⟨hp, hs⟩ := ih hnodup.2
    have hnot : kv.1 ∉ (fieldsToList (membersOfMap rest)).map Prod.fst := by
      intro hmem
      exact hnodup.1 ((hp.map Prod.fst).subset hmem)
    have hunf : membersOfMap (kv :: rest) = insertMember kv.1 kv.2 (membersOfMap rest) := rfl
    rw [hunf]
    refine ⟨(perm_insertMember kv.1 kv.2 _ hnot).trans (hp.cons _), sorted_insertMember _ _ _ hs⟩

/-- Whatever the order in which a map with distinct keys is traversed, its
members come out sorted by key, so the text is the same. -/
theorem membersOfMap_perm_invariant (m1 m2 : List (String × JVal)) (hperm : m1.Perm m2)
    (hnodup : (m2.map Prod.fst).Nodup) : membersOfMap m1 = membersOfMap m2 := by
  have hnodup1 : (m1.map Prod.fst).Nodup := (hperm.map Prod.fst).nodup_iff.mpr hnodup
  obtain ⟨hp1, hs1⟩ := membersOfMap_perm_sorted m1 hnodup1
  obtain ⟨hp2, hs2⟩ := membersOfMap_perm_sorted m2 hnodup
  apply fieldsToList_injective _ _
  have hs1' : (fieldsToList (membersOfMap m1)).Sorted (fun a b => a.1 < b.1) :=
    List.pairwise_map.mp hs1
  have hs2' : (fieldsToList (membersOfMap m2)).Sorted (fun a b => a.1 < b.1) :=
    List.pairwise_map.mp hs2
  haveI : IsAntisymm (String × JVal) (fun a b => a.1 < b.1) :=
    ⟨fun a b h1 h2 => absurd h1 (lt_asymm h2)⟩
  exact List.eq_of_perm_of_sorted (hp1.trans (hperm.trans hp2.symm)) hs1' hs2'

theorem mapSet_nodup_keys {β : Type} (m : List (String × β)) (key : String) (v : β)
    (h : (m.map Prod.fst).Nodup) : ((mapSet m key v).map Prod.fst).Nodup := by
  unfold mapSet
  by_cases hany : m.any (fun kv => kv.1 == key) = true
  · rw [if_pos hany]
    have hkeys : (m.map fun kv => if kv.1 == key then (key, v) else kv).map Prod.fst =
        m.map Prod.fst := by
      rw [List.map_map]
      apply List.map_congr_left
      intro kv _
      simp only [Function.comp]
      by_cases hk : (kv.1 == key) = true
      · rw [if_pos hk]; exact (by simpa using hk : kv.1 = key).symm
      · rw [if_neg hk]
    rw [hkeys]
    exact h
  · rw [if_neg hany]
    rw [List.map_append, List.nodup_append]
    refine ⟨h, by simp, ?_⟩
    intro a ha hb
    simp only [List.map_cons, List.map_nil, List.mem_singleton] at hb
    apply hany
    obtain ⟨kv, hkv, hkv2⟩ := List.mem_map.mp ha
    exact List.any_eq_true.mpr ⟨kv, hkv, by simp [hkv2, hb]⟩

theorem pairecConfigOf_nodup_keys {V : Type} (L : Library V) (items : List PaiConfigItem) :
    ((pairecConfigOf L items).map Prod.fst).Nodup := by
  unfold pairecConfigOf
  suffices h : ∀ acc : List (String × V), (acc.map Prod.fst).Nodup →
      ((items.foldl (fun m item => mapSet m item.Key (configValue L item)) acc).map
        Prod.fst).Nodup from h [] (by simp)
  induction items with
  | nil => intro acc hacc; exact hacc
  | cons item rest ih =>
    intro acc hacc
    rw [List.foldl_cons]
    exact ih _ (mapSet_nodup_keys acc _ _ hacc)

/-- C16: the text `convertPaiConfigToPairecConfig` returns for a config that
decodes is the one `json.Marshal` yields whatever the order in which the
intermediate map is traversed, and in it the keys are in ascending order;
so translating the same config again yields the same bytes. -/
theorem convertPaiConfig_traversal_independent (paiConfig : String)
    (items : List PaiConfigItem) (order : List (String × JVal))
    (hne : paiConfig ≠ "")
    (hdec : miniJson.unmarshalItems paiConfig = some items)
    (hperm : order.Perm (pairecConfigOf miniJson items)) :
    miniJson.marshalMap order = some (convertPaiConfigToPairecConfig miniJson paiConfig) ∧
    convertPaiConfigToPairecConfig miniJson paiConfig =
      String.mk (renderValue (.obj (membersOfMap order))) ∧
    ((fieldsToList (membersOfMap order)).map Prod.fst).Sorted (· < ·) ∧
    (fieldsToList (membersOfMap order)).Perm (pairecConfigOf miniJson items) := by
  have hnd := pairecConfigOf_nodup_keys miniJson items
  have hinv := membersOfMap_perm_invariant order _ hperm hnd
  have hconv : convertPaiConfigToPairecConfig miniJson paiConfig =
      String.mk (renderValue (.obj (membersOfMap (pairecConfigOf miniJson items)))) := by
    unfold convertPaiConfigToPairecConfig
    rw [if_neg hne, hdec]
    rfl
  have hps := membersOfMap_perm_sorted _ hnd
  refine ⟨?_, ?_, ?_, ?_⟩
  · rw [hconv, ← hinv]; rfl
  · rw [hconv, hinv]
  · rw [hinv]; exact hps.2
  · rw [hinv]; exact hps.1

theorem convertPaiConfig_traversal_independent_witness :
    (twoItemConfig ≠ "" ∧ miniJson.unmarshalItems twoItemConfig = some twoItems ∧
      (pairecConfigOf miniJson twoItems).reverse.Perm (pairecConfigOf miniJson twoItems)) ∧
    (miniJson.marshalMap (pairecConfigOf miniJson twoItems).reverse =
        some (convertPaiConfigToPairecConfig miniJson twoItemConfig) ∧
      convertPaiConfigToPairecConfig miniJson twoItemConfig =
        String.mk (renderValue (.obj (membersOfMap (pairecConfigOf miniJson twoItems).reverse))) ∧
      ((fieldsToList (membersOfMap (pairecConfigOf miniJson twoItems).reverse)).map
        Prod.fst).Sorted (· < ·) ∧
      (fieldsToList (membersOfMap (pairecConfigOf miniJson twoItems).reverse)).Perm
        (pairecConfigOf miniJson twoItems)) :=
  ⟨⟨by decide, by decide!, List.reverse_perm _⟩,
    convertPaiConfig_traversal_independent twoItemConfig twoItems _ (by decide) (by decide!)
      (List.reverse_perm _)⟩

end Pai

/-! ## Truncation by the minimum score percent -/

section MinScore
variable {α : Type} [LinearOrderedField α]

end MinScore

section MinScoreSamples

end MinScoreSamples

/-! ## Min-max normalisation of the relevance scores -/

section MinMax
variable {α : Type} [LinearOrderedField α]

end MinMax

section MinMaxSamples

end MinMaxSamples

/-! ## The cache when too many embeddings are missing -/

section CacheFrameLemmas
variable {α : Type} [LinearOrderedField α]

end CacheFrameLemmas

section CacheFrameSamples

end CacheFrameSamples

/-! ## The cache across changes of the table suffix -/

section LoadSequenceLemmas
variable {α : Type} [LinearOrderedField α]

omit [LinearOrderedField α] in
theorem mem_cachePut (cache : List (String × List α)) (key : String) (v : List α)
    (x : String × List α) (h : x ∈ cachePut cache key v) : x = (key, v) ∨ x ∈ cache := by
  unfold cachePut at h
  rcases List.mem_cons.mp h with h | h
  · exact Or.inl h
  · exact Or.inr (List.mem_filter.mp h).1

theorem scanRows_cache_mem (sqrt : α → α) (s : SSDSort α) (itemMap : List (String × Nat))
    (rows : List (String × List α)) (acc : RowScan α) (x : String × List α)
    (h : x ∈ (scanRows sqrt s itemMap acc rows).2.embCache) :
    x ∈ acc.embCache ∨ ∃ elements, (x.1, elements) ∈ rows ∧ x.2 = rowVector sqrt s elements := by
  induction rows generalizing acc with
  | nil => exact Or.inl h
  | cons row rest ih =>
    obtain ⟨itemID, elements⟩ := row
    unfold scanRows at h
    simp only at h
    by_cases hc : acc.embedSize ≠ 0 ∧ acc.embedSize ≠ (rowVector sqrt s elements).length
    · rw [if_pos hc] at h
      exact Or.inl h
    · rw [if_neg hc] at h
      have hput : x ∈ cachePut acc.embCache itemID (rowVector sqrt s elements) →
          x ∈ acc.embCache ∨
            ∃ el, (x.1, el) ∈ (itemID, elements) :: rest ∧ x.2 = rowVector sqrt s el := by
        intro hx
        rcases mem_cachePut _ _ _ _ hx with hx | hx
        · exact Or.inr ⟨elements, by rw [hx]; exact List.mem_cons_self _ _, by rw [hx]⟩
        · exact Or.inl hx
      cases hlk : itemMap.lookup itemID with
      | none =>
        rw [hlk] at h
        exact hput h
      | some j =>
        rw [hlk] at h
        simp only at h
        rcases ih _ h with h1 | ⟨el, hel, hv⟩
        · exact hput h1
        · exact Or.inr ⟨el, List.mem_cons_of_mem _ hel, hv⟩

/-- What a call of `loadEmbeddingCache` leaves in the receiver: the
configuration is untouched, the last suffix is the one observed, and every
cache entry was in the cache the call read or comes from a row of its
query. -/
theorem loadEmbeddingCache_state (sqrt : α → α) (s : SSDSort α) (w : World α)
    (items : List (Item α)) :
    (loadEmbeddingCache sqrt s w items).2.2 =
      { s with embCache := (loadEmbeddingCache sqrt s w items).2.2.embCache,
               lastTableSuffixParam := tableSuffixOf s w } ∧
    ∀ x ∈ (loadEmbeddingCache sqrt s w items).2.2.embCache,
      x ∈ cacheAtScan s w ∨
      ∃ rows elements,
        w.query (s.tableName ++ tableSuffixOf s w) (absentItemIdsOf s w items) = .ok rows ∧
        (x.1, elements) ∈ rows ∧ x.2 = rowVector sqrt s elements := by
  unfold loadEmbeddingCache absentItemIdsOf
  simp only
  have hfields : ∀ s1 : SSDSort α,
      (if tableSuffixOf s w ≠ s.lastTableSuffixParam then
        ({ s with embCache := [], lastTableSuffixParam := tableSuffixOf s w } : SSDSort α)
        else s) = s1 →
      s1 = { s with embCache := cacheAtScan s w, lastTableSuffixParam := tableSuffixOf s w } := by
    intro s1 h
    subst h
    unfold cacheAtScan
    by_cases hne : tableSuffixOf s w ≠ s.lastTableSuffixParam
    · rw [if_pos hne, if_pos hne]
    · rw [if_neg hne, if_neg hne]
      have : tableSuffixOf s w = s.lastTableSuffixParam := not_not.mp hne
      rw [this]
  generalize hs1 : (if tableSuffixOf s w ≠ s.lastTableSuffixParam then
      ({ s with embCache := [], lastTableSuffixParam := tableSuffixOf s w } : SSDSort α)
      else s) = s1
  have hs := hfields s1 hs1
  subst hs
  simp only
  cases hsc : scanCache (cacheAtScan s w) ⟨[], 0, [], items⟩ items.enum with
  | mk e c =>
    cases e with
    | some e => exact ⟨rfl, fun x hx => Or.inl hx⟩
    | none =>
      simp only
      by_cases habs : c.absentItemIds.length > 0
      · rw [if_pos habs]
        cases hq : w.query (s.tableName ++ tableSuffixOf s w) c.absentItemIds with
        | error err => exact ⟨rfl, fun x hx => Or.inl hx⟩
        | ok rows =>
          simp only
          have hmem := scanRows_cache_mem sqrt
            ({ s with embCache := cacheAtScan s w, lastTableSuffixParam := tableSuffixOf s w })
            c.itemMap rows ⟨c.embedSize, cacheAtScan s w, c.items, 0⟩
          cases hr : scanRows sqrt
              ({ s with embCache := cacheAtScan s w, lastTableSuffixParam := tableSuffixOf s w })
              c.itemMap ⟨c.embedSize, cacheAtScan s w, c.items, 0⟩ rows with
          | mk e2 r =>
            rw [hr] at hmem
            have hall : ∀ x ∈ r.embCache, x ∈ cacheAtScan s w ∨
                ∃ rows0 elements, (Except.ok rows : Except String (List (String × List α))) = Except.ok rows0 ∧
                  (x.1, elements) ∈ rows0 ∧ x.2 = rowVector sqrt s elements := by
              intro x hx
              rcases hmem x hx with h1 | ⟨el, hel, hv⟩
              · exact Or.inl h1
              · exact Or.inr ⟨rows, el, rfl, hel, hv⟩
            cases e2 with
            | some e2 => exact ⟨rfl, hall⟩
            | none =>
              simp only
              split_ifs <;> exact ⟨rfl, hall⟩
      · rw [if_neg habs]
        exact ⟨rfl, fun x hx => Or.inl hx⟩

omit [LinearOrderedField α] in
theorem scanCache_empty_absent (l : List (Nat × Item α)) (acc : CacheScan α) :
    (scanCache [] acc l).2.absentItemIds = acc.absentItemIds ++ l.map fun ji => ji.2.Id := by
  induction l generalizing acc with
  | nil => simp [scanCache]
  | cons x rest ih =>
    obtain ⟨j, item⟩ := x
    unfold scanCache
    simp only [List.lookup]
    rw [ih]
    simp

theorem loadEmbeddingCache_config (sqrt : α → α) (s : SSDSort α) (w : World α)
    (items : List (Item α)) :
    (loadEmbeddingCache sqrt s w items).2.2.tableName = s.tableName ∧
    (loadEmbeddingCache sqrt s w items).2.2.suffixParam = s.suffixParam ∧
    (loadEmbeddingCache sqrt s w items).2.2.normalizeEmb = s.normalizeEmb ∧
    (loadEmbeddingCache sqrt s w items).2.2.ensurePosSimilarity = s.ensurePosSimilarity ∧
    (loadEmbeddingCache sqrt s w items).2.2.lastTableSuffixParam = tableSuffixOf s w := by
  have h := (loadEmbeddingCache_state sqrt s w items).1
  have h1 := congrArg SSDSort.tableName h
  have h2 := congrArg SSDSort.suffixParam h
  have h3 := congrArg SSDSort.normalizeEmb h
  have h4 := congrArg SSDSort.ensurePosSimilarity h
  have h5 := congrArg SSDSort.lastTableSuffixParam h
  exact ⟨h1, h2, h3, h4, h5⟩

theorem runLoads_last_of_same (sqrt : α → α) (calls : List (World α × List (Item α)))
    (s : SSDSort α) (h : ∀ c ∈ calls, tableSuffixOf s c.1 = s.lastTableSuffixParam) :
    (runLoads sqrt s calls).lastTableSuffixParam = s.lastTableSuffixParam := by
  induction calls generalizing s with
  | nil => rfl
  | cons c rest ih =>
    obtain ⟨w, items⟩ := c
    obtain ⟨_, hsp, _, _, hlast⟩ := loadEmbeddingCache_config sqrt s w items
    have hw : tableSuffixOf s w = s.lastTableSuffixParam := h (w, items) (List.mem_cons_self _ _)
    show (runLoads sqrt (loadEmbeddingCache sqrt s w items).2.2 rest).lastTableSuffixParam = _
    rw [ih _ (by
      intro c hc
      have := h c (List.mem_cons_of_mem _ hc)
      unfold tableSuffixOf at this ⊢
      rw [hsp, hlast]
      unfold tableSuffixOf
      rw [this]
      exact hw.symm ▸ rfl), hlast, hw]

theorem storedUnder_cons (sqrt : α → α) (s : SSDSort α) (w : World α) (items : List (Item α))
    (rest : List (World α × List (Item α))) (suffix key : String) (v : List α)
    (h : StoredUnder sqrt (loadEmbeddingCache sqrt s w items).2.2 rest suffix key v) :
    StoredUnder sqrt s ((w, items) :: rest) suffix key v := by
  obtain ⟨htab, hsp, hnorm, hpos, _⟩ := loadEmbeddingCache_config sqrt s w items
  have hT : ∀ w0 : World α,
      tableSuffixOf (loadEmbeddingCache sqrt s w items).2.2 w0 = tableSuffixOf s w0 := by
    intro w0
    unfold tableSuffixOf
    rw [hsp]
  obtain ⟨pre, w1, items1, post, rows, el, hcalls, hsuf, hpost, hq, hmem, hv⟩ := h
  refine ⟨(w, items) :: pre, w1, items1, post, rows, el, by rw [hcalls]; rfl, ?_, ?_, ?_, hmem, ?_⟩
  · rw [← hT]; exact hsuf
  · intro c hc
    rw [← hT]; exact hpost c hc
  · rw [htab] at hq
    exact hq
  · rw [hv]
    unfold rowVector
    rw [hnorm, hpos]

theorem runLoads_entries (sqrt : α → α) (calls : List (World α × List (Item α)))
    (s : SSDSort α) :
    ∀ x ∈ (runLoads sqrt s calls).embCache,
      (x ∈ s.embCache ∧ ∀ c ∈ calls, tableSuffixOf s c.1 = s.lastTableSuffixParam) ∨
      StoredUnder sqrt s calls (runLoads sqrt s calls).lastTableSuffixParam x.1 x.2 := by
  induction calls generalizing s with
  | nil =>
    intro x hx
    exact Or.inl ⟨hx, fun c hc => absurd hc (List.not_mem_nil c)⟩
  | cons c rest ih =>
    obtain ⟨w, items⟩ := c
    intro x hx
    obtain ⟨_, hsp, _, _, hlast⟩ := loadEmbeddingCache_config sqrt s w items
    have hT : ∀ w0 : World α,
        tableSuffixOf (loadEmbeddingCache sqrt s w items).2.2 w0 = tableSuffixOf s w0 := by
      intro w0
      unfold tableSuffixOf
      rw [hsp]
    rcases ih (loadEmbeddingCache sqrt s w items).2.2 x hx with ⟨hx1, hsame⟩ | hst
    · have hfin : (runLoads sqrt s ((w, items) :: rest)).lastTableSuffixParam =
          tableSuffixOf s w := by
        show (runLoads sqrt (loadEmbeddingCache sqrt s w items).2.2 rest).lastTableSuffixParam = _
        rw [runLoads_last_of_same sqrt rest _ hsame, hlast]
      have hrest : ∀ c ∈ rest, tableSuffixOf s c.1 = tableSuffixOf s w := by
        intro c hc
        rw [← hT, hsame c hc, hlast]
      rcases (loadEmbeddingCache_state sqrt s w items).2 x hx1 with hold | ⟨rows, el, hq, hel, hv⟩
      · left
        unfold cacheAtScan at hold
        by_cases hne : tableSuffixOf s w ≠ s.lastTableSuffixParam
        · rw [if_pos hne] at hold
          exact absurd hold (List.not_mem_nil x)
        · rw [if_neg hne] at hold
          have heq : tableSuffixOf s w = s.lastTableSuffixParam := not_not.mp hne
          refine ⟨hold, ?_⟩
          intro c hc
          rcases List.mem_cons.mp hc with hc | hc
          · rw [hc]; exact heq
          · rw [hrest c hc, heq]
      · right
        rw [hfin]
        exact ⟨[], w, items, rest, rows, el, rfl, rfl, hrest, hq, hel, hv⟩
    · right
      exact storedUnder_cons sqrt s w items rest _ x.1 x.2 hst

/-- C21: starting from an empty embedding cache, after any sequence of
`loadEmbeddingCache` calls every vector held in the cache was stored under
the suffix that `lastTableSuffixParam` now holds: it comes from a row that a
call observing that suffix read from the table of that suffix, and every
later call observed the same suffix.  A further call that observes another
suffix reads an empty cache: every item is looked up as absent and
`lastTableSuffixParam` becomes the new suffix. -/
theorem cache_entries_stored_under_last_suffix (sqrt : α → α) (s : SSDSort α)
    (calls : List (World α × List (Item α))) (hempty : s.embCache = []) :
    (∀ x ∈ (runLoads sqrt s calls).embCache,
      StoredUnder sqrt s calls (runLoads sqrt s calls).lastTableSuffixParam x.1 x.2) ∧
    (∀ (w : World α) (items : List (Item α)),
      tableSuffixOf (runLoads sqrt s calls) w ≠ (runLoads sqrt s calls).lastTableSuffixParam →
        cacheAtScan (runLoads sqrt s calls) w = [] ∧
        absentItemIdsOf (runLoads sqrt s calls) w items = items.map Item.Id ∧
        (loadEmbeddingCache sqrt (runLoads sqrt s calls) w items).2.2.lastTableSuffixParam =
          tableSuffixOf (runLoads sqrt s calls) w ∧
        ∀ x ∈ (loadEmbeddingCache sqrt (runLoads sqrt s calls) w items).2.2.embCache,
          StoredUnder sqrt s (calls ++ [(w, items)])
            (tableSuffixOf (runLoads sqrt s calls) w) x.1 x.2) := by
  have hrun : ∀ (cs : List (World α × List (Item α))) (x : String × List α),
      x ∈ (runLoads sqrt s cs).embCache →
      StoredUnder sqrt s cs (runLoads sqrt s cs).lastTableSuffixParam x.1 x.2 := by
    intro cs x hx
    rcases runLoads_entries sqrt cs s x hx with ⟨h0, _⟩ | h
    · rw [hempty] at h0
      exact absurd h0 (List.not_mem_nil x)
    · exact h
  have happ : ∀ (w : World α) (items : List (Item α)),
      runLoads sqrt s (calls ++ [(w, items)]) =
        (loadEmbeddingCache sqrt (runLoads sqrt s calls) w items).2.2 := by
    intro w items
    generalize s = s0
    induction calls generalizing s0 with
    | nil => rfl
    | cons c rest ih =>
      obtain ⟨w1, items1⟩ := c
      exact ih _
  refine ⟨hrun calls, ?_⟩
  intro w items hne
  have hc : cacheAtScan (runLoads sqrt s calls) w = [] := by
    unfold cacheAtScan
    rw [if_pos hne]
  have hlast := (loadEmbeddingCache_config sqrt (runLoads sqrt s calls) w items).2.2.2.2
  refine ⟨hc, ?_, hlast, ?_⟩
  · unfold absentItemIdsOf
    rw [hc]
    rw [scanCache_empty_absent items.enum ⟨[], 0, [], items⟩]
    have hf : (fun ji : Nat × Item α => ji.2.Id) = Item.Id ∘ Prod.snd := rfl
    rw [hf, ← List.map_map, List.enum_map_snd]
    rfl
  · intro x hx
    have := hrun (calls ++ [(w, items)]) x (by rw [happ]; exact hx)
    rw [happ, hlast] at this
    exact this

end LoadSequenceLemmas

section LoadSequenceSamples

theorem cache_entries_stored_under_last_suffix_witness :
    suffixSorter.embCache = [] ∧
    (runLoads Rat.sqrt suffixSorter
      [(versionWorld "_v1", [mkItem "a" "r1" 1]),
       (versionWorld "_v2", [mkItem "a" "r1" 1])]).embCache = [("a", [0, 1, 1])] ∧
    (runLoads Rat.sqrt suffixSorter
      [(versionWorld "_v1", [mkItem "a" "r1" 1]),
       (versionWorld "_v2", [mkItem "a" "r1" 1])]).lastTableSuffixParam = "_v2" ∧
    ∀ x ∈ (runLoads Rat.sqrt suffixSorter
        [(versionWorld "_v1", [mkItem "a" "r1" 1]),
         (versionWorld "_v2", [mkItem "a" "r1" 1])]).embCache,
      StoredUnder Rat.sqrt suffixSorter
        [(versionWorld "_v1", [mkItem "a" "r1" 1]), (versionWorld "_v2", [mkItem "a" "r1" 1])]
        (runLoads Rat.sqrt suffixSorter
          [(versionWorld "_v1", [mkItem "a" "r1" 1]),
           (versionWorld "_v2", [mkItem "a" "r1" 1])]).lastTableSuffixParam x.1 x.2 :=
  ⟨rfl, by decide!, by decide!,
    (cache_entries_stored_under_last_suffix Rat.sqrt suffixSorter
      [(versionWorld "_v1", [mkItem "a" "r1" 1]), (versionWorld "_v2", [mkItem "a" "r1" 1])]
      rfl).1⟩

end LoadSequenceSamples

/-! ## Determinism of the method `Sort` -/

section Draws
variable {α : Type} [LinearOrderedField α]

omit [LinearOrderedField α] in
theorem scanCache_absent_sublist (cache : List (String × List α)) (l : List (Nat × Item α))
    (acc : CacheScan α) :
    (scanCache cache acc l).2.absentItemIds.Sublist
      (acc.absentItemIds ++ l.map fun ji => ji.2.Id) := by
  induction l generalizing acc with
  | nil => simp [scanCache]
  | cons x rest ih =>
    obtain ⟨j, item⟩ := x
    unfold scanCache
    have hskip : ∀ acc1 : CacheScan α, acc1.absentItemIds = acc.absentItemIds →
        (scanCache cache acc1 rest).2.absentItemIds.Sublist
          (acc.absentItemIds ++ ((j, item) :: rest).map fun ji => ji.2.Id) := by
      intro acc1 h1
      have := ih acc1
      rw [h1] at this
      refine this.trans ?_
      simp only [List.map_cons]
      exact List.Sublist.append (List.Sublist.refl _) (List.sublist_cons_self _ _)
    cases hlk : cache.lookup item.Id with
    | none =>
      simp only
      have := ih { acc with absentItemIds := acc.absentItemIds ++ [item.Id]
                            itemMap := itemMapPut acc.itemMap item.Id j }
      simpa using this
    | some embI =>
      simp only
      by_cases h0 : acc.embedSize = 0
      · rw [if_pos h0]
        exact hskip _ rfl
      · rw [if_neg h0]
        by_cases h1 : acc.embedSize ≠ embI.length
        · rw [if_pos h1]
          exact List.sublist_append_left _ _
        · rw [if_neg h1]
          exact hskip _ rfl

omit [LinearOrderedField α] in
theorem absentItemIdsOf_sublist (s : SSDSort α) (w : World α) (items : List (Item α)) :
    (absentItemIdsOf s w items).Sublist (items.map Item.Id) := by
  have h := scanCache_absent_sublist (cacheAtScan s w) items.enum ⟨[], 0, [], items⟩
  have hf : (fun ji : Nat × Item α => ji.2.Id) = Item.Id ∘ Prod.snd := rfl
  rw [hf, ← List.map_map, List.enum_map_snd] at h
  exact h

theorem scanRows_rowNum (sqrt : α → α) (s : SSDSort α) (itemMap : List (String × Nat))
    (rows : List (String × List α)) (acc : RowScan α)
    (h : (scanRows sqrt s itemMap acc rows).1 = none) :
    (scanRows sqrt s itemMap acc rows).2.rowNum = acc.rowNum + rows.length := by
  induction rows generalizing acc with
  | nil => rfl
  | cons x rest ih =>
    obtain ⟨itemID, elements⟩ := x
    unfold scanRows at h ⊢
    simp only at h ⊢
    by_cases hc : acc.embedSize ≠ 0 ∧ acc.embedSize ≠ (rowVector sqrt s elements).length
    · rw [if_pos hc] at h
      exact absurd h (by simp)
    · rw [if_neg hc] at h ⊢
      cases hlk : itemMap.lookup itemID with
      | none =>
        rw [hlk] at h
        exact absurd h (by simp)
      | some j =>
        rw [hlk] at h
        simp only at h ⊢
        rw [ih _ h]
        simp only [List.length_cons]
        omega

/-- When the query returns at least as many rows as ids were asked for, no
embedding is drawn at random: the load does not depend on the draws. -/
theorem loadEmbeddingCache_draws (sqrt : α → α) (s : SSDSort α) (w : World α)
    (draws : String → Nat → α) (items : List (Item α))
    (hfound : ∀ rows, w.query (s.tableName ++ tableSuffixOf s w) (absentItemIdsOf s w items) =
      .ok rows → (absentItemIdsOf s w items).length ≤ rows.length) :
    loadEmbeddingCache sqrt s { w with randNorm := draws } items =
      loadEmbeddingCache sqrt s w items := by
  unfold absentItemIdsOf cacheAtScan at hfound
  unfold loadEmbeddingCache
  have hT : tableSuffixOf s { w with randNorm := draws } = tableSuffixOf s w := rfl
  rw [hT]
  simp only
  generalize hs1 : (if tableSuffixOf s w ≠ s.lastTableSuffixParam then
      ({ s with embCache := [], lastTableSuffixParam := tableSuffixOf s w } : SSDSort α)
      else s) = s1
  have hcache : s1.embCache =
      if tableSuffixOf s w ≠ s.lastTableSuffixParam then [] else s.embCache := by
    rw [← hs1]; split_ifs <;> rfl
  have htab : s1.tableName = s.tableName := by
    rw [← hs1]; split_ifs <;> rfl
  rw [← hcache, ← htab] at hfound
  cases hsc : scanCache s1.embCache ⟨[], 0, [], items⟩ items.enum with
  | mk e c =>
    rw [hsc] at hfound
    cases e with
    | some e => rfl
    | none =>
      simp only at hfound ⊢
      by_cases habs : c.absentItemIds.length > 0
      · rw [if_pos habs, if_pos habs]
        cases hq : w.query (s1.tableName ++ tableSuffixOf s w) c.absentItemIds with
        | error err => rfl
        | ok rows =>
          simp only
          have hle := hfound rows hq
          have hnum := scanRows_rowNum sqrt s1 c.itemMap rows ⟨c.embedSize, s1.embCache, c.items, 0⟩
          cases hr : scanRows sqrt s1 c.itemMap ⟨c.embedSize, s1.embCache, c.items, 0⟩ rows with
          | mk e2 r =>
            rw [hr] at hnum
            cases e2 with
            | some e2 => rfl
            | none =>
              simp only at hnum ⊢
              have hn := hnum trivial
              have hno : ¬ ((c.absentItemIds.length : Int) - (r.rowNum : Int) > 0) := by
                rw [hn]
                push_cast
                omega
              rw [if_neg hno, if_neg hno]
      · rw [if_neg habs, if_neg habs]

theorem doSort_draws (sqrt : α → α) (s : SSDSort α) (w : World α)
    (draws : String → Nat → α) (ctx : RecommendContext α) (items : List (Item α))
    (hids : (items.map Item.Id).Nodup)
    (hfound : ∀ table keys rows, keys.Nodup → (∀ k ∈ keys, k ∈ items.map Item.Id) →
      w.query table keys = .ok rows → keys.length ≤ rows.length) :
    doSort sqrt s { w with randNorm := draws } ctx items = doSort sqrt s w ctx items := by
  have hload : loadEmbeddingCache sqrt s { w with randNorm := draws } (loadInput s ctx items) =
      loadEmbeddingCache sqrt s w (loadInput s ctx items) := by
    apply loadEmbeddingCache_draws
    intro rows hq
    have hsub := absentItemIdsOf_sublist s w (loadInput s ctx items)
    have hpre : (loadInput s ctx items).Sublist (sortByScoreDesc items) :=
      (truncateCandidates_initial _ _ _ _).sublist
    have hnd : ((sortByScoreDesc items).map Item.Id).Nodup :=
      ((sortByScoreDesc_perm items).map Item.Id).nodup_iff.mpr hids
    have hsub2 := hsub.trans (hpre.map Item.Id)
    refine hfound _ _ rows (hnd.sublist hsub2) ?_ hq
    intro k hk
    exact ((sortByScoreDesc_perm items).map Item.Id).subset (hsub2.subset hk)
  unfold loadInput at hload
  unfold doSort
  simp only
  rw [hload]

/-- C22 (amended): two runs of `Sort` by the same reranker in the same
state, on the same candidates and knobs, over the same table, client
parameters and condition, give the same result (error, stored list and
receiver) whatever the standard-normal draws of each run are, provided the
candidates have distinct ids and the table returns a row for every
candidate id it is asked for, so that no embedding is missing. -/
theorem sort_independent_of_draws (sqrt : α → α) (s : SSDSort α) (w : World α)
    (draws : String → Nat → α) (sortData : SortData α) (candidates : List (Item α))
    (hdata : sortData.Data = .items candidates)
    (hids : (candidates.map Item.Id).Nodup)
    (hfound : ∀ table keys rows, keys.Nodup → (∀ k ∈ keys, k ∈ candidates.map Item.Id) →
      w.query table keys = .ok rows → keys.length ≤ rows.length) :
    SSDSort_Sort sqrt s { w with randNorm := draws } sortData =
      SSDSort_Sort sqrt s w sortData := by
  have hcond : conditionSkips s { w with randNorm := draws } = conditionSkips s w := rfl
  have hall := doSort_draws sqrt s w draws sortData.Context candidates hids hfound
  have hsel := doSort_draws sqrt s w draws sortData.Context
    (candidates.filter fun item =>
      !decide (item.RetrieveId ∈ resolveFilterRetrieveIds s sortData.Context))
    (hids.sublist ((List.filter_sublist _).map Item.Id))
    (by
      intro table keys rows hnd hk hq
      refine hfound table keys rows hnd ?_ hq
      intro k hkk
      obtain ⟨it, hit, rfl⟩ := List.mem_map.mp (hk k hkk)
      exact List.mem_map.mpr ⟨it, (List.mem_filter.mp hit).1, rfl⟩)
  unfold SSDSort_Sort
  rw [hdata]
  simp only
  rw [hcond, hall, hsel]

theorem sampleWorld_found (table0 : List (String × List α)) (ids : List String)
    (hids : ∀ k ∈ ids, k ∈ table0.map Prod.fst) :
    ∀ table keys rows, keys.Nodup → (∀ k ∈ keys, k ∈ ids) →
      (sampleWorld table0).query table keys = .ok rows → keys.length ≤ rows.length := by
  intro table keys rows hnd hk hq
  have hrows : rows = table0.filter fun r => decide (r.1 ∈ keys) := by
    have : (Except.ok (table0.filter fun r => decide (r.1 ∈ keys)) :
        Except String (List (String × List α))) = Except.ok rows := hq
    injection this with h
    exact h.symm
  have hsub : keys ⊆ rows.map Prod.fst := by
    intro k hkk
    obtain ⟨r, hr, rfl⟩ := List.mem_map.mp (hids k (hk k hkk))
    rw [hrows]
    exact List.mem_map.mpr ⟨r, List.mem_filter.mpr ⟨hr, by simpa using hkk⟩, rfl⟩
  have := (hnd.subperm hsub).length_le
  simpa using this

end Draws

section DrawsWitness

theorem sort_independent_of_draws_witness :
    ((⟨.items threeItems, plainCtx⟩ : SortData ℚ).Data = .items threeItems ∧
      (threeItems.map Item.Id).Nodup) ∧
    SSDSort_Sort Rat.sqrt sampleSorter { (sampleWorld unitRows : World ℚ) with
        randNorm := fun _ _ => 0 } ⟨.items threeItems, plainCtx⟩ =
      SSDSort_Sort Rat.sqrt sampleSorter (sampleWorld unitRows) ⟨.items threeItems, plainCtx⟩ :=
  ⟨⟨rfl, by decide⟩,
    sort_independent_of_draws Rat.sqrt sampleSorter (sampleWorld unitRows) (fun _ _ => 0)
      ⟨.items threeItems, plainCtx⟩ threeItems rfl (by decide)
      (sampleWorld_found unitRows (threeItems.map Item.Id) (by decide))⟩

end DrawsWitness

section DrawsSamples

/-- C22 (counterexample): two runs of `Sort` by the same reranker with an
empty cache, on the same three candidates, with the same knobs and the same
table (rows for "a" and "b", none for "c"), that differ only in the
standard-normal draws made for the missing embedding of "c": one run
returns a, b and the other a, c. -/
theorem sort_orderings_differ_with_draws :
    (drawWorld 0).query = (drawWorld 1).query ∧
    (sortOutput Rat.sqrt twinSorter (drawWorld 0) ⟨.items twinItems, plainCtx⟩).map Item.Id =
      ["a", "b"] ∧
    (sortOutput Rat.sqrt twinSorter (drawWorld 1) ⟨.items twinItems, plainCtx⟩).map Item.Id =
      ["a", "c"] ∧
    (sortOutput Rat.sqrt twinSorter (drawWorld 0) ⟨.items twinItems, plainCtx⟩).map Item.Id ≠
      (sortOutput Rat.sqrt twinSorter (drawWorld 1) ⟨.items twinItems, plainCtx⟩).map Item.Id := by
  refine ⟨rfl, by decide!, by decide!, by decide!⟩

/-- The vector cached for "b" by the first run: the projected working
embedding, not the vector `[1, 0]` of the table. -/
theorem sort_leaves_projected_vector_in_cache :
    ((SSDSort_Sort Rat.sqrt twinSorter (drawWorld 0) ⟨.items twinItems, plainCtx⟩).2.2.embCache.lookup
      "b") = some [0, 0] := by
  decide!

end DrawsSamples

/-! ## One iteration of the loop, step by step -/

section StepSpec
variable {α : Type} [LinearOrderedField α]

omit [LinearOrderedField α] in
theorem mapOpt_enumFrom_getD {γ : Type} (f : Nat × List α → Option γ) (d : γ)
    (emb : List (List α)) (n : Nat) (ys : List γ)
    (h : mapOpt f (emb.enumFrom n) = some ys) :
    ys.length = emb.length ∧
    ∀ j, j < emb.length → f (n + j, emb.getD j []) = some (ys.getD j d) := by
  induction emb generalizing n ys with
  | nil =>
    simp only [List.enumFrom, mapOpt, Option.some.injEq] at h
    subst h
    exact ⟨rfl, fun j hj => absurd hj (Nat.not_lt_zero j)⟩
  | cons e rest ih =>
    simp only [List.enumFrom, mapOpt] at h
    cases hf : f (n, e) with
    | none => rw [hf] at h; exact absurd h (by simp)
    | some y =>
      rw [hf] at h
      simp only at h
      cases hr : mapOpt f (rest.enumFrom (n + 1)) with
      | none => rw [hr] at h; exact absurd h (by simp)
      | some ys1 =>
        rw [hr] at h
        simp only [Option.map_some', Option.some.injEq] at h
        subst h
        obtain ⟨hlen, hall⟩ := ih (n + 1) ys1 hr
        refine ⟨by simp [hlen], ?_⟩
        intro j hj
        cases j with
        | zero => simpa using hf
        | succ j =>
          have := hall j (by simp only [List.length_cons] at hj; omega)
          simp only [List.getD_cons_succ]
          rw [show n + (j + 1) = n + 1 + j by omega]
          exact this

omit [LinearOrderedField α] in
theorem mapOpt_enum_getD {γ : Type} (f : Nat × List α → Option γ) (d : γ)
    (emb : List (List α)) (ys : List γ) (h : mapOpt f emb.enum = some ys) :
    ys.length = emb.length ∧
    ∀ j, j < emb.length → f (j, emb.getD j []) = some (ys.getD j d) := by
  have := mapOpt_enumFrom_getD f d emb 0 ys h
  simpa using this

/-- The coefficient of `e` on `embIdx` that the projection loop stores: the
quotient of the dot products, 1 when the denominator is zero. -/
theorem projectOne_eq (selected : List Nat) (embIdx : List α) (j : Nat) (e : List α)
    (hlen : e.length = embIdx.length) :
    projectOne selected embIdx j e =
      some (if j ∈ selected then (0, e)
        else ((if dotSum embIdx embIdx = 0 then 1 else dotSum e embIdx / dotSum embIdx embIdx),
          List.zipWith (fun x y => x - y) e
            (floatsScale (if dotSum embIdx embIdx = 0 then 1
              else dotSum e embIdx / dotSum embIdx embIdx) embIdx))) := by
  unfold projectOne
  by_cases hs : j ∈ selected
  · rw [if_pos hs, if_pos hs]
  · rw [if_neg hs, if_neg hs]
    have hsub : ∀ p : α, floatsSub e (floatsScale p embIdx) =
        some (List.zipWith (fun a b => a - b) e (floatsScale p embIdx)) := by
      intro p
      unfold floatsSub
      rw [if_pos (by rw [floatsScale_length, hlen])]
    have hdot : floatsDot e embIdx = some (dotSum e embIdx) := by
      unfold floatsDot
      rw [if_pos hlen]
    rw [hdot]
    simp only [Option.some_bind, hsub, Option.map_some']

theorem restoreOne_eq (selected : List Nat) (projections embI : List α) (j : Nat) (e : List α)
    (hlen : e.length = embI.length) :
    restoreOne selected projections embI j e =
      some (if j ∈ selected then e
        else List.zipWith (fun x y => x + y) e (floatsScale (projections.getD j 0) embI)) := by
  unfold restoreOne
  by_cases hs : j ∈ selected
  · rw [if_pos hs, if_pos hs]
  · rw [if_neg hs, if_neg hs]
    unfold floatsAdd
    rw [if_pos (by rw [floatsScale_length, hlen])]

/-- The restore block at a state that satisfies the invariant and whose
counter exceeds the window: the oldest pick and its projections are popped,
and each unselected embedding gets its projection on that pick added. -/
theorem restoreWindow_spec (N dim w : Nat) (st : SSDLoop α) (hdim : 1 ≤ dim) (hw : 1 ≤ w)
    (h : SSDInv N dim w st) (ht : w < st.t) :
    ∃ i p restB restP emb1,
      st.B.data = i :: restB ∧ st.P.data = p :: restP ∧ i < N ∧
      restoreWindow dim st =
        some { st with emb := emb1, B := { st.B with data := restB },
                       P := { st.P with data := restP } } ∧
      emb1.length = N ∧ (∀ e ∈ emb1, e.length = dim) ∧
      ∀ j, j < N → emb1.getD j [] =
        if j ∈ st.selected then st.emb.getD j []
        else List.zipWith (fun x y => x + y) (st.emb.getD j [])
          (floatsScale (p.getD j 0) (st.emb.getD i [])) := by
  have hBl : st.B.data.length = w := by rw [h.B_len]; omega
  have hPl : st.P.data.length = w := by rw [h.P_len]; omega
  cases hB : st.B.data with
  | nil => rw [hB] at hBl; simp at hBl; omega
  | cons i restB =>
    cases hP : st.P.data with
    | nil => rw [hP] at hPl; simp at hPl; omega
    | cons projections restP =>
      have hi : i < N := h.B_lt i (by rw [hB]; exact List.mem_cons_self _ _)
      have hei : (st.emb.getD i []).length = dim :=
        getD_length_of_forall st.emb dim i h.emb_dim (by rw [h.emb_len]; exact hi)
      obtain ⟨ys, hys, hlen, hall⟩ := mapOpt_of_forall
        (fun je : Nat × List α => restoreOne st.selected projections (st.emb.getD i []) je.1 je.2)
        (fun e => e.length = dim) st.emb.enum (fun x hx =>
          restoreOne_some st.selected projections (st.emb.getD i []) dim hei x
            (h.emb_dim _ (List.snd_mem_of_mem_enum hx)))
      refine ⟨i, projections, restB, restP, ys, rfl, rfl, hi, ?_, ?_, hall, ?_⟩
      · unfold restoreWindow
        simp only [CycleQueue.Pop, hB, hP]
        rw [newVecDense_some dim _ hei hdim]
        simp only [Option.some_bind, hys, Option.map_some']
      · rw [hlen, List.enum_length, h.emb_len]
      · intro j hj
        have hpt := (mapOpt_enum_getD _ ([] : List α) st.emb ys hys).2 j (by rw [h.emb_len]; exact hj)
        simp only at hpt
        have hej : (st.emb.getD j []).length = (st.emb.getD i []).length := by
          rw [hei]
          exact getD_length_of_forall st.emb dim j h.emb_dim (by rw [h.emb_len]; exact hj)
        rw [restoreOne_eq _ _ _ _ _ hej] at hpt
        exact (Option.some.inj hpt).symm

/-- One iteration of the loop at a state that satisfies the invariant, step
by step: the state `st1` after the eviction test, the pairs `pe` of
coefficient and projected embedding, and the state `st2` at the head of the
next iteration. -/
theorem ssdStep_spec (sqrt : α → α) (useSSDStar : Bool) (rel : List α) (N dim : Nat)
    (windowSize : Int) (st : SSDLoop α) (hdim : 1 ≤ dim)
    (hw : 2 ≤ windowSize) (h : SSDInv N dim windowSize.toNat st) :
    ∃ (st1 : SSDLoop α) (pe : List (α × List α)) (st2 : SSDLoop α),
      (if (st.t : Int) > windowSize then restoreWindow dim st else some st) = some st1 ∧
      ssdStep sqrt useSSDStar rel dim windowSize st = some st2 ∧
      (st1.selected = st.selected ∧ st1.idx = st.idx ∧ st1.indices = st.indices ∧
        st1.t = st.t ∧ st1.volume = st.volume ∧ st1.emb.length = N ∧
        (∀ e ∈ st1.emb, e.length = dim)) ∧
      (¬ ((st.t : Int) > windowSize) → st1 = st) ∧
      ((st.t : Int) > windowSize → ∃ i p,
        st.B.data = i :: st1.B.data ∧ st.P.data = p :: st1.P.data ∧ i < N ∧
        ∀ j, j < N → st1.emb.getD j [] =
          if j ∈ st.selected then st.emb.getD j []
          else List.zipWith (fun x y => x + y) (st.emb.getD j [])
            (floatsScale (p.getD j 0) (st.emb.getD i []))) ∧
      (st1.B.data.length + 1 = min st.t windowSize.toNat ∧
        st1.P.data.length + 1 = min st.t windowSize.toNat ∧
        (st1.B.Push st1.idx).1 = true ∧ (st1.P.Push (pe.map Prod.fst)).1 = true) ∧
      (pe.length = N ∧ ∀ j, j < N → pe.getD j (0, []) =
        if j ∈ st.selected then (0, st1.emb.getD j [])
        else ((if dotSum (st1.emb.getD st.idx []) (st1.emb.getD st.idx []) = 0 then 1
            else dotSum (st1.emb.getD j []) (st1.emb.getD st.idx []) /
              dotSum (st1.emb.getD st.idx []) (st1.emb.getD st.idx [])),
          List.zipWith (fun x y => x - y) (st1.emb.getD j [])
            (floatsScale
              (if dotSum (st1.emb.getD st.idx []) (st1.emb.getD st.idx []) = 0 then 1
                else dotSum (st1.emb.getD j []) (st1.emb.getD st.idx []) /
                  dotSum (st1.emb.getD st.idx []) (st1.emb.getD st.idx []))
              (st1.emb.getD st.idx [])))) ∧
      (st2.t = st.t + 1 ∧ st2.emb = pe.map Prod.snd ∧
        st2.idx = floatsMaxIdx (rel.enum.map fun ir =>
          qualityOf sqrt st.selected st.volume ir.1 ir.2 ((pe.map Prod.snd).getD ir.1 [])) ∧
        st2.selected = st2.idx :: st.selected ∧ st2.indices = st.indices ++ [st2.idx] ∧
        st2.volume = (if useSSDStar then st.volume
          else st.volume * floatsNorm sqrt (st2.emb.getD st2.idx [])) ∧
        st2.B.data = st1.B.data ++ [st.idx] ∧ st2.P.data = st1.P.data ++ [pe.map Prod.fst] ∧
        st2.B.cap = st.B.cap ∧ st2.P.cap = st.P.cap) := by
  obtain ⟨w, hwe⟩ : ∃ w : Nat, windowSize.toNat = w := ⟨_, rfl⟩
  rw [hwe] at h ⊢
  have hwi : (w : Int) = windowSize := by omega
  have hw2 : 2 ≤ w := by omega
  have hmid : ∃ st1, (if (st.t : Int) > windowSize then restoreWindow dim st else some st) = some st1 ∧
      (st1.selected = st.selected ∧ st1.idx = st.idx ∧ st1.indices = st.indices ∧
        st1.t = st.t ∧ st1.volume = st.volume ∧ st1.emb.length = N ∧
        (∀ e ∈ st1.emb, e.length = dim)) ∧
      (¬ ((st.t : Int) > windowSize) → st1 = st) ∧
      ((st.t : Int) > windowSize → ∃ i p,
        st.B.data = i :: st1.B.data ∧ st.P.data = p :: st1.P.data ∧ i < N ∧
        ∀ j, j < N → st1.emb.getD j [] =
          if j ∈ st.selected then st.emb.getD j []
          else List.zipWith (fun x y => x + y) (st.emb.getD j [])
            (floatsScale (p.getD j 0) (st.emb.getD i []))) ∧
      st1.B.cap = w ∧ st1.P.cap = w ∧ st1.B.data.length + 1 = min st.t w ∧
      st1.P.data.length + 1 = min st.t w := by
    by_cases ht : (st.t : Int) > windowSize
    · rw [if_pos ht]
      obtain ⟨i, p, restB, restP, emb1, hB, hP, hi, hres, hlen, hdims, hpt⟩ :=
        restoreWindow_spec N dim w st hdim (by omega) h (by omega)
      have hBl := h.B_len
      have hPl := h.P_len
      rw [hB] at hBl
      rw [hP] at hPl
      simp only [List.length_cons] at hBl hPl
      refine ⟨_, hres, ⟨rfl, rfl, rfl, rfl, rfl, hlen, hdims⟩, fun hn => absurd ht hn,
        fun _ => ⟨i, p, hB, hP, hi, hpt⟩, h.B_cap, h.P_cap, ?_, ?_⟩
      · show restB.length + 1 = _
        omega
      · show restP.length + 1 = _
        omega
    · rw [if_neg ht]
      have ht1 := h.t_pos
      refine ⟨st, rfl, ⟨rfl, rfl, rfl, rfl, rfl, h.emb_len, h.emb_dim⟩, fun _ => rfl,
        fun hp => absurd hp ht, h.B_cap, h.P_cap, ?_, ?_⟩
      · rw [h.B_len]; omega
      · rw [h.P_len]; omega
  obtain ⟨st1, hst1, hf1, hno, hre, hBc, hPc, hBl, hPl⟩ := hmid
  obtain ⟨hsel1, hidx1, hind1, ht1, hvol1, hlen1, hdim1⟩ := hf1
  have hidxlt : st1.idx < st1.emb.length := by rw [hidx1, hlen1]; exact h.idx_lt
  have hei : (st1.emb.getD st1.idx []).length = dim :=
    getD_length_of_forall st1.emb dim st1.idx hdim1 hidxlt
  obtain ⟨pe, hpe, hpelen, _⟩ := mapOpt_of_forall
    (fun je : Nat × List α => projectOne st1.selected (st1.emb.getD st1.idx []) je.1 je.2)
    (fun y => y.2.length = dim) st1.emb.enum (fun x hx =>
      projectOne_some st1.selected (st1.emb.getD st1.idx []) dim hei x
        (hdim1 _ (List.snd_mem_of_mem_enum hx)))
  have hpush := push_of_lt st1.B st1.idx (by rw [hBc]; omega)
  have hpushP := push_of_lt st1.P (pe.map Prod.fst) (by rw [hPc]; omega)
  have hstep : ssdStep sqrt useSSDStar rel dim windowSize st = some
      { t := st1.t + 1
        idx := floatsMaxIdx (rel.enum.map fun ir =>
          qualityOf sqrt st1.selected st1.volume ir.1 ir.2 ((pe.map Prod.snd).getD ir.1 []))
        emb := pe.map Prod.snd
        selected := floatsMaxIdx (rel.enum.map fun ir =>
          qualityOf sqrt st1.selected st1.volume ir.1 ir.2 ((pe.map Prod.snd).getD ir.1 [])) ::
            st1.selected
        indices := st1.indices ++ [floatsMaxIdx (rel.enum.map fun ir =>
          qualityOf sqrt st1.selected st1.volume ir.1 ir.2 ((pe.map Prod.snd).getD ir.1 []))]
        volume := if useSSDStar then st1.volume
                  else st1.volume * floatsNorm sqrt ((pe.map Prod.snd).getD
                    (floatsMaxIdx (rel.enum.map fun ir =>
                      qualityOf sqrt st1.selected st1.volume ir.1 ir.2
                        ((pe.map Prod.snd).getD ir.1 []))) [])
        B := (st1.B.Push st1.idx).2
        P := (st1.P.Push (pe.map Prod.fst)).2 } := by
    unfold ssdStep
    rw [hst1]
    simp only [Option.some_bind]
    rw [newVecDense_some dim _ hei hdim]
    simp only [Option.some_bind, hpe, Option.map_some']
  refine ⟨st1, pe, _, hst1, hstep, ⟨hsel1, hidx1, hind1, ht1, hvol1, hlen1, hdim1⟩, hno, hre,
    ⟨hBl, hPl, hpush.2, hpushP.2⟩, ⟨?_, ?_⟩, ?_⟩
  · rw [hpelen, List.enum_length, hlen1]
  · intro j hj
    have hpt := (mapOpt_enum_getD _ ((0 : α), ([] : List α)) st1.emb pe hpe).2 j
      (by rw [hlen1]; exact hj)
    simp only at hpt
    have hej : (st1.emb.getD j []).length = (st1.emb.getD st1.idx []).length := by
      rw [hei]
      exact getD_length_of_forall st1.emb dim j hdim1 (by rw [hlen1]; exact hj)
    rw [projectOne_eq _ _ _ _ hej, hsel1, hidx1] at hpt
    exact (Option.some.inj hpt).symm
  · rw [hsel1, hvol1, hind1, ht1, hpush.1, hpushP.1, hidx1]
    exact ⟨rfl, rfl, rfl, rfl, rfl, rfl, rfl, rfl,
      by show st1.B.cap = _; rw [hBc, h.B_cap], by show st1.P.cap = _; rw [hPc, h.P_cap]⟩

/-- A property that every iteration keeps, at states that satisfy the
invariant, holds after any number of iterations, none of which panics. -/
theorem ssdLoop_induct (sqrt : α → α) (useSSDStar : Bool) (rel : List α) (N dim : Nat)
    (windowSize : Int) (hrel : rel.length = N) (hN : 1 ≤ N) (hdim : 1 ≤ dim)
    (hw : 2 ≤ windowSize) (Q : SSDLoop α → Prop)
    (hstep : ∀ st st2, SSDInv N dim windowSize.toNat st → Q st →
      ssdStep sqrt useSSDStar rel dim windowSize st = some st2 → Q st2)
    (n : Nat) (st : SSDLoop α) (h : SSDInv N dim windowSize.toNat st) (hQ : Q st) :
    ∃ st2, ssdLoop sqrt useSSDStar rel dim windowSize n st = some st2 ∧
      SSDInv N dim windowSize.toNat st2 ∧ Q st2 ∧ st2.t = st.t + n := by
  induction n generalizing st with
  | zero => exact ⟨st, rfl, h, hQ, rfl⟩
  | succ n ih =>
    obtain ⟨st1, h1, hinv1, ht1, _⟩ :=
      ssdStep_inv sqrt useSSDStar rel N dim windowSize st hrel hN hdim hw h
    obtain ⟨st2, h2, hinv2, hQ2, ht2⟩ := ih st1 hinv1 (hstep st st1 h hQ h1)
    refine ⟨st2, ?_, hinv2, hQ2, by omega⟩
    unfold ssdLoop
    rw [h1]
    exact h2

end StepSpec

/-! ## The window queues -/

section Window
variable {α : Type} [LinearOrderedField α]

omit [LinearOrderedField α] in
/-- At a state whose window holds the last picks but the current one, the
queue `B` after the eviction test and the push holds the last picks, the
current one included. -/
theorem window_after_push (N dim : Nat) (windowSize : Int) (st st1 : SSDLoop α) (D : List Nat)
    (hw : 2 ≤ windowSize) (h : SSDInv N dim windowSize.toNat st)
    (hD : st.indices = D ++ [st.idx])
    (hB : st.B.data = D.drop (D.length - windowSize.toNat))
    (hno : ¬ ((st.t : Int) > windowSize) → st1 = st)
    (hre : (st.t : Int) > windowSize → ∃ i, st.B.data = i :: st1.B.data) :
    st1.B.data ++ [st.idx] = st.indices.drop (st.indices.length - windowSize.toNat) := by
  have hlen : D.length + 1 = st.t := by
    have := h.indices_len
    rw [hD] at this
    simpa using this
  rw [hD]
  simp only [List.length_append, List.length_singleton]
  by_cases ht : (st.t : Int) > windowSize
  · obtain ⟨i, hi⟩ := hre ht
    have htail : st1.B.data = D.drop (D.length - windowSize.toNat + 1) := by
      have := congrArg List.tail hi
      rw [hB, List.tail_drop] at this
      simpa using this.symm
    rw [htail, show D.length + 1 - windowSize.toNat = D.length - windowSize.toNat + 1 by omega]
    rw [List.drop_append_of_le_length (by omega)]
  · rw [hno ht, hB]
    rw [show D.length - windowSize.toNat = 0 by omega,
      show D.length + 1 - windowSize.toNat = 0 by omega]
    rfl

/-- C25: with a window `w > 1` and FIFO queues of capacity `w`, at the head
of every iteration reached from the initial state (the `t`-th, with `t`
picks made) the test `t > windowSize` holds exactly when `B` holds `w`
picks; `B` and `P` hold the same number of entries, at most `w`; after the
eviction test both pushes succeed; and after its push `B` holds the last
`min(t, w)` picks in pick order. -/
theorem window_queues_hold_last_picks (sqrt : α → α) (useSSDStar : Bool) (gamma : α)
    (windowSize : Int) (items : List (Item α)) (rel : List α) (dim n : Nat)
    (hrel : rel.length = items.length) (hN : 1 ≤ items.length) (hdim : 1 ≤ dim)
    (hw : 2 ≤ windowSize) (hemb : ∀ it ∈ items, it.Embedding.length = dim) :
    ∃ st st1 : SSDLoop α,
      ssdLoop sqrt useSSDStar rel dim windowSize n
        (ssdInit sqrt useSSDStar gamma windowSize items rel) = some st ∧
      st.t = n + 1 ∧ st.indices.length = st.t ∧
      st.B.cap = windowSize.toNat ∧ st.P.cap = windowSize.toNat ∧
      ((st.t : Int) > windowSize ↔ st.B.data.length = windowSize.toNat) ∧
      st.B.data.length = st.P.data.length ∧ st.B.data.length ≤ windowSize.toNat ∧
      (if (st.t : Int) > windowSize then restoreWindow dim st else some st) = some st1 ∧
      (∀ p, (st1.B.Push st1.idx).1 = true ∧ (st1.P.Push p).1 = true) ∧
      (st1.B.Push st1.idx).2.data =
        st.indices.drop (st.indices.length - min st.t windowSize.toNat) ∧
      (st1.B.Push st1.idx).2.data.length = min st.t windowSize.toNat ∧
      ∀ p, (st1.P.Push p).2.data.length = min st.t windowSize.toNat := by
  have hinit := ssdInit_inv sqrt useSSDStar gamma windowSize items rel dim hrel hN hemb
  obtain ⟨st, hloop, hinv, ⟨D, hD, hB⟩, ht⟩ := ssdLoop_induct sqrt useSSDStar rel items.length dim
    windowSize hrel hN hdim hw
    (fun st => ∃ D, st.indices = D ++ [st.idx] ∧ st.B.data = D.drop (D.length - windowSize.toNat))
    (by
      intro st st2 hinv ⟨D, hD, hB⟩ hstep
      obtain ⟨st1, pe, st2', _, hstep', _, hno, hre, _, _, hst2⟩ :=
        ssdStep_spec sqrt useSSDStar rel items.length dim windowSize st hdim hw hinv
      rw [hstep] at hstep'
      have heq : st2 = st2' := Option.some.inj hstep'
      subst heq
      obtain ⟨_, _, _, _, hind2, _, hB2, _, _, _⟩ := hst2
      refine ⟨st.indices, hind2, ?_⟩
      rw [hB2]
      exact window_after_push items.length dim windowSize st st1 D hw hinv hD hB hno
        (fun ht => by
          obtain ⟨i, p, h1, _⟩ := hre ht
          exact ⟨i, h1⟩))
    n _ hinit ⟨[], rfl, by simp [ssdInit, NewCycleQueue]⟩
  obtain ⟨st1, pe, st2, hst1, _, hf1, hno, hre, ⟨hBl, hPl, _, _⟩, _, _⟩ :=
    ssdStep_spec sqrt useSSDStar rel items.length dim windowSize st hdim hw hinv
  obtain ⟨_, hidx1, _, _, _, _, _⟩ := hf1
  have hcapB : st1.B.cap = windowSize.toNat := by
    by_cases htw : (st.t : Int) > windowSize
    · rw [if_pos htw] at hst1
      obtain ⟨i, p, restB, restP, emb1, _, _, _, hres, _⟩ :=
        restoreWindow_spec items.length dim windowSize.toNat st hdim (by omega) hinv (by omega)
      rw [hres] at hst1
      rw [← Option.some.inj hst1]
      exact hinv.B_cap
    · rw [hno htw]; exact hinv.B_cap
  have hcapP : st1.P.cap = windowSize.toNat := by
    by_cases htw : (st.t : Int) > windowSize
    · rw [if_pos htw] at hst1
      obtain ⟨i, p, restB, restP, emb1, _, _, _, hres, _⟩ :=
        restoreWindow_spec items.length dim windowSize.toNat st hdim (by omega) hinv (by omega)
      rw [hres] at hst1
      rw [← Option.some.inj hst1]
      exact hinv.P_cap
    · rw [hno htw]; exact hinv.P_cap
  have ht1 := hinv.t_pos
  have hpushB := push_of_lt st1.B st1.idx (by rw [hcapB]; omega)
  have hpushP : ∀ p, (st1.P.Push p).2 = { st1.P with data := st1.P.data ++ [p] } ∧
      (st1.P.Push p).1 = true := fun p => push_of_lt st1.P p (by rw [hcapP]; omega)
  refine ⟨st, st1, hloop, by rw [ht]; show 1 + n = n + 1; omega, hinv.indices_len, hinv.B_cap,
    hinv.P_cap, ?_, by rw [hinv.B_len, hinv.P_len], by rw [hinv.B_len]; omega, hst1,
    fun p => ⟨hpushB.2, (hpushP p).2⟩, ?_, ?_, ?_⟩
  · rw [hinv.B_len]
    constructor
    · intro h; omega
    · intro h; omega
  · rw [hpushB.1, hidx1]
    show st1.B.data ++ [st.idx] = _
    rw [window_after_push items.length dim windowSize st st1 D hw hinv hD hB hno
      (fun ht => by
        obtain ⟨i, p, h1, _⟩ := hre ht
        exact ⟨i, h1⟩)]
    rw [hinv.indices_len]
    congr 1
    omega
  · rw [hpushB.1]
    show (st1.B.data ++ [st1.idx]).length = _
    rw [List.length_append, List.length_singleton, hBl]
  · intro p
    rw [(hpushP p).1]
    show (st1.P.data ++ [p]).length = _
    rw [List.length_append, List.length_singleton, hPl]

end Window

section WindowSamples

theorem window_queues_hold_last_picks_witness :
    (([1, 9 / 10, 8 / 10, 7 / 10, 6 / 10] : List ℚ).length = (s5Items (1 : ℚ)).length ∧
      1 ≤ (s5Items (1 : ℚ)).length ∧ (2 : Int) ≤ 2 ∧
      ∀ it ∈ s5Items (1 : ℚ), it.Embedding.length = 2) ∧
    ∃ st : SSDLoop ℚ,
      ssdLoop Rat.sqrt false [1, 9 / 10, 8 / 10, 7 / 10, 6 / 10] 2 2 3
        (ssdInit Rat.sqrt false (1 / 2) 2 (s5Items 1) [1, 9 / 10, 8 / 10, 7 / 10, 6 / 10]) =
        some st ∧ st.t = 4 ∧ ((st.t : Int) > 2 ↔ st.B.data.length = (2 : Int).toNat) :=
  ⟨⟨rfl, by decide, by decide, by decide⟩,
    let ⟨st, _, h1, h2, _, _, _, h6, _⟩ :=
      window_queues_hold_last_picks Rat.sqrt false (1 / 2) 2 (s5Items 1)
        [1, 9 / 10, 8 / 10, 7 / 10, 6 / 10] 2 3 rfl (by decide) (by decide) (by decide)
        (by decide)
    ⟨st, h1, h2, h6⟩⟩

end WindowSamples

/-! ## The projection on a new pick -/

section Projection
variable {α : Type} [LinearOrderedField α]

theorem dotSum_sub_scale (p : α) (e v : List α) (h : e.length = v.length) :
    dotSum (List.zipWith (fun x y => x - y) e (floatsScale p v)) v =
      dotSum e v - p * dotSum v v := by
  induction e generalizing v with
  | nil =>
    cases v with
    | nil => simp [dotSum, floatsScale]
    | cons b v => simp at h
  | cons a e ih =>
    cases v with
    | nil => simp at h
    | cons b v =>
      have hl : e.length = v.length := by simpa using h
      have := ih v hl
      unfold dotSum floatsScale at this ⊢
      simp only [List.map_cons, List.zipWith_cons_cons, List.sum_cons]
      rw [this]
      ring

omit [LinearOrderedField α] in
theorem getD_map_snd (pe : List (α × List α)) [Zero α] (j : Nat) :
    (pe.map Prod.snd).getD j [] = (pe.getD j (0, [])).2 := by
  have := List.getD_map (f := (Prod.snd : α × List α → List α)) (l := pe) (d := (0, [])) (n := j)
  simpa using this

omit [LinearOrderedField α] in
theorem getD_map_fst (pe : List (α × List α)) [Zero α] (j : Nat) :
    (pe.map Prod.fst).getD j 0 = (pe.getD j (0, [])).1 := by
  have := List.getD_map (f := (Prod.fst : α × List α → α)) (l := pe) (d := (0, [])) (n := j)
  simpa using this

/-- What an iteration leaves of an embedding of a selected position: it is
not touched, neither by the restore block nor by the projection loop. -/
theorem ssdStep_selected_frozen (sqrt : α → α) (useSSDStar : Bool) (rel : List α)
    (N dim : Nat) (windowSize : Int) (st st2 : SSDLoop α) (hdim : 1 ≤ dim)
    (hw : 2 ≤ windowSize) (h : SSDInv N dim windowSize.toNat st)
    (hstep : ssdStep sqrt useSSDStar rel dim windowSize st = some st2)
    (i : Nat) (hi : i < N) (hsel : i ∈ st.selected) :
    st2.emb.getD i [] = st.emb.getD i [] ∧
    ∀ st1, (if (st.t : Int) > windowSize then restoreWindow dim st else some st) = some st1 →
      st1.emb.getD i [] = st.emb.getD i [] := by
  obtain ⟨st1, pe, st2', hst1, hstep', _, hno, hre, _, ⟨_, hpe⟩, hst2⟩ :=
    ssdStep_spec sqrt useSSDStar rel N dim windowSize st hdim hw h
  rw [hstep] at hstep'
  have heq : st2 = st2' := Option.some.inj hstep'
  subst heq
  have h1 : st1.emb.getD i [] = st.emb.getD i [] := by
    by_cases ht : (st.t : Int) > windowSize
    · obtain ⟨i0, p, _, _, _, hpt⟩ := hre ht
      rw [hpt i hi, if_pos hsel]
    · rw [hno ht]
  refine ⟨?_, ?_⟩
  · rw [hst2.2.1, getD_map_snd, hpe i hi, if_pos hsel]
    exact h1
  · intro st1' hst1'
    rw [hst1] at hst1'
    rw [← Option.some.inj hst1']
    exact h1

/-- C26: in exact arithmetic, at a state of the loop whose current pick `i`
has a working embedding `e_i` of non-zero squared norm, the iteration does
not panic; after its projection loop every unselected position `j` holds
`e_j - ((e_j · e_i)/(e_i · e_i)) e_i`, which is orthogonal to `e_i`; the
coefficient stored for `j` in the projections pushed into `P` is
`(e_j · e_i)/(e_i · e_i)`, computed from `e_j` as it was before the update;
and `e_i` itself is not changed. -/
theorem projection_orthogonal_to_pick (sqrt : α → α) (useSSDStar : Bool) (rel : List α)
    (N dim : Nat) (windowSize : Int) (st : SSDLoop α) (hdim : 1 ≤ dim)
    (hw : 2 ≤ windowSize) (h : SSDInv N dim windowSize.toNat st)
    (hsel : st.idx ∈ st.selected)
    (hden : dotSum (st.emb.getD st.idx []) (st.emb.getD st.idx []) ≠ 0) :
    ∃ st1 st2 : SSDLoop α,
      (if (st.t : Int) > windowSize then restoreWindow dim st else some st) = some st1 ∧
      ssdStep sqrt useSSDStar rel dim windowSize st = some st2 ∧
      st1.emb.getD st.idx [] = st.emb.getD st.idx [] ∧
      st2.emb.getD st.idx [] = st.emb.getD st.idx [] ∧
      ∀ j, j < N → j ∉ st.selected →
        st2.emb.getD j [] =
          List.zipWith (fun x y => x - y) (st1.emb.getD j [])
            (floatsScale (dotSum (st1.emb.getD j []) (st.emb.getD st.idx []) /
              dotSum (st.emb.getD st.idx []) (st.emb.getD st.idx [])) (st.emb.getD st.idx [])) ∧
        dotSum (st2.emb.getD j []) (st2.emb.getD st.idx []) = 0 ∧
        (st2.P.data.getLast?.map fun p => p.getD j 0) =
          some (dotSum (st1.emb.getD j []) (st.emb.getD st.idx []) /
            dotSum (st.emb.getD st.idx []) (st.emb.getD st.idx [])) := by
  obtain ⟨st1, pe, st2, hst1, hstep, hf1, _, _, _, ⟨_, hpe⟩, hst2⟩ :=
    ssdStep_spec sqrt useSSDStar rel N dim windowSize st hdim hw h
  obtain ⟨_, _, _, _, _, hlen1, hdim1⟩ := hf1
  obtain ⟨hfro2, hfro1⟩ := ssdStep_selected_frozen sqrt useSSDStar rel N dim windowSize st st2
    hdim hw h hstep st.idx h.idx_lt hsel
  have hi1 := hfro1 st1 hst1
  refine ⟨st1, st2, hst1, hstep, hi1, hfro2, ?_⟩
  intro j hj hjs
  have hpj := hpe j hj
  rw [if_neg hjs, hi1, if_neg hden] at hpj
  have hemb : st2.emb.getD j [] =
      List.zipWith (fun x y => x - y) (st1.emb.getD j [])
        (floatsScale (dotSum (st1.emb.getD j []) (st.emb.getD st.idx []) /
          dotSum (st.emb.getD st.idx []) (st.emb.getD st.idx [])) (st.emb.getD st.idx [])) := by
    rw [hst2.2.1, getD_map_snd, hpj]
  have hlenj : (st1.emb.getD j []).length = (st.emb.getD st.idx []).length := by
    rw [getD_length_of_forall st1.emb dim j hdim1 (by rw [hlen1]; exact hj),
      getD_length_of_forall st.emb dim st.idx h.emb_dim (by rw [h.emb_len]; exact h.idx_lt)]
  refine ⟨hemb, ?_, ?_⟩
  · rw [hfro2, hemb, dotSum_sub_scale _ _ _ hlenj, div_mul_cancel₀ _ hden, sub_self]
  · rw [hst2.2.2.2.2.2.2.2.1]
    have hlast : (st1.P.data ++ [pe.map Prod.fst]).getLast? = some (pe.map Prod.fst) := by
      simp
    rw [hlast]
    simp only [Option.map_some']
    rw [getD_map_fst, hpj]

end Projection

section ProjectionSamples

theorem projection_orthogonal_to_pick_witness :
    ((1 : Nat) ≤ 2 ∧ (2 : Int) ≤ 3 ∧
      (ssdInit Rat.sqrt false (1 / 2) 3 (s5Items (1 : ℚ))
        [1, 9 / 10, 8 / 10, 7 / 10, 6 / 10]).idx ∈
        (ssdInit Rat.sqrt false (1 / 2) 3 (s5Items (1 : ℚ))
          [1, 9 / 10, 8 / 10, 7 / 10, 6 / 10]).selected) ∧
    ∃ st2 : SSDLoop ℚ,
      ssdStep Rat.sqrt false [1, 9 / 10, 8 / 10, 7 / 10, 6 / 10] 2 3
        (ssdInit Rat.sqrt false (1 / 2) 3 (s5Items (1 : ℚ))
          [1, 9 / 10, 8 / 10, 7 / 10, 6 / 10]) = some st2 ∧
      dotSum (st2.emb.getD 4 []) (st2.emb.getD
        (ssdInit Rat.sqrt false (1 / 2) 3 (s5Items (1 : ℚ))
          [1, 9 / 10, 8 / 10, 7 / 10, 6 / 10]).idx []) = 0 :=
  ⟨⟨by decide, by decide, by decide!⟩,
    let ⟨_, st2, _, h2, _, _, h5⟩ :=
      projection_orthogonal_to_pick Rat.sqrt false [1, 9 / 10, 8 / 10, 7 / 10, 6 / 10] 5 2 3
        (ssdInit Rat.sqrt false (1 / 2) 3 (s5Items (1 : ℚ)) [1, 9 / 10, 8 / 10, 7 / 10, 6 / 10])
        (by decide) (by decide)
        (ssdInit_inv Rat.sqrt false (1 / 2) 3 (s5Items (1 : ℚ))
          [1, 9 / 10, 8 / 10, 7 / 10, 6 / 10] 2 rfl (by decide) (by decide))
        (by decide!) (by decide!)
    ⟨st2, h2, (h5 4 (by decide) (by decide!)).2.1⟩⟩

end ProjectionSamples

/-! ## Restoring the projections that leave the window -/

section Restore
variable {α : Type} [LinearOrderedField α]

theorem getD_zipWith_add (a b : List α) (c : Nat) (h : a.length = b.length) :
    (List.zipWith (fun x y => x + y) a b).getD c 0 = a.getD c 0 + b.getD c 0 := by
  induction a generalizing b c with
  | nil =>
    cases b with
    | nil => simp
    | cons y b => simp at h
  | cons x a ih =>
    cases b with
    | nil => simp at h
    | cons y b =>
      cases c with
      | zero => simp
      | succ c =>
        simp only [List.zipWith_cons_cons, List.getD_cons_succ]
        exact ih b c (by simpa using h)

theorem getD_zipWith_sub (a b : List α) (c : Nat) (h : a.length = b.length) :
    (List.zipWith (fun x y => x - y) a b).getD c 0 = a.getD c 0 - b.getD c 0 := by
  induction a generalizing b c with
  | nil =>
    cases b with
    | nil => simp
    | cons y b => simp at h
  | cons x a ih =>
    cases b with
    | nil => simp at h
    | cons y b =>
      cases c with
      | zero => simp
      | succ c =>
        simp only [List.zipWith_cons_cons, List.getD_cons_succ]
        exact ih b c (by simpa using h)

theorem getD_floatsScale (p : α) (v : List α) (c : Nat) :
    (floatsScale p v).getD c 0 = p * v.getD c 0 := by
  unfold floatsScale
  have := List.getD_map (f := fun x : α => p * x) (l := v) (d := 0) (n := c)
  simpa using this

theorem winSum_congr (B : List Nat) (P : List (List α)) (emb emb2 : List (List α)) (j c : Nat)
    (h : ∀ i ∈ B, emb2.getD i [] = emb.getD i []) :
    winSum B P emb2 j c = winSum B P emb j c := by
  unfold winSum
  congr 1
  apply List.map_congr_left
  intro ip hip
  rw [h ip.1 (List.of_mem_zip hip).1]

theorem winSum_cons (i : Nat) (p : List α) (B : List Nat) (P : List (List α))
    (emb : List (List α)) (j c : Nat) :
    winSum (i :: B) (p :: P) emb j c =
      p.getD j 0 * (emb.getD i []).getD c 0 + winSum B P emb j c := by
  simp [winSum]

theorem winSum_concat (i : Nat) (p : List α) (B : List Nat) (P : List (List α))
    (emb : List (List α)) (j c : Nat) (h : B.length = P.length) :
    winSum (B ++ [i]) (P ++ [p]) emb j c =
      winSum B P emb j c + p.getD j 0 * (emb.getD i []).getD c 0 := by
  unfold winSum
  rw [List.zip_append h]
  simp

/-- After the eviction test the invariant of the window sum holds of the
window that is left: when a pick was evicted, what it had subtracted from
an unselected embedding has been added back. -/
theorem evict_window_sum (sqrt : α → α) (useSSDStar : Bool) (rel : List α) (N dim : Nat)
    (windowSize : Int) (orig : List (List α)) (st : SSDLoop α) (hdim : 1 ≤ dim)
    (hw : 2 ≤ windowSize) (h : SSDInv N dim windowSize.toNat st)
    (hB : ∀ i ∈ st.B.data, i ∈ st.selected)
    (hsum : ∀ j, j < N → j ∉ st.selected → ∀ c,
      (st.emb.getD j []).getD c 0 + windowSum st j c = (orig.getD j []).getD c 0)
    (st1 : SSDLoop α)
    (hst1 : (if (st.t : Int) > windowSize then restoreWindow dim st else some st) = some st1) :
    (∀ i ∈ st1.B.data, i ∈ st.selected) ∧
    st1.B.data.length = st1.P.data.length ∧
    (∀ i, i < N → i ∈ st.selected → st1.emb.getD i [] = st.emb.getD i []) ∧
    ∀ j, j < N → j ∉ st.selected → ∀ c,
      (st1.emb.getD j []).getD c 0 + windowSum st1 j c = (orig.getD j []).getD c 0 := by
  obtain ⟨st1', pe, st2, hst1', _, _, hno, hre, ⟨hBl, hPl, _, _⟩, _, _⟩ :=
    ssdStep_spec sqrt useSSDStar rel N dim windowSize st hdim hw h
  rw [hst1] at hst1'
  have heq : st1 = st1' := Option.some.inj hst1'
  subst heq
  have hlen : st1.B.data.length = st1.P.data.length := by omega
  by_cases ht : (st.t : Int) > windowSize
  · obtain ⟨i0, p0, hB0, hP0, hi0, hpt⟩ := hre ht
    have hsub : ∀ i ∈ st1.B.data, i ∈ st.selected := fun i hi =>
      hB i (by rw [hB0]; exact List.mem_cons_of_mem _ hi)
    have hfro : ∀ i, i < N → i ∈ st.selected → st1.emb.getD i [] = st.emb.getD i [] := by
      intro i hi hs
      rw [hpt i hi, if_pos hs]
    refine ⟨hsub, hlen, hfro, ?_⟩
    intro j hj hjs c
    have hlj : (st.emb.getD j []).length =
        (floatsScale (p0.getD j 0) (st.emb.getD i0 [])).length := by
      rw [floatsScale_length,
        getD_length_of_forall st.emb dim j h.emb_dim (by rw [h.emb_len]; exact hj),
        getD_length_of_forall st.emb dim i0 h.emb_dim (by rw [h.emb_len]; exact hi0)]
    have hw1 : windowSum st1 j c = winSum st1.B.data st1.P.data st.emb j c := by
      unfold windowSum
      exact winSum_congr _ _ _ _ j c (fun i hi => hfro i (h.B_lt i (by
        rw [hB0]; exact List.mem_cons_of_mem _ hi)) (hsub i hi))
    have hw0 : windowSum st j c =
        p0.getD j 0 * (st.emb.getD i0 []).getD c 0 +
          winSum st1.B.data st1.P.data st.emb j c := by
      unfold windowSum
      rw [hB0, hP0, winSum_cons]
    rw [hpt j hj, if_neg hjs, getD_zipWith_add _ _ _ hlj, getD_floatsScale, hw1,
      ← hsum j hj hjs c, hw0]
    ring
  · have hs := hno ht
    subst hs
    exact ⟨hB, hlen, fun _ _ _ => rfl, hsum⟩

/-- One iteration keeps the invariant of the window sum: every unselected
embedding is its original value less the projections on the picks in the
window. -/
theorem ssdStep_window_sum (sqrt : α → α) (useSSDStar : Bool) (rel : List α) (N dim : Nat)
    (windowSize : Int) (orig : List (List α)) (st st2 : SSDLoop α) (hdim : 1 ≤ dim)
    (hw : 2 ≤ windowSize) (h : SSDInv N dim windowSize.toNat st)
    (hQ : (∀ i ∈ st.B.data, i ∈ st.selected) ∧ st.idx ∈ st.selected ∧
      ∀ j, j < N → j ∉ st.selected → ∀ c,
        (st.emb.getD j []).getD c 0 + windowSum st j c = (orig.getD j []).getD c 0)
    (hstep : ssdStep sqrt useSSDStar rel dim windowSize st = some st2) :
    (∀ i ∈ st2.B.data, i ∈ st2.selected) ∧ st2.idx ∈ st2.selected ∧
      ∀ j, j < N → j ∉ st2.selected → ∀ c,
        (st2.emb.getD j []).getD c 0 + windowSum st2 j c = (orig.getD j []).getD c 0 := by
  obtain ⟨hB, hidx, hsum⟩ := hQ
  obtain ⟨st1, pe, st2', hst1, hstep', hf1, _, _, _, ⟨_, hpe⟩, hst2⟩ :=
    ssdStep_spec sqrt useSSDStar rel N dim windowSize st hdim hw h
  rw [hstep] at hstep'
  have heq : st2 = st2' := Option.some.inj hstep'
  subst heq
  obtain ⟨_, _, _, _, _, hlen1, hdim1⟩ := hf1
  obtain ⟨ht2, hemb2, _, hsel2, _, _, hB2, hP2, _, _⟩ := hst2
  obtain ⟨hsub1, hlenBP, hfro1, hsum1⟩ := evict_window_sum sqrt useSSDStar rel N dim windowSize
    orig st hdim hw h hB hsum st1 hst1
  have hmem2 : ∀ i ∈ st.selected, i ∈ st2.selected := fun i hi => by
    rw [hsel2]; exact List.mem_cons_of_mem _ hi
  have hfro2 : ∀ i, i < N → i ∈ st.selected → st2.emb.getD i [] = st1.emb.getD i [] := by
    intro i hi hs
    rw [hemb2, getD_map_snd, hpe i hi, if_pos hs]
  refine ⟨?_, by rw [hsel2]; exact List.mem_cons_self _ _, ?_⟩
  · intro i hi
    rw [hB2] at hi
    rcases List.mem_append.mp hi with hi | hi
    · exact hmem2 i (hsub1 i hi)
    · rw [List.mem_singleton.mp hi]; exact hmem2 _ hidx
  · intro j hj hjs2 c
    have hjs : j ∉ st.selected := fun hs => hjs2 (hmem2 j hs)
    have hpj := hpe j hj
    rw [if_neg hjs] at hpj
    have hlj : (st1.emb.getD j []).length = (st1.emb.getD st.idx []).length := by
      rw [getD_length_of_forall st1.emb dim j hdim1 (by rw [hlen1]; exact hj),
        getD_length_of_forall st1.emb dim st.idx hdim1 (by rw [hlen1]; exact h.idx_lt)]
    have hw2 : windowSum st2 j c =
        winSum st1.B.data st1.P.data st1.emb j c +
          (pe.getD j (0, [])).1 * (st1.emb.getD st.idx []).getD c 0 := by
      unfold windowSum
      rw [hB2, hP2, winSum_concat _ _ _ _ _ _ _ hlenBP, getD_map_fst,
        hfro2 st.idx h.idx_lt hidx]
      congr 1
      exact winSum_congr _ _ _ _ j c (fun i hi =>
        hfro2 i (by
          have := hsub1 i hi
          by_cases ht : (st.t : Int) > windowSize
          · rw [if_pos ht] at hst1
            obtain ⟨i0, p0, restB, restP, emb1, hB0, _, _, hres, _⟩ :=
              restoreWindow_spec N dim windowSize.toNat st hdim (by omega) h (by omega)
            rw [hres] at hst1
            have hb : st1.B.data = restB := by rw [← Option.some.inj hst1]
            exact h.B_lt i (by rw [hB0, ← hb]; exact List.mem_cons_of_mem _ hi)
          · rw [if_neg ht] at hst1
            rw [← Option.some.inj hst1] at hi
            exact h.B_lt i hi) (hsub1 i hi))
    rw [hpj] at hw2
    rw [hemb2, getD_map_snd, hpj, hw2]
    simp only
    rw [getD_zipWith_sub _ _ _ (by rw [floatsScale_length]; exact hlj), getD_floatsScale,
      ← hsum1 j hj hjs c]
    unfold windowSum
    ring

/-- C27: in exact arithmetic, at the head of every iteration reached from
the initial state, each unselected embedding `e_j` is its original value
less the sum, over the picks `i` in the window with their stored
projections `p_i`, of `p_i[j] * e_i`; the embedding of a selected position
is never changed by later iterations; and when the counter exceeds the
window the restore block pops the oldest pick `i` with its projections `p`
and adds `p[j] * e_i` to every unselected `e_j`, which takes the term of `i`
out of the sum and leaves the terms of the other picks: what was subtracted
when `i` entered the window is added back. -/
theorem restore_adds_back_projection (sqrt : α → α) (useSSDStar : Bool) (gamma : α)
    (windowSize : Int) (items : List (Item α)) (rel : List α) (dim n : Nat)
    (hrel : rel.length = items.length) (hN : 1 ≤ items.length) (hdim : 1 ≤ dim)
    (hw : 2 ≤ windowSize) (hemb : ∀ it ∈ items, it.Embedding.length = dim) :
    ∃ st : SSDLoop α,
      ssdLoop sqrt useSSDStar rel dim windowSize n
        (ssdInit sqrt useSSDStar gamma windowSize items rel) = some st ∧
      (∀ i ∈ st.B.data, i ∈ st.selected) ∧
      (∀ j, j < items.length → j ∉ st.selected → ∀ c,
        (st.emb.getD j []).getD c 0 + windowSum st j c =
          ((items.map Item.Embedding).getD j []).getD c 0) ∧
      (∀ k st3, ssdLoop sqrt useSSDStar rel dim windowSize k st = some st3 →
        ∀ i, i < items.length → i ∈ st.selected → st3.emb.getD i [] = st.emb.getD i []) ∧
      ((st.t : Int) > windowSize → ∃ i p st1,
        st.B.data = i :: st1.B.data ∧ st.P.data = p :: st1.P.data ∧ i ∈ st.selected ∧
        restoreWindow dim st = some st1 ∧
        ∀ j, j < items.length → j ∉ st.selected →
          st1.emb.getD j [] = List.zipWith (fun x y => x + y) (st.emb.getD j [])
            (floatsScale (p.getD j 0) (st.emb.getD i [])) ∧
          ∀ c, (st1.emb.getD j []).getD c 0 + windowSum st1 j c =
              ((items.map Item.Embedding).getD j []).getD c 0 ∧
            windowSum st j c = p.getD j 0 * (st.emb.getD i []).getD c 0 + windowSum st1 j c) := by
  have hinit := ssdInit_inv sqrt useSSDStar gamma windowSize items rel dim hrel hN hemb
  obtain ⟨st, hloop, hinv, ⟨hB, hidx, hsum⟩, _⟩ := ssdLoop_induct sqrt useSSDStar rel
    items.length dim windowSize hrel hN hdim hw
    (fun st => (∀ i ∈ st.B.data, i ∈ st.selected) ∧ st.idx ∈ st.selected ∧
      ∀ j, j < items.length → j ∉ st.selected → ∀ c,
        (st.emb.getD j []).getD c 0 + windowSum st j c =
          ((items.map Item.Embedding).getD j []).getD c 0)
    (fun st st2 hinv hQ hstep => ssdStep_window_sum sqrt useSSDStar rel items.length dim
      windowSize (items.map Item.Embedding) st st2 hdim hw hinv hQ hstep)
    n _ hinit
    ⟨fun i hi => absurd hi (by simp [ssdInit, NewCycleQueue]),
      by simp [ssdInit],
      fun j _ _ c => by simp [ssdInit, windowSum, winSum, NewCycleQueue]⟩
  refine ⟨st, hloop, hB, hsum, ?_, ?_⟩
  · intro k st3 hk i hi hs
    obtain ⟨st4, h4, _, ⟨_, hfro⟩, _⟩ := ssdLoop_induct sqrt useSSDStar rel
      items.length dim windowSize hrel hN hdim hw
      (fun s => (∀ i ∈ st.selected, i ∈ s.selected) ∧
        ∀ i, i < items.length → i ∈ st.selected → s.emb.getD i [] = st.emb.getD i [])
      (by
        intro s s2 hsinv ⟨hsub, hsame⟩ hstep
        obtain ⟨_, _, s2', _, hstep', _, _, _, _, _, hs2⟩ :=
          ssdStep_spec sqrt useSSDStar rel items.length dim windowSize s hdim hw hsinv
        rw [hstep] at hstep'
        have heq : s2 = s2' := Option.some.inj hstep'
        subst heq
        refine ⟨fun i hi => by rw [hs2.2.2.2.1]; exact List.mem_cons_of_mem _ (hsub i hi), ?_⟩
        intro i hi his
        rw [(ssdStep_selected_frozen sqrt useSSDStar rel items.length dim windowSize s s2 hdim hw
          hsinv hstep i hi (hsub i his)).1]
        exact hsame i hi his)
      k st hinv ⟨fun _ hi => hi, fun _ _ _ => rfl⟩
    rw [hk] at h4
    rw [Option.some.inj h4]
    exact hfro i hi hs
  · intro ht
    obtain ⟨i, p, restB, restP, emb1, hB0, hP0, _, hres, _, _, hpt⟩ :=
      restoreWindow_spec items.length dim windowSize.toNat st hdim (by omega) hinv (by omega)
    have hst1 : (if (st.t : Int) > windowSize then restoreWindow dim st else some st) =
        some { st with emb := emb1, B := { st.B with data := restB },
                       P := { st.P with data := restP } } := by
      rw [if_pos ht, hres]
    obtain ⟨_, _, hfro1, hsum1⟩ := evict_window_sum sqrt useSSDStar rel items.length dim
      windowSize (items.map Item.Embedding) st hdim hw hinv hB hsum _ hst1
    refine ⟨i, p, _, hB0, hP0, hB i (by rw [hB0]; exact List.mem_cons_self _ _), hres, ?_⟩
    intro j hj hjs
    refine ⟨by have := hpt j hj; rw [if_neg hjs] at this; exact this, ?_⟩
    intro c
    refine ⟨hsum1 j hj hjs c, ?_⟩
    unfold windowSum
    rw [hB0, hP0, winSum_cons]
    congr 1
    symm
    exact winSum_congr _ _ _ _ j c (fun i1 hi1 =>
      hfro1 i1 (hinv.B_lt i1 (by rw [hB0]; exact List.mem_cons_of_mem _ hi1))
        (hB i1 (by rw [hB0]; exact List.mem_cons_of_mem _ hi1)))

end Restore

section RestoreSamples

theorem restore_adds_back_projection_witness :
    (([1, 9 / 10, 8 / 10, 7 / 10, 6 / 10] : List ℚ).length = (s5Items (1 : ℚ)).length ∧
      1 ≤ (s5Items (1 : ℚ)).length ∧ (2 : Int) ≤ 2 ∧
      ∀ it ∈ s5Items (1 : ℚ), it.Embedding.length = 2) ∧
    ∃ st : SSDLoop ℚ,
      ssdLoop Rat.sqrt false [1, 9 / 10, 8 / 10, 7 / 10, 6 / 10] 2 2 3
        (ssdInit Rat.sqrt false (1 / 2) 2 (s5Items 1) [1, 9 / 10, 8 / 10, 7 / 10, 6 / 10]) =
        some st ∧
      ∀ i ∈ st.B.data, i ∈ st.selected :=
  ⟨⟨rfl, by decide, by decide, by decide⟩,
    let ⟨st, h1, h2, _⟩ :=
      restore_adds_back_projection Rat.sqrt false (1 / 2) 2 (s5Items 1)
        [1, 9 / 10, 8 / 10, 7 / 10, 6 / 10] 2 3 rfl (by decide) (by decide) (by decide)
        (by decide)
    ⟨st, h1, h2⟩⟩

end RestoreSamples

/-! ## Distinct picks -/

section Distinct
variable {α : Type} [LinearOrderedField α]

end Distinct

section DistinctSamples

end DistinctSamples

/-! ## Errors of the feature fetches -/

namespace Feature
section FetchErrors
variable {U I : Type}

/-- C23: `userFeatureFetch` and `itemsFeatureFetch` return with the user and
the items as they were (no property added, no panic recovered) whenever
the feature key has no second piece, or the lookup that the configured
path makes (the feature view when `fsViewName` is set, else the model and
the entity; for the items also the entity of the view) finds nothing, or
the call to the feature store returns an error. -/
theorem fetch_errors_leave_entities_unchanged (L : Lib U I) (o : MapOrder) (p : Project)
    (ctxFeatures : Option FeatureMap) (d : FeatureFeatureStoreDao) (user : U)
    (items : List I) :
    (((stringsSplit d.featureKey ':').length < 2 ∨
      (d.fsViewName ≠ "" ∧
        (p.getFeatureView d.fsViewName = none ∨
          ∃ v e, p.getFeatureView d.fsViewName = some v ∧
            v.getOnlineFeatures [userKey L d user] (selectedNames d.userSelectFields) =
              .error e)) ∨
      (d.fsViewName = "" ∧
        (p.getModel d.fsModel = none ∨ p.getFeatureEntity d.fsEntity = none ∨
          ∃ m en e, p.getModel d.fsModel = some m ∧ p.getFeatureEntity d.fsEntity = some en ∧
            m.getOnlineFeaturesWithEntity en.FeatureEntityJoinid [userKey L d user] d.fsEntity =
              .error e))) →
      userFeatureFetch L p ctxFeatures d user = user) ∧
    (((d.featureKey ≠ "item:id" ∧ (stringsSplit d.featureKey ':').length < 2) ∨
      (d.fsViewName ≠ "" ∧
        (p.getFeatureView d.fsViewName = none ∨
          ∃ v, p.getFeatureView d.fsViewName = some v ∧
            ((∃ e, v.getOnlineFeatures (itemFetchKeys L o d items)
                (selectedNames d.itemSelectFields) = .error e) ∨
              p.getFeatureEntity v.featureEntityName = none))) ∨
      (d.fsViewName = "" ∧
        (p.getModel d.fsModel = none ∨ p.getFeatureEntity d.fsEntity = none ∨
          ∃ m en e, p.getModel d.fsModel = some m ∧ p.getFeatureEntity d.fsEntity = some en ∧
            m.getOnlineFeaturesWithEntity en.FeatureEntityJoinid (itemFetchKeys L o d items)
              d.fsEntity = .error e))) →
      itemsFeatureFetch L o p d items = (items, false)) := by
  constructor
  · intro h
    unfold userKey at h
    unfold userFeatureFetch
    rcases hs : stringsSplit d.featureKey ':' with _ | ⟨a, _ | ⟨name, rest⟩⟩
    · rfl
    · rfl
    · rw [hs] at h
      simp only at h ⊢
      by_cases hk : L.userStringProperty user name = ""
      · rw [if_pos hk]
      · rw [if_neg hk]
        rcases h with h | ⟨hv, h⟩ | ⟨hv, h⟩
        · simp only [List.length_cons] at h
          omega
        · rw [if_pos hv]
          unfold doUserFeatureFetchWithFeatureView
          rcases h with h | ⟨v, e, h1, h2⟩
          · rw [h]
          · rw [h1]
            simp only [h2]
        · rw [if_neg (not_not.mpr hv)]
          unfold doUserFeatureFetchWithEntity
          rcases h with h | h | ⟨m, en, e, h1, h2, h3⟩
          · rw [h]
          · rw [h]
            cases p.getModel d.fsModel <;> rfl
          · rw [h1, h2]
            simp only [h3]
  · intro h
    unfold itemFetchKeys at h
    unfold itemsFeatureFetch
    by_cases h0 : items.length = 0
    · rw [if_pos h0]
    · rw [if_neg h0]
      cases hfk : itemKeyField d with
      | none => rfl
      | some fk =>
        rw [hfk] at h
        simp only at h ⊢
        have hkeys : (items.map fun item => (itemKey L fk item, item)).map Prod.fst =
            items.map (itemKey L fk) := by
          rw [List.map_map]
          rfl
        rw [hkeys]
        have hnone : fetchItemFeatures p d
            (o.rangeKeysMap (items.map (itemKey L fk)).dedup) = none := by
          rcases h with ⟨hne, hlen⟩ | ⟨hv, h⟩ | ⟨hv, h⟩
          · unfold itemKeyField at hfk
            rw [if_pos hne] at hfk
            rcases hs : stringsSplit d.featureKey ':' with _ | ⟨a, _ | ⟨name, rest⟩⟩
            · rw [hs] at hfk; simp at hfk
            · rw [hs] at hfk; simp at hfk
            · rw [hs] at hlen
              simp only [List.length_cons] at hlen
              omega
          · unfold fetchItemFeatures
            rw [if_pos hv]
            rcases h with h | ⟨v, h1, h2⟩
            · rw [h]
            · rw [h1]
              simp only
              rcases h2 with ⟨e, he⟩ | h2
              · unfold doItemsFeatureFetchWithFeatureView
                rw [he]
              · cases doItemsFeatureFetchWithFeatureView d v
                  (o.rangeKeysMap (items.map (itemKey L fk)).dedup) with
                | error e => rfl
                | ok features => simp only [h2]
          · unfold fetchItemFeatures
            rw [if_neg (not_not.mpr hv)]
            rcases h with h | h | ⟨m, en, e, h1, h2, h3⟩
            · cases he : p.getFeatureEntity d.fsEntity with
              | none => rfl
              | some entity =>
                simp only
                unfold doItemsFeatureFetchWithEntity
                rw [h]
            · rw [h]
            · rw [h2]
              simp only
              unfold doItemsFeatureFetchWithEntity
              rw [h1]
              simp only [h3]
        rw [hnone]

end FetchErrors
end Feature

/-! ## The join of the feature rows to the items -/

namespace Feature

section Join
variable {U I : Type}

theorem getD_set_ne {β : Type} (l : List β) (i j : Nat) (a d : β) (h : j ≠ i) :
    (l.set i a).getD j d = l.getD j d := by
  rw [List.getD_eq_getElem?_getD, List.getD_eq_getElem?_getD, List.getElem?_set_ne (Ne.symm h)]

theorem getD_set_self {β : Type} (l : List β) (i : Nat) (a d : β) (h : i < l.length) :
    (l.set i a).getD i d = a := by
  rw [List.getD_eq_getElem?_getD, List.getElem?_set_self h, Option.getD_some]

theorem range_split (n i0 : Nat) (h : i0 < n) :
    ∃ pre post, List.range n = pre ++ i0 :: post ∧ (∀ i ∈ pre, i < i0) ∧
      ∀ i ∈ post, i0 < i ∧ i < n := by
  induction n with
  | zero => exact absurd h (Nat.not_lt_zero _)
  | succ n ih =>
    rw [List.range_succ]
    rcases Nat.lt_or_ge i0 n with hlt | hge
    · obtain ⟨pre, post, heq, hpre, hpost⟩ := ih hlt
      refine ⟨pre, post ++ [n], by rw [heq]; simp, hpre, ?_⟩
      intro i hi
      rcases List.mem_append.mp hi with hi | hi
      · exact ⟨(hpost i hi).1, by have := (hpost i hi).2; omega⟩
      · rw [List.mem_singleton.mp hi]; exact ⟨hlt, Nat.lt_succ_self n⟩
    · have : i0 = n := by omega
      subst this
      exact ⟨List.range i0, [], rfl, fun i hi => List.mem_range.mp hi,
        fun i hi => absurd hi (List.not_mem_nil i)⟩

theorem foldl_matchFeature_none (L : Lib U I) (joinId key : String) (idxs : List Nat)
    (st : FetchLoop I)
    (h : ∀ i ∈ idxs, AnyVal.str key ≠ (st.arr.getD i []).get joinId) :
    idxs.foldl (matchFeature L joinId key) st = st := by
  induction idxs with
  | nil => rfl
  | cons i rest ih =>
    have hi : matchFeature L joinId key st i = st := by
      unfold matchFeature
      by_cases hp : st.panicked = true
      · rw [if_pos hp]
      · rw [if_neg hp]
        simp only
        rw [if_neg (h i (List.mem_cons_self _ _))]
    rw [List.foldl_cons, hi]
    exact ih (fun j hj => h j (List.mem_cons_of_mem _ hj))

/-- The scan for a key when exactly the row at `i0` of the slice has it as
its join id: the items of the key get the row, which is replaced by the
last row of the slice, and no index goes out of range. -/
theorem scanFeatures_match (L : Lib U I) (joinId key : String) (st : FetchLoop I) (i0 : Nat)
    (hp : st.panicked = false) (hi0 : i0 < st.len)
    (hmatch : AnyVal.str key = (st.arr.getD i0 []).get joinId)
    (hother : ∀ i, i < st.len → i ≠ i0 → AnyVal.str key ≠ (st.arr.getD i []).get joinId) :
    scanFeatures L joinId key st =
      { arr := st.arr.set i0 (st.arr.getD (st.len - 1) []), len := st.len - 1,
        items := st.items.map fun ki =>
          if ki.1 = key then (ki.1, L.itemAddProperties ki.2 (st.arr.getD i0 [])) else ki,
        panicked := false } := by
  obtain ⟨pre, post, heq, hpre, hpost⟩ := range_split st.len i0 hi0
  unfold scanFeatures
  rw [heq, List.foldl_append, List.foldl_cons]
  rw [foldl_matchFeature_none L joinId key pre st (fun i hi =>
    hother i (by have := hpre i hi; omega) (by have := hpre i hi; omega))]
  have hbody : matchFeature L joinId key st i0 =
      { arr := st.arr.set i0 (st.arr.getD (st.len - 1) []), len := st.len - 1,
        items := st.items.map fun ki =>
          if ki.1 = key then (ki.1, L.itemAddProperties ki.2 (st.arr.getD i0 [])) else ki,
        panicked := false } := by
    unfold matchFeature
    rw [if_neg (by rw [hp]; simp)]
    simp only
    rw [if_pos hmatch, if_pos hi0]
  rw [hbody]
  apply foldl_matchFeature_none
  intro i hi
  simp only
  rw [getD_set_ne _ _ _ _ _ (by have := (hpost i hi).1; omega)]
  exact hother i (hpost i hi).2 (by have := (hpost i hi).1; omega)

theorem scanFeatures_none (L : Lib U I) (joinId key : String) (st : FetchLoop I)
    (h : ∀ i, i < st.len → AnyVal.str key ≠ (st.arr.getD i []).get joinId) :
    scanFeatures L joinId key st = st := by
  unfold scanFeatures
  exact foldl_matchFeature_none L joinId key _ st (fun i hi => h i (List.mem_range.mp hi))

end Join

end Feature

namespace Feature
section JoinStep
variable {U I : Type}

theorem find_join_row (joinId key : String) (rows : List FeatureMap) (r0 : FeatureMap)
    (hnd : (rows.map fun r => r.get joinId).Nodup) (hr0 : r0 ∈ rows)
    (hk : r0.get joinId = AnyVal.str key) :
    rows.find? (fun r => decide (r.get joinId = AnyVal.str key)) = some r0 := by
  cases hf : rows.find? (fun r => decide (r.get joinId = AnyVal.str key)) with
  | none =>
    have := List.find?_eq_none.mp hf r0 hr0
    simp [hk] at this
  | some r1 =>
    have h1 : r1.get joinId = AnyVal.str key := by
      have := List.find?_some hf
      simpa using this
    have hm : r1 ∈ rows := List.mem_of_find?_eq_some hf
    rw [List.inj_on_of_nodup_map hnd hm hr0 (by rw [h1, hk])]

theorem joinedItem_of_row (L : Lib U I) (joinId key : String) (rows : List FeatureMap)
    (r0 : FeatureMap) (item : I)
    (hnd : (rows.map fun r => r.get joinId).Nodup) (hr0 : r0 ∈ rows)
    (hk : r0.get joinId = AnyVal.str key) :
    joinedItem L joinId rows key item = L.itemAddProperties item r0 := by
  unfold joinedItem
  rw [find_join_row joinId key rows r0 hnd hr0 hk]

theorem joinedItem_of_no_row (L : Lib U I) (joinId key : String) (rows : List FeatureMap)
    (item : I) (h : ∀ r ∈ rows, r.get joinId ≠ AnyVal.str key) :
    joinedItem L joinId rows key item = item := by
  unfold joinedItem
  have : rows.find? (fun r => decide (r.get joinId = AnyVal.str key)) = none := by
    rw [List.find?_eq_none]
    intro r hr
    simpa using h r hr
  rw [this]

/-- The scan for a key not handled yet keeps the invariant of the join. -/
theorem scanFeatures_inv (L : Lib U I) (joinId : String) (rows : List FeatureMap)
    (keyed : List (String × I)) (S : List String) (st : FetchLoop I) (key : String)
    (hnd : (rows.map fun r => r.get joinId).Nodup) (hkey : key ∉ S)
    (h : JoinInv L joinId rows keyed S st) :
    JoinInv L joinId rows keyed (key :: S) (scanFeatures L joinId key st) := by
  by_cases hex : ∃ i, i < st.len ∧ AnyVal.str key = (st.arr.getD i []).get joinId
  · obtain ⟨i0, hi0, hm⟩ := hex
    have hother : ∀ i, i < st.len → i ≠ i0 →
        AnyVal.str key ≠ (st.arr.getD i []).get joinId := by
      intro i hi hne heq
      exact hne (h.inj i i0 hi hi0 (by rw [← heq, ← hm]))
    rw [scanFeatures_match L joinId key st i0 h.not_panicked hi0 hm hother]
    have hi0a : i0 < st.arr.length := lt_of_lt_of_le hi0 h.len_le
    have hget : ∀ i, i < st.len - 1 →
        (st.arr.set i0 (st.arr.getD (st.len - 1) [])).getD i [] =
          st.arr.getD (if i = i0 then st.len - 1 else i) [] := by
      intro i _
      by_cases hi : i = i0
      · rw [if_pos hi, hi, getD_set_self _ _ _ _ hi0a]
      · rw [if_neg hi, getD_set_ne _ _ _ _ _ hi]
    have hsig : ∀ i, i < st.len - 1 →
        (if i = i0 then st.len - 1 else i) < st.len ∧ (if i = i0 then st.len - 1 else i) ≠ i0 := by
      intro i hi
      by_cases hii : i = i0
      · rw [if_pos hii]; omega
      · rw [if_neg hii]; exact ⟨by omega, hii⟩
    constructor
    · rfl
    · show st.len - 1 ≤ (st.arr.set i0 _).length
      rw [List.length_set]
      have := h.len_le
      omega
    · intro i j hi hj heq
      simp only at hi hj heq
      rw [hget i hi, hget j hj] at heq
      have := h.inj _ _ (hsig i hi).1 (hsig j hj).1 heq
      by_cases hii : i = i0 <;> by_cases hjj : j = i0
      · rw [hii, hjj]
      · rw [if_pos hii, if_neg hjj] at this; omega
      · rw [if_neg hii, if_pos hjj] at this; omega
      · rw [if_neg hii, if_neg hjj] at this; exact this
    · intro i hi
      simp only at hi ⊢
      rw [hget i hi]
      obtain ⟨hs1, hs2⟩ := hsig i hi
      refine ⟨(h.sound _ hs1).1, ?_⟩
      intro k hk
      rcases List.mem_cons.mp hk with hk | hk
      · rw [hk]; exact hother _ hs1 hs2
      · exact (h.sound _ hs1).2 k hk
    · intro r hr hall
      obtain ⟨i, hi, hri⟩ := h.complete r hr (fun k hk => hall k (List.mem_cons_of_mem _ hk))
      have hne : i ≠ i0 := by
        intro heq
        rw [heq] at hri
        exact hall key (List.mem_cons_self _ _) (by rw [← hri]; exact hm)
      simp only
      by_cases hlast : i = st.len - 1
      · refine ⟨i0, by omega, ?_⟩
        rw [getD_set_self _ _ _ _ hi0a, ← hlast, hri]
      · refine ⟨i, by omega, ?_⟩
        rw [getD_set_ne _ _ _ _ _ hne, hri]
    · show (st.items.map _) = _
      rw [h.items_eq, List.map_map]
      apply List.map_congr_left
      intro ki _
      simp only [Function.comp]
      have hrow := joinedItem_of_row L joinId key rows (st.arr.getD i0 []) ki.2 hnd
        (h.sound i0 hi0).1 hm.symm
      by_cases hk : ki.1 = key
      · have hnS : ki.1 ∉ S := by rw [hk]; exact hkey
        rw [if_neg hnS, if_pos hk, if_pos (by rw [hk]; exact List.mem_cons_self _ _), hk, hrow]
      · by_cases hS : ki.1 ∈ S
        · rw [if_pos hS, if_neg hk, if_pos (List.mem_cons_of_mem _ hS)]
        · rw [if_neg hS, if_neg hk, if_neg (by
            intro hmem
            rcases List.mem_cons.mp hmem with h1 | h1
            · exact hk h1
            · exact hS h1)]
  · push_neg at hex
    rw [scanFeatures_none L joinId key st hex]
    have hnorow : ∀ r ∈ rows, r.get joinId ≠ AnyVal.str key := by
      intro r hr heq
      by_cases hall : ∀ k ∈ S, AnyVal.str k ≠ r.get joinId
      · obtain ⟨i, hi, hri⟩ := h.complete r hr hall
        exact hex i hi (by rw [hri, heq])
      · push_neg at hall
        obtain ⟨k, hk, hkeq⟩ := hall
        rw [heq] at hkeq
        have : k = key := by injection hkeq
        exact hkey (this ▸ hk)
    constructor
    · exact h.not_panicked
    · exact h.len_le
    · exact h.inj
    · intro i hi
      refine ⟨(h.sound i hi).1, ?_⟩
      intro k hk
      rcases List.mem_cons.mp hk with hk | hk
      · rw [hk]; exact hex i hi
      · exact (h.sound i hi).2 k hk
    · intro r hr hall
      exact h.complete r hr (fun k hk => hall k (List.mem_cons_of_mem _ hk))
    · rw [h.items_eq]
      apply List.map_congr_left
      intro ki _
      by_cases hk : ki.1 = key
      · have hnS : ki.1 ∉ S := by rw [hk]; exact hkey
        rw [if_neg hnS, if_pos (by rw [hk]; exact List.mem_cons_self _ _), hk,
          joinedItem_of_no_row L joinId key rows ki.2 hnorow]
        rw [← hk]
      · by_cases hS : ki.1 ∈ S
        · rw [if_pos hS, if_pos (List.mem_cons_of_mem _ hS)]
        · rw [if_neg hS, if_neg (by
            intro hmem
            rcases List.mem_cons.mp hmem with h1 | h1
            · exact hk h1
            · exact hS h1)]

theorem joinFeatures_inv (L : Lib U I) (joinId : String) (rows : List FeatureMap)
    (keyed : List (String × I)) (hnd : (rows.map fun r => r.get joinId).Nodup)
    (ks : List String) (S : List String) (st : FetchLoop I)
    (h : JoinInv L joinId rows keyed S st) (hks : ks.Nodup) (hfresh : ∀ k ∈ ks, k ∉ S) :
    JoinInv L joinId rows keyed (ks.reverse ++ S) (joinFeatures L joinId ks st) := by
  induction ks generalizing S st with
  | nil => exact h
  | cons k rest ih =>
    have hk : k ∉ S := hfresh k (List.mem_cons_self _ _)
    have hstep := scanFeatures_inv L joinId rows keyed S st k hnd hk h
    have := ih (k :: S) (scanFeatures L joinId k st) hstep (List.nodup_cons.mp hks).2
      (by
        intro k1 hk1 hmem
        rcases List.mem_cons.mp hmem with h1 | h1
        · rw [h1] at hk1
          exact (List.nodup_cons.mp hks).1 hk1
        · exact hfresh k1 (List.mem_cons_of_mem _ hk1) h1)
    rw [List.reverse_cons, List.append_assoc]
    exact this

theorem joinInv_init (L : Lib U I) (joinId : String) (rows : List FeatureMap)
    (keyed : List (String × I)) (hnd : (rows.map fun r => r.get joinId).Nodup) :
    JoinInv L joinId rows keyed [] ⟨rows, rows.length, keyed, false⟩ := by
  constructor
  · rfl
  · exact le_refl _
  · intro i j hi hj heq
    simp only at hi hj heq
    rw [List.getD_eq_getElem _ _ hi, List.getD_eq_getElem _ _ hj] at heq
    have hi2 : i < (rows.map fun r => r.get joinId).length := by
      rw [List.length_map]
      exact hi
    have hj2 : j < (rows.map fun r => r.get joinId).length := by
      rw [List.length_map]
      exact hj
    have h1 : (rows.map fun r => r.get joinId)[i] = (rows.map fun r => r.get joinId)[j] := by
      rw [List.getElem_map, List.getElem_map]
      exact heq
    exact (List.Nodup.getElem_inj_iff hnd).mp h1
  · intro i hi
    simp only at hi ⊢
    rw [List.getD_eq_getElem _ _ hi]
    exact ⟨List.getElem_mem _, fun k hk => absurd hk (List.not_mem_nil k)⟩
  · intro r hr _
    obtain ⟨i, hi, hri⟩ := List.getElem_of_mem hr
    exact ⟨i, hi, by simp only; rw [List.getD_eq_getElem _ _ hi, hri]⟩
  · simp

/-- For a non-empty list of items, a well-formed feature key and rows
returned by the store whose join ids are pairwise distinct, whatever the
order in which the runtime enumerates the keys, `itemsFeatureFetch` recovers
no panic and returns every item joined. -/
theorem itemsFeatureFetch_joined (L : Lib U I) (o : MapOrder) (p : Project)
    (d : FeatureFeatureStoreDao) (items : List I) (fk joinId : String)
    (rows : List FeatureMap)
    (hne : items ≠ [])
    (hfk : itemKeyField d = some fk)
    (hfetch : fetchItemFeatures p d (o.rangeKeysMap (items.map (itemKey L fk)).dedup) =
      some (joinId, rows))
    (hnd : (rows.map fun r => r.get joinId).Nodup)
    (hperm : ∀ l, (o.rangeKey2Item l).Perm l) :
    itemsFeatureFetch L o p d items =
      (items.map fun item => joinedItem L joinId rows (itemKey L fk item) item, false) := by
  unfold itemsFeatureFetch
  have h0 : items.length ≠ 0 := fun h => hne (List.length_eq_zero.mp h)
  rw [if_neg h0, hfk]
  simp only
  have hkeys : (items.map fun item => (itemKey L fk item, item)).map Prod.fst =
      items.map (itemKey L fk) := by
    rw [List.map_map]
    rfl
  rw [hkeys, hfetch]
  simp only
  have hp := hperm (items.map (itemKey L fk)).dedup
  have hinv := joinFeatures_inv L joinId rows (items.map fun item => (itemKey L fk item, item))
    hnd (o.rangeKey2Item (items.map (itemKey L fk)).dedup) [] _
    (joinInv_init L joinId rows _ hnd) (hp.nodup_iff.mpr (List.nodup_dedup _))
    (fun k _ => List.not_mem_nil k)
  rw [hinv.not_panicked, hinv.items_eq, List.map_map, List.map_map]
  congr 1
  apply List.map_congr_left
  intro item hitem
  simp only [Function.comp, List.append_nil, List.mem_reverse]
  have hmem : itemKey L fk item ∈ o.rangeKey2Item (items.map (itemKey L fk)).dedup :=
    hp.symm.subset (List.mem_dedup.mpr (List.mem_map_of_mem _ hitem))
  rw [if_pos hmem]

omit U I in
theorem splitChars_cons_sep (sep : Char) (cur rest : List Char) :
    splitChars sep cur (sep :: rest) = String.mk cur.reverse :: splitChars sep [] rest := by
  rw [splitChars, if_pos rfl]

omit U I in
theorem splitChars_cons_ne (sep c : Char) (cur rest : List Char) (h : c ≠ sep) :
    splitChars sep cur (c :: rest) = splitChars sep (c :: cur) rest := by
  rw [splitChars, if_neg h]

omit U I in
theorem splitChars_sep (sep : Char) (cur first rest : List Char) (h : sep ∉ first) :
    splitChars sep cur (first ++ sep :: rest) =
      String.mk (cur.reverse ++ first) :: splitChars sep [] rest := by
  induction first generalizing cur with
  | nil =>
    rw [List.nil_append, splitChars_cons_sep, List.append_nil]
  | cons c f ih =>
    have hc : c ≠ sep := fun heq => h (by rw [heq]; exact List.mem_cons_self _ _)
    have hf : sep ∉ f := fun hm => h (List.mem_cons_of_mem _ hm)
    rw [List.cons_append, splitChars_cons_ne sep c cur _ hc, ih (c :: cur) hf]
    simp

omit U I in
theorem splitChars_end (sep : Char) (cur last : List Char) (h : sep ∉ last) :
    splitChars sep cur last = [String.mk (cur.reverse ++ last)] := by
  induction last generalizing cur with
  | nil =>
    rw [splitChars, List.append_nil]
  | cons c f ih =>
    have hc : c ≠ sep := fun heq => h (by rw [heq]; exact List.mem_cons_self _ _)
    have hf : sep ∉ f := fun hm => h (List.mem_cons_of_mem _ hm)
    rw [splitChars_cons_ne sep c cur _ hc, ih (c :: cur) hf]
    simp

omit U I in
/-- The second piece of a feature key `first:name` or `first:name:...`. -/
theorem stringsSplit_second (s name : String) (first tail : List Char)
    (hs : s.toList = first ++ ':' :: (name.toList ++ tail))
    (hfirst : ':' ∉ first) (hname : ':' ∉ name.toList)
    (htail : tail = [] ∨ ∃ t, tail = ':' :: t) :
    ∃ rest, stringsSplit s ':' = String.mk first :: name :: rest := by
  unfold stringsSplit
  rw [hs, splitChars_sep ':' [] first _ hfirst]
  rcases htail with rfl | ⟨t, rfl⟩
  · rw [List.append_nil, splitChars_end ':' [] name.toList hname]
    exact ⟨[], by simp⟩
  · rw [splitChars_sep ':' [] name.toList t hname]
    exact ⟨splitChars ':' [] t, by simp⟩

/-- C28: for a non-empty list of items and rows returned by the store for
the keys of the items whose join ids are pairwise distinct, whatever the
order in which the runtime enumerates the keys, `itemsFeatureFetch` recovers
no panic (the removal of matched rows indexes no row out of range) and
returns the items joined: the key of an item being its id when the feature
key is `item:id` and else its property named by the second piece of the
feature key, an item whose key is the join id of a row has received the
properties of that row, and an item whose key is the join id of no row is
unchanged. -/
theorem itemsFeatureFetch_joins_rows (L : Lib U I) (o : MapOrder) (p : Project)
    (d : FeatureFeatureStoreDao) (items : List I) (name joinId : String) (key : I → String)
    (rows : List FeatureMap)
    (hne : items ≠ [])
    (hname : d.featureKey = "item:id" ∨
      ∃ first tail : List Char, d.featureKey.toList = first ++ ':' :: (name.toList ++ tail) ∧
        ':' ∉ first ∧ ':' ∉ name.toList ∧ (tail = [] ∨ ∃ t, tail = ':' :: t))
    (hkey : ∀ item, key item =
      if d.featureKey = "item:id" then L.itemId item else L.itemStringProperty item name)
    (hrows :
      (d.fsViewName ≠ "" ∧ ∃ v en, p.getFeatureView d.fsViewName = some v ∧
        v.getOnlineFeatures (o.rangeKeysMap (items.map key).dedup)
          (selectedNames d.itemSelectFields) = Except.ok rows ∧
        p.getFeatureEntity v.featureEntityName = some en ∧ en.FeatureEntityJoinid = joinId) ∨
      (d.fsViewName = "" ∧ ∃ m en, p.getFeatureEntity d.fsEntity = some en ∧
        en.FeatureEntityJoinid = joinId ∧ p.getModel d.fsModel = some m ∧
        m.getOnlineFeaturesWithEntity joinId (o.rangeKeysMap (items.map key).dedup)
          d.fsEntity = Except.ok rows))
    (hnd : (rows.map fun r => r.get joinId).Nodup)
    (hperm : ∀ l, (o.rangeKey2Item l).Perm l) :
    ∃ out, itemsFeatureFetch L o p d items = (out, false) ∧
      List.Forall₂
        (fun item res =>
          (∀ r ∈ rows, r.get joinId = AnyVal.str (key item) →
            res = L.itemAddProperties item r) ∧
          ((∀ r ∈ rows, r.get joinId ≠ AnyVal.str (key item)) → res = item))
        items out := by
  obtain ⟨fk, hfk, hfkey⟩ : ∃ fk, itemKeyField d = some fk ∧ ∀ item, itemKey L fk item = key item := by
    by_cases hid : d.featureKey = "item:id"
    · refine ⟨"item:id", ?_, ?_⟩
      · unfold itemKeyField
        rw [if_neg (not_not.mpr hid), hid]
      · intro item
        rw [hkey item, if_pos hid]
        unfold itemKey
        rw [if_pos rfl]
    · rcases hname with h | ⟨first, tail, hs, hfirst, hnm, htail⟩
      · exact absurd h hid
      · obtain ⟨rest, hsplit⟩ := stringsSplit_second d.featureKey name first tail hs hfirst hnm
          htail
        refine ⟨name, ?_, ?_⟩
        · unfold itemKeyField
          rw [if_pos hid, hsplit]
        · intro item
          rw [hkey item, if_neg hid]
          unfold itemKey
          have hne2 : name ≠ "item:id" := by
            intro heq
            rw [heq] at hnm
            exact hnm (by decide)
          rw [if_neg hne2]
  have hkeyfun : itemKey L fk = key := funext hfkey
  have hfetch : fetchItemFeatures p d (o.rangeKeysMap (items.map (itemKey L fk)).dedup) =
      some (joinId, rows) := by
    rw [hkeyfun]
    unfold fetchItemFeatures
    rcases hrows with ⟨hview, v, en, hv, hok, hen, hj⟩ | ⟨hview, m, en, hen, hj, hm, hok⟩
    · rw [if_pos hview]
      simp only [hv, doItemsFeatureFetchWithFeatureView, hok, hen, hj]
    · rw [if_neg (not_not.mpr hview)]
      simp only [hen, doItemsFeatureFetchWithEntity, hm, hj, hok]
  refine ⟨_, itemsFeatureFetch_joined L o p d items fk joinId rows hne hfk hfetch hnd hperm, ?_⟩
  rw [List.forall₂_map_right_iff, List.forall₂_same]
  intro item _
  rw [hfkey item]
  exact ⟨fun r hr hk => joinedItem_of_row L joinId _ rows r item hnd hr hk,
    fun h => joinedItem_of_no_row L joinId _ rows item h⟩

end JoinStep

section JoinSamples

theorem itemsFeatureFetch_joins_rows_witness :
    (fetchItems ≠ [] ∧ itemDao.featureKey = "item:id" ∧ itemDao.fsViewName = "" ∧
      (rowsProject fetchRows).getFeatureEntity itemDao.fsEntity = some ⟨"item_id"⟩ ∧
      (fetchRows.map fun r => r.get "item_id").Nodup) ∧
    itemsFeatureFetch sampleLib plainOrder (rowsProject fetchRows) itemDao fetchItems =
      ([("a", [("price", .num 1), ("item_id", .str "a")]),
        ("b", [("price", .num 2), ("item_id", .str "b")]),
        ("a", [("price", .num 1), ("item_id", .str "a")])], false) := by
  refine ⟨⟨by decide, rfl, rfl, rfl, by decide⟩, ?_⟩
  obtain ⟨out, hout, hF⟩ := itemsFeatureFetch_joins_rows sampleLib plainOrder
    (rowsProject fetchRows) itemDao fetchItems "" "item_id" (fun item => item.1) fetchRows
    (by decide) (Or.inl rfl) (fun _ => rfl)
    (Or.inr ⟨rfl, ⟨fun _ _ _ => Except.ok fetchRows, 0⟩, ⟨"item_id"⟩, rfl, rfl, rfl, rfl⟩)
    (by decide) (fun l => List.Perm.refl l)
  rw [hout]
  cases hF with
  | cons ha hF =>
    cases hF with
    | cons hb hF =>
      cases hF with
      | cons hc hF =>
        cases hF
        rw [ha.1 [("item_id", .str "a"), ("price", .num 1)] (by decide) (by decide),
          hb.1 [("item_id", .str "b"), ("price", .num 2)] (by decide) (by decide),
          hc.1 [("item_id", .str "a"), ("price", .num 1)] (by decide) (by decide)]
        decide

/-- The fetch of the example: both items with the id "a" get the row of "a",
the item "b" gets the row of "b". -/
theorem itemsFeatureFetch_example :
    itemsFeatureFetch sampleLib plainOrder (rowsProject fetchRows) itemDao fetchItems =
      ([("a", [("price", .num 1), ("item_id", .str "a")]),
        ("b", [("price", .num 2), ("item_id", .str "b")]),
        ("a", [("price", .num 1), ("item_id", .str "a")])], false) := by
  decide

/-- The same fetch keyed by the property `sku` (feature key `item:sku`):
the items are joined on that property, not on their id. -/
theorem itemsFeatureFetch_property_example :
    itemsFeatureFetch sampleLib plainOrder (rowsProject fetchRows)
        { itemDao with featureKey := "item:sku" }
        [("x", [("sku", .str "b")]), ("a", [("sku", .str "none")])] =
      ([("x", [("price", .num 2), ("item_id", .str "b"), ("sku", .str "b")]),
        ("a", [("sku", .str "none")])], false) := by
  decide

/-- With two rows of one join id the removal indexes out of range: the
second row is read from the backing array after the slice was shortened,
and the panic is recovered. -/
theorem itemsFeatureFetch_duplicate_rows_panic :
    (itemsFeatureFetch sampleLib plainOrder
      (rowsProject [[("item_id", .str "a")], [("item_id", .str "a")]]) itemDao fetchItems).2 =
      true := by
  decide

end JoinSamples
end Feature

namespace Feature

theorem fetch_errors_leave_entities_unchanged_witness :
    userFeatureFetch sampleLib (rowsProject fetchRows) none lostModelDao [("id", .str "u1")] =
      [("id", .str "u1")] ∧
    itemsFeatureFetch sampleLib plainOrder (rowsProject fetchRows) lostModelDao fetchItems =
      (fetchItems, false) :=
  ⟨(fetch_errors_leave_entities_unchanged sampleLib plainOrder (rowsProject fetchRows) none
      lostModelDao [("id", .str "u1")] fetchItems).1 (Or.inr (Or.inr ⟨rfl, Or.inl rfl⟩)),
    (fetch_errors_leave_entities_unchanged sampleLib plainOrder (rowsProject fetchRows) none
      lostModelDao [("id", .str "u1")] fetchItems).2 (Or.inr (Or.inr ⟨rfl, Or.inl rfl⟩))⟩

/-- With the model known, the same user fetch does add the first row. -/
theorem userFeatureFetch_example :
    userFeatureFetch sampleLib (rowsProject fetchRows) none itemDao [("id", .str "u1")] =
      overlay [("id", .str "u1")] [("item_id", .str "b"), ("price", .num 2)] := by
  decide

end Feature

end Pairec
